import Mathlib

/-!
# sdl_hilbert: the Hilbert-curve generation engine of `src/main.c`

A shallow embedding of the `HC_*` functions of `src/main.c` and theorems about
them.

Conventions of the embedding.

* C `int` values are `Int`.  Every quantity the engine computes for an order in
  `[1, 15]` is bounded by `2 ^ 30`, so no 32-bit wrap-around is modelled in the
  engine; the two `int` expressions of `HC_Graph_Create` are also given with their
  32-bit range (`HC_sidelen_int32`, `HC_cellcount_int32`), an overflow having no
  defined result.
* A pointer to a heap object is the object itself; `NULL` for a production
  string is `none`.
* An array access outside the allocated block, and reading through a `NULL`
  production pointer, have no defined result in C: the embedding returns `none`.
* Loops carry a fuel argument; running out of fuel is `none` as well.
* The calls into SDL (logging and rendering) are recorded, in order, in the
  field `sdl` carried with the engine context.
-/

namespace HC

/-! ## Data model -/

/-- Shape of a grid cell: `HilbertCell_t`. -/
inductive HilbertCell_t where
  | HC_CELL_NONE
  | HC_CELL_VERT
  | HC_CELL_HORZ
  | HC_CELL_U_R
  | HC_CELL_D_R
  | HC_CELL_D_L
  | HC_CELL_U_L
  deriving DecidableEq, Repr, Fintype

/-- Direction: `HilbertDir_t`, with its fifth enumerator `HC_NUM_DIRS`. -/
inductive HilbertDir_t where
  | HC_DIR_RIGHT
  | HC_DIR_DOWN
  | HC_DIR_LEFT
  | HC_DIR_UP
  | HC_NUM_DIRS
  deriving DecidableEq, Repr, Fintype

open HilbertCell_t HilbertDir_t

/-- Integer value of a cell enumerator. -/
def HilbertCell_t.toInt : HilbertCell_t → Int
  | HC_CELL_NONE => 0
  | HC_CELL_VERT => 1
  | HC_CELL_HORZ => 2
  | HC_CELL_U_R => 3
  | HC_CELL_D_R => 4
  | HC_CELL_D_L => 5
  | HC_CELL_U_L => 6

/-- Integer value of a direction enumerator. -/
def HilbertDir_t.toInt : HilbertDir_t → Int
  | HC_DIR_RIGHT => 0
  | HC_DIR_DOWN => 1
  | HC_DIR_LEFT => 2
  | HC_DIR_UP => 3
  | HC_NUM_DIRS => 4

/-- The cast `(HilbertDir_t) i`.  The engine only casts values reduced modulo
`HC_NUM_DIRS`, which lie in `0 .. 3`. -/
def HilbertDir_t.ofInt (i : Int) : HilbertDir_t :=
  if i = 0 then HC_DIR_RIGHT
  else if i = 1 then HC_DIR_DOWN
  else if i = 2 then HC_DIR_LEFT
  else if i = 3 then HC_DIR_UP
  else HC_NUM_DIRS

/-- An `SDL_Rect`. -/
structure SDL_Rect where
  x : Int
  y : Int
  w : Int
  h : Int
  deriving DecidableEq, Repr

/-- The calls into SDL made by the engine, with the arguments that vary. -/
inductive SDLCall where
  /-- Call `SDL_LogWarn(.., "Unrecognized direction combination: %d -> %d", from, to)` -/
  | warnCombination (src dst : HilbertDir_t)
  /-- Call `SDL_LogDebug(.., "Graph [%2d]: %c", state_index, sym)` -/
  | debugRecurse (depth : Int) (sym : Char)
  /-- Call `SDL_LogDebug(.., "Graph [%2d]: SKIP %c", state_index, sym)` -/
  | debugSkip (depth : Int) (sym : Char)
  /-- Call `SDL_LogDebug(.., "Graph [%2d]: NULL", state_index)` -/
  | debugNull (depth : Int)
  /-- Call `SDL_LogDebug(.., "Graph [%2d]: DONE", state_index)` -/
  | debugDone (depth : Int)
  /-- Call `SDL_LogDebug(.., "Graph [%2d]: LEFT", state_index)` -/
  | debugLeft (depth : Int)
  /-- Call `SDL_LogDebug(.., "Graph [%2d]: RIGHT", state_index)` -/
  | debugRight (depth : Int)
  /-- Call `SDL_LogDebug(.., "Graph [%2d]: FORWARD from: (%d, %d) sl=%d idx=%lu", ..)` -/
  | debugForward (depth x y sl idx : Int)
  /-- Call `SDL_SetRenderTarget(sRenderer, sScreenTexture)` -/
  | setRenderTarget
  /-- Call `SDL_RenderCopy(sRenderer, sSpriteTexture, &srcRect, &destRect)` -/
  | renderCopy (srcRect destRect : SDL_Rect)
  /-- Call `SDL_LogWarn(.., "Graph [%2d]: Unrecognized direction %d", state_index, currDir)` -/
  | warnDirection (depth : Int) (dir : HilbertDir_t)
  /-- Call `SDL_LogWarn(.., "Graph [%2d]: Non-blank cell at (%d,%d)", state_index, x, y)` -/
  | warnNonBlank (depth x y : Int)
  /-- Call `SDL_LogWarn(.., "Unknown dir %d", currDir)` -/
  | warnUnknownDir (dir : HilbertDir_t)
  deriving DecidableEq, Repr

/-- The grid: `HilbertGraph_t`.  `cells` is the block obtained from `calloc`. -/
structure HilbertGraph_t where
  order : Int
  sidelen : Int
  cells : List HilbertCell_t
  deriving DecidableEq, Repr

/-- The production string `HC_ALGO_PROD_A`. -/
def HC_ALGO_PROD_A : String := "-BF+AFA+FB-"

/-- The production string `HC_ALGO_PROD_B`. -/
def HC_ALGO_PROD_B : String := "+AF-BFB-FA+"

/-- Symbol `HC_SYM_NULL = 0`, the terminator of a C string. -/
def HC_SYM_NULL : Char := Char.ofNat 0

/-- Symbol `HC_SYM_SUB_A = 'A'`. -/
def HC_SYM_SUB_A : Char := 'A'

/-- Symbol `HC_SYM_SUB_B = 'B'`. -/
def HC_SYM_SUB_B : Char := 'B'

/-- Symbol `HC_SYM_FORWARD = 'F'`. -/
def HC_SYM_FORWARD : Char := 'F'

/-- Symbol `HC_SYM_LEFT = '-'`. -/
def HC_SYM_LEFT : Char := '-'

/-- Symbol `HC_SYM_RIGHT = '+'`. -/
def HC_SYM_RIGHT : Char := '+'

/-- One frame of the recursion stack: `HilbertAlgoRecurse_t`. -/
structure HilbertAlgoRecurse_t where
  prod : Option String
  prod_index : Int
  deriving DecidableEq, Repr

/-- The engine: `HilbertAlgoContext_t`.  `graph` is the grid the engine points
to, `state` the block of `order` frames obtained from `calloc`.  `sdl` is not a
field of the C struct: it is the sequence of SDL calls made so far. -/
structure HilbertAlgoContext_t where
  graph : HilbertGraph_t
  currDir : HilbertDir_t
  prevDir : HilbertDir_t
  state : List HilbertAlgoRecurse_t
  state_index : Int
  x : Int
  y : Int
  sdl : List SDLCall
  deriving DecidableEq, Repr

/-- Parameter `pScale`, the presentation scale. -/
def pScale : Int := 2

/-- Constant `sSpriteRect = {0, 0, 4, 4}`. -/
def sSpriteRect : SDL_Rect := ⟨0, 0, 4, 4⟩

/-! ## Cell classifier and production table -/

/-- Function `HC_Get_Cell_By_Dirs(from, to)`: the shape returned, and the warning logged
when no case of the two nested switches returns. -/
def HC_Get_Cell_By_Dirs (src dst : HilbertDir_t) : HilbertCell_t × List SDLCall :=
  match src, dst with
  | HC_DIR_UP, HC_DIR_DOWN => (HC_CELL_VERT, [])
  | HC_DIR_UP, HC_DIR_LEFT => (HC_CELL_U_L, [])
  | HC_DIR_UP, HC_DIR_RIGHT => (HC_CELL_U_R, [])
  | HC_DIR_DOWN, HC_DIR_UP => (HC_CELL_VERT, [])
  | HC_DIR_DOWN, HC_DIR_LEFT => (HC_CELL_D_L, [])
  | HC_DIR_DOWN, HC_DIR_RIGHT => (HC_CELL_D_R, [])
  | HC_DIR_LEFT, HC_DIR_UP => (HC_CELL_U_L, [])
  | HC_DIR_LEFT, HC_DIR_DOWN => (HC_CELL_D_L, [])
  | HC_DIR_LEFT, HC_DIR_RIGHT => (HC_CELL_HORZ, [])
  | HC_DIR_RIGHT, HC_DIR_UP => (HC_CELL_U_R, [])
  | HC_DIR_RIGHT, HC_DIR_DOWN => (HC_CELL_D_R, [])
  | HC_DIR_RIGHT, HC_DIR_LEFT => (HC_CELL_HORZ, [])
  | _, _ => (HC_CELL_NONE, [SDLCall.warnCombination src dst])

/-- Function `HC_Get_Prod_Str(sym)`. -/
def HC_Get_Prod_Str (sym : Char) : Option String :=
  if sym = HC_SYM_SUB_A then some HC_ALGO_PROD_A
  else if sym = HC_SYM_SUB_B then some HC_ALGO_PROD_B
  else none

/-- The character `s[i]` of a C string: a character of the text, the
terminating `0` right after it, and nothing defined beyond. -/
def cstr_at (s : String) (i : Int) : Option Char :=
  if i < 0 then none
  else
    match s.data[i.toNat]? with
    | some ch => some ch
    | none => if i.toNat = s.data.length then some HC_SYM_NULL else none

/-! ## Grid creation -/

/-- Function `HC_Graph_Create(order)`.  `mallocOk` and `callocOk` say whether the two
allocations succeed. -/
def HC_Graph_Create (order : Int) (mallocOk callocOk : Bool) : Option HilbertGraph_t :=
  if order < 1 ∨ order > 15 then none
  else if mallocOk then
    let sidelen : Int := ((1 <<< order.toNat : Nat) : Int)
    if callocOk then
      some { order := order, sidelen := sidelen,
             cells := List.replicate (sidelen * sidelen).toNat HC_CELL_NONE }
    else none
  else none

/-- Function `HC_Algo_Create(graph)`.  `memset` leaves `currDir = HC_DIR_RIGHT` and
`state_index = 0`; `calloc` leaves every frame `{NULL, 0}`. -/
def HC_Algo_Create (graph : HilbertGraph_t) (mallocOk callocOk : Bool) :
    Option HilbertAlgoContext_t :=
  if mallocOk then
    if callocOk then
      let frames : List HilbertAlgoRecurse_t :=
        List.replicate graph.order.toNat ⟨none, 0⟩
      if 0 < frames.length then
        some { graph := graph, currDir := HC_DIR_RIGHT, prevDir := HC_DIR_DOWN,
               state := frames.set 0 ⟨HC_Get_Prod_Str HC_SYM_SUB_A, 0⟩,
               state_index := 0, x := 0, y := graph.sidelen - 1, sdl := [] }
      else none
    else none
  else none

/-! ## The generation engine -/

/-- Read `cells[idx]`; `none` outside the allocated block. -/
def cells_read (cells : List HilbertCell_t) (idx : Int) : Option HilbertCell_t :=
  if idx < 0 then none else cells[idx.toNat]?

/-- Store `cells[idx] = v`; `none` outside the allocated block. -/
def cells_write (cells : List HilbertCell_t) (idx : Int) (v : HilbertCell_t) :
    Option (List HilbertCell_t) :=
  if idx < 0 then none
  else if idx.toNat < cells.length then some (cells.set idx.toNat v)
  else none

/-- The frame `algo->state[algo->state_index]` that the local pointer `state`
of `HC_Algo_Advance` refers to; `none` outside the allocated block. -/
def HC_frame (algo : HilbertAlgoContext_t) : Option HilbertAlgoRecurse_t :=
  if algo.state_index < 0 then none else algo.state[algo.state_index.toNat]?

/-- The turn of `case HC_SYM_LEFT`: `(currDir - 1 + HC_NUM_DIRS) % HC_NUM_DIRS`. -/
def HC_turn_left (d : HilbertDir_t) : HilbertDir_t :=
  HilbertDir_t.ofInt (((d.toInt - 1) + HC_NUM_DIRS.toInt) % HC_NUM_DIRS.toInt)

/-- The turn of `case HC_SYM_RIGHT`: `(currDir + 1) % HC_NUM_DIRS`. -/
def HC_turn_right (d : HilbertDir_t) : HilbertDir_t :=
  HilbertDir_t.ofInt ((d.toInt + 1) % HC_NUM_DIRS.toInt)

/-- The first `switch(algo->currDir)` of `case HC_SYM_FORWARD`: the moved cursor
and the warning of the `default` branch. -/
def HC_move_cursor (depth : Int) (d : HilbertDir_t) (x y : Int) : Int × Int × List SDLCall :=
  match d with
  | HC_DIR_UP => (x, y - 1, [])
  | HC_DIR_DOWN => (x, y + 1, [])
  | HC_DIR_LEFT => (x - 1, y, [])
  | HC_DIR_RIGHT => (x + 1, y, [])
  | HC_NUM_DIRS => (x, y, [SDLCall.warnDirection depth d])

/-- The second `switch(algo->currDir)` of `case HC_SYM_FORWARD`: the new
`prevDir` and the warning of the `default` branch. -/
def HC_cache_prev (d prev : HilbertDir_t) : HilbertDir_t × List SDLCall :=
  match d with
  | HC_DIR_RIGHT => (HC_DIR_LEFT, [])
  | HC_DIR_LEFT => (HC_DIR_RIGHT, [])
  | HC_DIR_DOWN => (HC_DIR_UP, [])
  | HC_DIR_UP => (HC_DIR_DOWN, [])
  | HC_NUM_DIRS => (prev, [SDLCall.warnUnknownDir d])

/-- One pass through the body of the `do .. while(advance_continue)` loop of
`HC_Algo_Advance`: the context afterwards and the value of `advance_continue`.
The local pointer `state` always equals `&algo->state[algo->state_index]`. -/
def HC_Algo_Advance_body (algo : HilbertAlgoContext_t) :
    Option (HilbertAlgoContext_t × Bool) :=
  match HC_frame algo with
  | none => none
  | some st =>
    match st.prod with
    | none => none
    | some prod =>
      match cstr_at prod st.prod_index with
      | none => none
      | some sym =>
        -- state->prod_index++
        let frames := algo.state.set algo.state_index.toNat ⟨some prod, st.prod_index + 1⟩
        if sym = HC_SYM_SUB_A ∨ sym = HC_SYM_SUB_B then
          if algo.state_index < algo.graph.order - 1 then
            let top := algo.state_index + 1
            if top.toNat < frames.length then
              some ({ algo with
                        state_index := top
                        state := frames.set top.toNat ⟨HC_Get_Prod_Str sym, 0⟩
                        sdl := algo.sdl ++ [SDLCall.debugRecurse algo.state_index sym] }, true)
            else none
          else
            some ({ algo with
                      state := frames
                      sdl := algo.sdl ++ [SDLCall.debugSkip algo.state_index sym] }, true)
        else if sym = HC_SYM_NULL then
          if algo.state_index > 0 then
            some ({ algo with
                      state := frames.set algo.state_index.toNat ⟨none, 0⟩
                      state_index := algo.state_index - 1
                      sdl := algo.sdl ++ [SDLCall.debugNull algo.state_index] }, true)
          else
            let cell := HC_Get_Cell_By_Dirs algo.prevDir algo.currDir
            match cells_write algo.graph.cells (algo.y * algo.graph.sidelen + algo.x) cell.1 with
            | none => none
            | some cells =>
              some ({ algo with
                        graph := { algo.graph with cells := cells }
                        state := frames.set algo.state_index.toNat ⟨none, st.prod_index + 1⟩
                        sdl := algo.sdl ++ [SDLCall.debugNull algo.state_index,
                                 SDLCall.debugDone algo.state_index] ++ cell.2 }, false)
        else if sym = HC_SYM_LEFT then
          some ({ algo with
                    state := frames
                    currDir := HC_turn_left algo.currDir
                    sdl := algo.sdl ++ [SDLCall.debugLeft algo.state_index] }, true)
        else if sym = HC_SYM_RIGHT then
          some ({ algo with
                    state := frames
                    currDir := HC_turn_right algo.currDir
                    sdl := algo.sdl ++ [SDLCall.debugRight algo.state_index] }, true)
        else if sym = HC_SYM_FORWARD then
          let idx := algo.y * algo.graph.sidelen + algo.x
          let cell := HC_Get_Cell_By_Dirs algo.prevDir algo.currDir
          match cells_write algo.graph.cells idx cell.1 with
          | none => none
          | some cells =>
            let srcRect : SDL_Rect := { sSpriteRect with x := (cell.1.toInt - 1) * 4 }
            let destRect : SDL_Rect :=
              ⟨algo.x * 4 * pScale, algo.y * 4 * pScale, 4 * pScale, 4 * pScale⟩
            let moved := HC_move_cursor algo.state_index algo.currDir algo.x algo.y
            match cells_read cells (moved.2.1 * algo.graph.sidelen + moved.1) with
            | none => none
            | some entered =>
              let cached := HC_cache_prev algo.currDir algo.prevDir
              some ({ algo with
                        graph := { algo.graph with cells := cells }
                        state := frames
                        x := moved.1
                        y := moved.2.1
                        prevDir := cached.1
                        sdl := algo.sdl
                          ++ [SDLCall.debugForward algo.state_index algo.x algo.y
                                algo.graph.sidelen idx]
                          ++ cell.2
                          ++ [SDLCall.setRenderTarget, SDLCall.renderCopy srcRect destRect]
                          ++ moved.2.2
                          ++ (if entered ≠ HC_CELL_NONE then
                                [SDLCall.warnNonBlank algo.state_index moved.1 moved.2.1]
                              else [])
                          ++ cached.2 }, false)
        else
          some ({ algo with state := frames }, true)

/-- The `do .. while(advance_continue)` loop of `HC_Algo_Advance`. -/
def HC_Algo_Advance_loop : Nat → HilbertAlgoContext_t → Option HilbertAlgoContext_t
  | 0, _ => none
  | fuel + 1, algo =>
    match HC_Algo_Advance_body algo with
    | none => none
    | some (algo1, true) => HC_Algo_Advance_loop fuel algo1
    | some (algo1, false) => some algo1

/-- The test `state->prod == NULL` on the current frame. -/
def HC_prod_is_null (algo : HilbertAlgoContext_t) : Option Bool :=
  match HC_frame algo with
  | none => none
  | some st => some st.prod.isNone

/-- Function `HC_Algo_Advance(algo)` for a non-`NULL` `algo`: the context afterwards and
the value returned. -/
def HC_Algo_Advance (fuel : Nat) (algo : HilbertAlgoContext_t) :
    Option (HilbertAlgoContext_t × Bool) :=
  match HC_prod_is_null algo with
  | none => none
  | some true => some (algo, true)
  | some false =>
    match HC_Algo_Advance_loop fuel algo with
    | none => none
    | some algo1 =>
      match HC_prod_is_null algo1 with
      | none => none
      | some r => some (algo1, r)

/-- The loop `while(!HC_Algo_Advance(algo))` of `HC_Algo_Complete`, bounded by
`calls` calls. -/
def HC_Algo_Complete_loop (fuel : Nat) : Nat → HilbertAlgoContext_t → Option HilbertAlgoContext_t
  | 0, _ => none
  | calls + 1, algo =>
    match HC_Algo_Advance fuel algo with
    | none => none
    | some (algo1, true) => some algo1
    | some (algo1, false) => HC_Algo_Complete_loop fuel calls algo1

/-- Function `HC_Algo_Complete(algo)` for a non-`NULL` `algo`; `fuel` bounds both the
number of calls and the passes of the loop inside each call. -/
def HC_Algo_Complete (fuel : Nat) (algo : HilbertAlgoContext_t) : Option HilbertAlgoContext_t :=
  HC_Algo_Complete_loop fuel fuel algo

/-- The engine after `m` successive calls `HC_Algo_Advance(sAlgo)`, the way the
loop of `main` makes them (one per frame, return value ignored). -/
def HC_Algo_Advance_times (fuel : Nat) : Nat → HilbertAlgoContext_t → Option HilbertAlgoContext_t
  | 0, algo => some algo
  | m + 1, algo =>
    match HC_Algo_Advance fuel algo with
    | none => none
    | some (algo1, _) => HC_Algo_Advance_times fuel m algo1

/-- A fresh grid of the given order with a fresh engine on it, all allocations
succeeding. -/
def HC_fresh (order : Int) : Option HilbertAlgoContext_t :=
  match HC_Graph_Create order true true with
  | none => none
  | some graph => HC_Algo_Create graph true true

/-! ## Vocabulary of the proofs -/

/-- Horizontal component of the unit step in a direction. -/
def HCdx : HilbertDir_t → Int
  | HC_DIR_RIGHT => 1
  | HC_DIR_LEFT => -1
  | _ => 0

/-- Vertical component of the unit step in a direction (`y` grows downward). -/
def HCdy : HilbertDir_t → Int
  | HC_DIR_DOWN => 1
  | HC_DIR_UP => -1
  | _ => 0

/-- The direction opposite to a direction. -/
def HCopp : HilbertDir_t → HilbertDir_t
  | HC_DIR_RIGHT => HC_DIR_LEFT
  | HC_DIR_LEFT => HC_DIR_RIGHT
  | HC_DIR_DOWN => HC_DIR_UP
  | HC_DIR_UP => HC_DIR_DOWN
  | HC_NUM_DIRS => HC_NUM_DIRS

/-- The cell at grid coordinate `(x, y)` of a grid of side `N` holds `HC_CELL_NONE`. -/
def HCBlank (cells : List HilbertCell_t) (N x y : Int) : Prop :=
  cells_read cells (y * N + x) = some HC_CELL_NONE

/-- The turtle actions among a sequence of SDL calls: the debug records of
`LEFT`, `RIGHT` and `FORWARD`, as the grammar symbols `-`, `+` and `F`. -/
def HC_actions (l : List SDLCall) : List Char :=
  l.filterMap fun e =>
    match e with
    | SDLCall.debugLeft _ => some HC_SYM_LEFT
    | SDLCall.debugRight _ => some HC_SYM_RIGHT
    | SDLCall.debugForward _ _ _ _ _ => some HC_SYM_FORWARD
    | _ => none

/-- The `SDL_LogWarn` calls among a sequence of SDL calls. -/
def HC_warnings (l : List SDLCall) : List SDLCall :=
  l.filter fun e =>
    match e with
    | SDLCall.warnCombination _ _ => true
    | SDLCall.warnDirection _ _ => true
    | SDLCall.warnNonBlank _ _ _ => true
    | SDLCall.warnUnknownDir _ => true
    | _ => false

/-- The `SDL_RenderCopy` calls among a sequence of SDL calls. -/
def HC_renders (l : List SDLCall) : List SDLCall :=
  l.filter fun e =>
    match e with
    | SDLCall.renderCopy _ _ => true
    | _ => false

/-- The text of a production interpreted with `k` further levels of
recursion below it: every non-terminal is replaced by the text of its own
production at level `k`, and by nothing at level `0`. -/
def HC_expand_text (expand : Char → List Char) (text : List Char) : List Char :=
  text.flatMap fun ch => if ch = HC_SYM_SUB_A ∨ ch = HC_SYM_SUB_B then expand ch else [ch]

/-- The terminal symbols that interpreting the non-terminal `sym` to depth `k`
goes through, in order. -/
def HC_expand : Nat → Char → List Char
  | 0, _ => []
  | k + 1, sym =>
    match HC_Get_Prod_Str sym with
    | none => []
    | some prod => HC_expand_text (HC_expand k) prod.data

/-- Number of `F` symbols in `HC_expand k sym`: `4 ^ k - 1`. -/
def HC_fcount : Nat → Nat
  | 0 => 0
  | k + 1 => 4 * HC_fcount k + 3

/-- Between two calls of a run: the engine is not finished, the cursor is on
the grid and the cell under it is still `HC_CELL_NONE`. -/
def HCGood (c : HilbertAlgoContext_t) : Prop :=
  HC_prod_is_null c = some false ∧
  0 ≤ c.x ∧ c.x < c.graph.sidelen ∧ 0 ≤ c.y ∧ c.y < c.graph.sidelen ∧
  HCBlank c.graph.cells c.graph.sidelen c.x c.y

/-- From `c1` to `c2` the cell under the cursor of `c1` was given a shape other
than `HC_CELL_NONE`, and no other cell changed. -/
def HCWrote (c1 c2 : HilbertAlgoContext_t) : Prop :=
  ∃ v, v ≠ HC_CELL_NONE ∧
    cells_write c1.graph.cells (c1.y * c1.graph.sidelen + c1.x) v = some c2.graph.cells

/-- Number of `FORWARD` records among a sequence of SDL calls. -/
def HC_forwards (l : List SDLCall) : Nat :=
  (HC_actions l).count HC_SYM_FORWARD

/-- From `c1` to `c2` exactly one `Forward` symbol was processed. -/
def HCOneForward (c1 c2 : HilbertAlgoContext_t) : Prop :=
  HC_forwards c2.sdl = HC_forwards c1.sdl + 1

/-- Passes of the loop body: `HCExec c m c2` when the body, run repeatedly from
`c`, reaches `c2` after `m` passes that ended a call (each of them a move that
wrote the cell under the cursor and left a context that is `HCGood`) and any
number of passes that did not. -/
inductive HCExec : HilbertAlgoContext_t → Nat → HilbertAlgoContext_t → Prop where
  | refl (c : HilbertAlgoContext_t) : HCExec c 0 c
  | cont {c c1 c2 : HilbertAlgoContext_t} {m : Nat} :
      HCExec c m c1 → HC_Algo_Advance_body c1 = some (c2, true) → HCExec c m c2
  | stop {c c1 c2 : HilbertAlgoContext_t} {m : Nat} :
      HCExec c m c1 → HC_Algo_Advance_body c1 = some (c2, false) → HCGood c2 →
      HCWrote c1 c2 → HCOneForward c1 c2 → HCExec c (m + 1) c2

/-- A run of `m` calls of `HC_Algo_Advance` that all return `false`, each
writing the cell under the cursor it started on and leaving a context that is
`HCGood`. -/
inductive HCCalls (fuel : Nat) : HilbertAlgoContext_t → Nat → HilbertAlgoContext_t → Prop where
  | refl (c : HilbertAlgoContext_t) : HCCalls fuel c 0 c
  | call {c c1 c2 : HilbertAlgoContext_t} {m : Nat} :
      HCCalls fuel c m c1 → HC_Algo_Advance fuel c1 = some (c2, false) → HCGood c2 →
      HCWrote c1 c2 → HCOneForward c1 c2 → HCCalls fuel c (m + 1) c2


/-- The side of its heading on which a non-terminal draws: `A` to the left,
`B` to the right. -/
def HCside (sym : Char) (h : HilbertDir_t) : HilbertDir_t :=
  if sym = HC_SYM_SUB_A then HC_turn_left h else HC_turn_right h

/-- The square of side `s` that non-terminal `sym`, entered at `(cx, cy)` with
heading `h`, draws in: it extends from the cursor along the heading and to the
side `HCside sym h`. -/
def HCInBox (sym : Char) (h : HilbertDir_t) (cx cy s x y : Int) : Prop :=
  (if HCdx h + HCdx (HCside sym h) = 1 then cx ≤ x ∧ x < cx + s else cx - s < x ∧ x ≤ cx) ∧
  (if HCdy h + HCdy (HCside sym h) = 1 then cy ≤ y ∧ y < cy + s else cy - s < y ∧ y ≤ cy)


/-- What interpreting one non-terminal to depth `k` does (`HCRunsSymbol k`):
read at position `i` of the frame at stack index `d`, with `k` levels of
stack left below, heading `dir` on a blank square of side `s = 2 ^ k`, the
symbol is consumed by passes of the loop body that make `HC_fcount k` moves,
fill the square except for its last cell, end on that last cell with the heading
unchanged, log no warning, and perform the actions `HC_expand k sym`. -/
def HCRunsSymbol (k : Nat) : Prop :=
  ∀ (st : List HilbertAlgoRecurse_t) (d : Nat) (P : String) (i : Int) (sym : Char)
    (n N s : Int) (cells : List HilbertCell_t) (dir prev : HilbertDir_t) (x y : Int)
    (sdl : List SDLCall),
    s = 2 ^ k → d < st.length → (st.length : Int) = n → (d : Int) + k = n - 1 →
    (∀ j, d < j → j < st.length → st[j]? = some ⟨none, 0⟩) →
    cstr_at P i = some sym → (sym = HC_SYM_SUB_A ∨ sym = HC_SYM_SUB_B) →
    (cells.length : Int) = N * N →
    dir ≠ HC_NUM_DIRS → prev ≠ HC_NUM_DIRS → prev ≠ dir → prev ≠ HCside sym dir →
    (∀ x' y', HCInBox sym dir x y s x' y' →
      0 ≤ x' ∧ x' < N ∧ 0 ≤ y' ∧ y' < N ∧ HCBlank cells N x' y') →
    ∃ cells' prev' ev,
      HCExec ⟨⟨n, N, cells⟩, dir, prev, st.set d ⟨some P, i⟩, (d : Int), x, y, sdl⟩
        (HC_fcount k)
        ⟨⟨n, N, cells'⟩, dir, prev', st.set d ⟨some P, i + 1⟩, (d : Int),
          x + (s - 1) * HCdx dir, y + (s - 1) * HCdy dir, sdl ++ ev⟩ ∧
      (cells'.length : Int) = N * N ∧
      (∀ x' y', 0 ≤ x' → x' < N → 0 ≤ y' → y' < N →
        (HCBlank cells' N x' y' ↔ HCBlank cells N x' y' ∧
          ¬(HCInBox sym dir x y s x' y' ∧
            ¬(x' = x + (s - 1) * HCdx dir ∧ y' = y + (s - 1) * HCdy dir)))) ∧
      prev' ≠ HC_NUM_DIRS ∧
      (prev' = prev ∨ (prev' ≠ dir ∧ prev' ≠ HCopp (HCside sym dir))) ∧
      HC_actions ev = HC_expand k sym ∧ HC_warnings ev = [] ∧
      (HC_renders ev).length = HC_fcount k


/-- The context that `HC_Algo_Create` builds on a fresh grid of order `n`. -/
def HCStart (n : Nat) : HilbertAlgoContext_t :=
  ⟨⟨(n : Int), 2 ^ n, List.replicate (2 ^ n * 2 ^ n) HC_CELL_NONE⟩, HC_DIR_RIGHT, HC_DIR_DOWN,
    (List.replicate n ⟨none, 0⟩).set 0 ⟨some HC_ALGO_PROD_A, 0⟩, ((0 : Nat) : Int), 0,
    2 ^ n - 1, []⟩


/-- The context in which a run of order `n` ends: heading right on the
bottom-right cell, the frame at the bottom of the stack cleared after its
terminator was read. -/
def HCFinal (n : Nat) (cells : List HilbertCell_t) (prev : HilbertDir_t)
    (sdl : List SDLCall) : HilbertAlgoContext_t :=
  ⟨⟨(n : Int), 2 ^ n, cells⟩, HC_DIR_RIGHT, prev,
    (List.replicate n ⟨none, 0⟩).set 0 ⟨none, 12⟩, ((0 : Nat) : Int),
    2 ^ n - 1, 2 ^ n - 1, sdl⟩

/-! ## The L-system in the words of the specification -/

/-- One rewriting step of the L-system as the specification words it: every
`A` becomes `-BF+AFA+FB-`, every `B` becomes `+AF-BFB-FA+`, every other symbol
stays. -/
def spec_rewrite (s : List Char) : List Char :=
  s.flatMap fun ch =>
    if ch = 'A' then "-BF+AFA+FB-".data
    else if ch = 'B' then "+AF-BFB-FA+".data
    else [ch]

/-- The string of the specification: the start symbol `A` rewritten exactly `n`
times, the remaining non-terminals `A` and `B` deleted. -/
def spec_lsystem (n : Nat) : List Char :=
  (spec_rewrite^[n] ['A']).filter fun ch => ch != 'A' && ch != 'B'

/-! ## Further vocabulary: stack bounds, loop passes, 32-bit arithmetic, direction pairs -/

/-- The frame array has `order` entries and the stack index points into it. -/
def HCStackOk (c : HilbertAlgoContext_t) : Prop :=
  0 ≤ c.state_index ∧ c.state_index ≤ c.graph.order - 1 ∧
    (c.state.length : Int) = c.graph.order

/-- Contexts the engine goes through: `HCPasses c s` when `s` is reached from `c`
by passes of the loop body of `HC_Algo_Advance`, whether they end a call or not. -/
inductive HCPasses : HilbertAlgoContext_t → HilbertAlgoContext_t → Prop where
  | refl (c : HilbertAlgoContext_t) : HCPasses c c
  | pass {c c1 c2 : HilbertAlgoContext_t} {b : Bool} :
      HCPasses c c1 → HC_Algo_Advance_body c1 = some (c2, b) → HCPasses c c2

/-- Largest value of a 32-bit `int`: `INT_MAX`. -/
def INT_MAX : Int := 2147483647

/-- Smallest value of a 32-bit `int`: `INT_MIN`. -/
def INT_MIN : Int := -2147483648

/-- Value of an `int` expression whose exact result is `v`: `v` itself when a
32-bit `int` can hold it; signed overflow has no defined result. -/
def int32_result (v : Int) : Option Int :=
  if INT_MIN ≤ v ∧ v ≤ INT_MAX then some v else none

/-- The expression `1 << order` of `HC_Graph_Create`, in 32-bit `int`
arithmetic: defined for a shift count in `0 .. 31` whose result an `int` can
hold. -/
def HC_sidelen_int32 (order : Int) : Option Int :=
  if 0 ≤ order ∧ order < 32 then int32_result ((1 <<< order.toNat : Nat) : Int) else none

/-- The expression `graph->sidelen * graph->sidelen` that `HC_Graph_Create` passes to
`calloc`, in 32-bit `int` arithmetic. -/
def HC_cellcount_int32 (order : Int) : Option Int :=
  (HC_sidelen_int32 order).bind fun sidelen => int32_result (sidelen * sidelen)

/-- The four directions: the enumerators of `HilbertDir_t` below `HC_NUM_DIRS`. -/
def HC_directions : List HilbertDir_t :=
  [HC_DIR_RIGHT, HC_DIR_DOWN, HC_DIR_LEFT, HC_DIR_UP]

/-- The ordered pairs of non-equal directions. -/
def HC_ordered_pairs : List (HilbertDir_t × HilbertDir_t) :=
  (HC_directions.flatMap fun a => HC_directions.map fun b => (a, b)).filter
    fun p => decide (p.1 ≠ p.2)

/-- The ordered pairs of non-equal directions that `HC_Get_Cell_By_Dirs` maps to the
shape `s`. -/
def HC_pairs_of_shape (s : HilbertCell_t) : List (HilbertDir_t × HilbertDir_t) :=
  HC_ordered_pairs.filter fun p => decide ((HC_Get_Cell_By_Dirs p.1 p.2).1 = s)

/-- The shapes other than `HC_CELL_NONE` that `HC_Get_Cell_By_Dirs` returns on the
ordered pairs of non-equal directions, each listed once. -/
def HC_pair_shapes : List HilbertCell_t :=
  ((HC_ordered_pairs.map fun p => (HC_Get_Cell_By_Dirs p.1 p.2).1).dedup).filter
    fun s => decide (s ≠ HC_CELL_NONE)

/-- The ordered pairs of non-equal directions on which `HC_Get_Cell_By_Dirs` returns a
shape other than `HC_CELL_NONE`. -/
def HC_shaped_pairs : List (HilbertDir_t × HilbertDir_t) :=
  HC_ordered_pairs.filter fun p => decide ((HC_Get_Cell_By_Dirs p.1 p.2).1 ≠ HC_CELL_NONE)

set_option linter.all false

/-! ## Cell indices -/

theorem idx_bounds {N x y : Int} (hx0 : 0 ≤ x) (hx : x < N) (hy0 : 0 ≤ y) (hy : y < N) :
    0 ≤ y * N + x ∧ y * N + x < N * N := by
  constructor
  · nlinarith
  · nlinarith

theorem idx_inj {N x y x' y' : Int} (hx0 : 0 ≤ x) (hx : x < N) (hx0' : 0 ≤ x') (hx' : x' < N)
    (h : y * N + x = y' * N + x') : x = x' ∧ y = y' := by
  have hy : y = y' := by
    by_contra hne
    rcases lt_or_gt_of_ne hne with hlt | hgt
    · have : (y + 1) * N ≤ y' * N := by nlinarith
      nlinarith
    · have : (y' + 1) * N ≤ y * N := by nlinarith
      nlinarith
  subst hy
  exact ⟨by omega, rfl⟩

theorem cells_write_grid {cells : List HilbertCell_t} {N x y : Int} (v : HilbertCell_t)
    (hlen : (cells.length : Int) = N * N)
    (hx0 : 0 ≤ x) (hx : x < N) (hy0 : 0 ≤ y) (hy : y < N) :
    cells_write cells (y * N + x) v = some (cells.set (y * N + x).toNat v) := by
  have hb := idx_bounds hx0 hx hy0 hy
  unfold cells_write
  rw [if_neg (by omega), if_pos (by omega)]

theorem cells_read_grid {cells : List HilbertCell_t} {N x y : Int}
    (hlen : (cells.length : Int) = N * N)
    (hx0 : 0 ≤ x) (hx : x < N) (hy0 : 0 ≤ y) (hy : y < N) :
    ∃ v, cells_read cells (y * N + x) = some v := by
  have hb := idx_bounds hx0 hx hy0 hy
  have hlt : (y * N + x).toNat < cells.length := by omega
  refine ⟨cells[(y * N + x).toNat], ?_⟩
  unfold cells_read
  rw [if_neg (by omega)]
  exact List.getElem?_eq_getElem hlt

theorem blank_set {cells : List HilbertCell_t} {N px py x y : Int} {v : HilbertCell_t}
    (hlen : (cells.length : Int) = N * N) (hv : v ≠ HC_CELL_NONE)
    (hpx0 : 0 ≤ px) (hpx : px < N) (hpy0 : 0 ≤ py) (hpy : py < N)
    (hx0 : 0 ≤ x) (hx : x < N) (hy0 : 0 ≤ y) (hy : y < N) :
    HCBlank (cells.set (py * N + px).toNat v) N x y ↔
      HCBlank cells N x y ∧ ¬(x = px ∧ y = py) := by
  have hb := idx_bounds hx0 hx hy0 hy
  have hpb := idx_bounds hpx0 hpx hpy0 hpy
  unfold HCBlank cells_read
  rw [if_neg (by omega), if_neg (by omega)]
  by_cases hxy : x = px ∧ y = py
  · obtain ⟨rfl, rfl⟩ := hxy
    have hlt : (y * N + x).toNat < cells.length := by omega
    simp [List.getElem?_set_self, hlt, hv]
  · have hne : (py * N + px).toNat ≠ (y * N + x).toNat := by
      intro heq
      have : py * N + px = y * N + x := by omega
      have := idx_inj hpx0 hpx hx0 hx this
      omega
    simp [List.getElem?_set_ne hne, hxy]

/-! ## Single passes of the loop body -/

theorem frame_set_self {st : List HilbertAlgoRecurse_t} {d : Nat} (hd : d < st.length)
    (f : HilbertAlgoRecurse_t) (g : HilbertGraph_t) (dir prev : HilbertDir_t) (x y : Int)
    (sdl : List SDLCall) :
    HC_frame ⟨g, dir, prev, st.set d f, (d : Int), x, y, sdl⟩ = some f := by
  simp [HC_frame, hd]

theorem body_left {st : List HilbertAlgoRecurse_t} {d : Nat} (hd : d < st.length)
    (P : String) (i : Int) (hsym : cstr_at P i = some HC_SYM_LEFT)
    (g : HilbertGraph_t) (dir prev : HilbertDir_t) (x y : Int) (sdl : List SDLCall) :
    HC_Algo_Advance_body ⟨g, dir, prev, st.set d ⟨some P, i⟩, (d : Int), x, y, sdl⟩ =
      some (⟨g, HC_turn_left dir, prev, st.set d ⟨some P, i + 1⟩, (d : Int), x, y,
              sdl ++ [SDLCall.debugLeft d]⟩, true) := by
  unfold HC_Algo_Advance_body
  rw [frame_set_self hd]
  simp [hsym, HC_SYM_LEFT, HC_SYM_SUB_A, HC_SYM_SUB_B, HC_SYM_NULL]

theorem body_right {st : List HilbertAlgoRecurse_t} {d : Nat} (hd : d < st.length)
    (P : String) (i : Int) (hsym : cstr_at P i = some HC_SYM_RIGHT)
    (g : HilbertGraph_t) (dir prev : HilbertDir_t) (x y : Int) (sdl : List SDLCall) :
    HC_Algo_Advance_body ⟨g, dir, prev, st.set d ⟨some P, i⟩, (d : Int), x, y, sdl⟩ =
      some (⟨g, HC_turn_right dir, prev, st.set d ⟨some P, i + 1⟩, (d : Int), x, y,
              sdl ++ [SDLCall.debugRight d]⟩, true) := by
  unfold HC_Algo_Advance_body
  rw [frame_set_self hd]
  simp [hsym, HC_SYM_LEFT, HC_SYM_RIGHT, HC_SYM_SUB_A, HC_SYM_SUB_B, HC_SYM_NULL]

theorem body_skip {st : List HilbertAlgoRecurse_t} {d : Nat} (hd : d < st.length)
    (P : String) (i : Int) (sym : Char) (hsym : cstr_at P i = some sym)
    (hnt : sym = HC_SYM_SUB_A ∨ sym = HC_SYM_SUB_B)
    {n N : Int} (hbot : ¬ ((d : Int) < n - 1)) (cells : List HilbertCell_t)
    (dir prev : HilbertDir_t) (x y : Int) (sdl : List SDLCall) :
    HC_Algo_Advance_body ⟨⟨n, N, cells⟩, dir, prev, st.set d ⟨some P, i⟩, (d : Int), x, y, sdl⟩ =
      some (⟨⟨n, N, cells⟩, dir, prev, st.set d ⟨some P, i + 1⟩, (d : Int), x, y,
              sdl ++ [SDLCall.debugSkip d sym]⟩, true) := by
  unfold HC_Algo_Advance_body
  rw [frame_set_self hd]
  simp [hsym, hnt, hbot]

theorem body_recurse {st : List HilbertAlgoRecurse_t} {d : Nat} (hd : d + 1 < st.length)
    (P : String) (i : Int) (sym : Char) (hsym : cstr_at P i = some sym)
    (hnt : sym = HC_SYM_SUB_A ∨ sym = HC_SYM_SUB_B)
    {n N : Int} (hdeep : (d : Int) < n - 1) (cells : List HilbertCell_t)
    (dir prev : HilbertDir_t) (x y : Int) (sdl : List SDLCall) :
    HC_Algo_Advance_body ⟨⟨n, N, cells⟩, dir, prev, st.set d ⟨some P, i⟩, (d : Int), x, y, sdl⟩ =
      some (⟨⟨n, N, cells⟩, dir, prev,
              (st.set d ⟨some P, i + 1⟩).set (d + 1) ⟨HC_Get_Prod_Str sym, 0⟩,
              ((d + 1 : Nat) : Int), x, y, sdl ++ [SDLCall.debugRecurse d sym]⟩, true) := by
  unfold HC_Algo_Advance_body
  rw [frame_set_self (by omega)]
  have h1 : ((d : Int) + 1).toNat = d + 1 := by omega
  simp [hsym, hnt, hdeep, h1, hd]

theorem body_return {st : List HilbertAlgoRecurse_t} {d : Nat} (hd : d + 1 < st.length)
    (P : String) (i : Int) (hsym : cstr_at P i = some HC_SYM_NULL)
    (g : HilbertGraph_t) (dir prev : HilbertDir_t) (x y : Int) (sdl : List SDLCall) :
    HC_Algo_Advance_body
        ⟨g, dir, prev, st.set (d + 1) ⟨some P, i⟩, ((d + 1 : Nat) : Int), x, y, sdl⟩ =
      some (⟨g, dir, prev, st.set (d + 1) ⟨none, 0⟩, (d : Int), x, y,
              sdl ++ [SDLCall.debugNull ((d + 1 : Nat) : Int)]⟩, true) := by
  unfold HC_Algo_Advance_body
  rw [frame_set_self hd]
  have h1 : (0 : Int) < ((d + 1 : Nat) : Int) := by omega
  simp [hsym, HC_SYM_SUB_A, HC_SYM_SUB_B, HC_SYM_NULL, h1]

theorem classify_ne_none {p d : HilbertDir_t} (hp : p ≠ HC_NUM_DIRS) (hd : d ≠ HC_NUM_DIRS)
    (hne : p ≠ d) :
    (HC_Get_Cell_By_Dirs p d).1 ≠ HC_CELL_NONE ∧ (HC_Get_Cell_By_Dirs p d).2 = [] := by
  cases p <;> cases d <;> simp_all [HC_Get_Cell_By_Dirs]

theorem body_forward {st : List HilbertAlgoRecurse_t} {d : Nat} (hd : d < st.length)
    (P : String) (i : Int) (hsym : cstr_at P i = some HC_SYM_FORWARD)
    {n N : Int} {cells : List HilbertCell_t} (hlen : (cells.length : Int) = N * N)
    {dir prev : HilbertDir_t} (hdir : dir ≠ HC_NUM_DIRS) (hprev : prev ≠ HC_NUM_DIRS)
    (hne : prev ≠ dir) {x y : Int}
    (hx0 : 0 ≤ x) (hx : x < N) (hy0 : 0 ≤ y) (hy : y < N)
    (hx0' : 0 ≤ x + HCdx dir) (hx' : x + HCdx dir < N)
    (hy0' : 0 ≤ y + HCdy dir) (hy' : y + HCdy dir < N)
    (hblank : HCBlank cells N (x + HCdx dir) (y + HCdy dir)) (sdl : List SDLCall) :
    ∃ cells' ev,
      HC_Algo_Advance_body
          ⟨⟨n, N, cells⟩, dir, prev, st.set d ⟨some P, i⟩, (d : Int), x, y, sdl⟩ =
        some (⟨⟨n, N, cells'⟩, dir, HCopp dir, st.set d ⟨some P, i + 1⟩, (d : Int),
                x + HCdx dir, y + HCdy dir, sdl ++ ev⟩, false) ∧
      (cells'.length : Int) = N * N ∧
      (∀ x' y', 0 ≤ x' → x' < N → 0 ≤ y' → y' < N →
        (HCBlank cells' N x' y' ↔ HCBlank cells N x' y' ∧ ¬(x' = x ∧ y' = y))) ∧
      HCBlank cells' N (x + HCdx dir) (y + HCdy dir) ∧
      (∃ v, v ≠ HC_CELL_NONE ∧ cells_write cells (y * N + x) v = some cells') ∧
      HC_actions ev = [HC_SYM_FORWARD] ∧ HC_warnings ev = [] ∧ (HC_renders ev).length = 1 := by
  obtain ⟨hv, hw⟩ := classify_ne_none hprev hdir hne
  have hset : ∀ x' y', 0 ≤ x' → x' < N → 0 ≤ y' → y' < N →
      (HCBlank (cells.set (y * N + x).toNat (HC_Get_Cell_By_Dirs prev dir).1) N x' y' ↔
        HCBlank cells N x' y' ∧ ¬(x' = x ∧ y' = y)) :=
    fun x' y' h1 h2 h3 h4 => blank_set hlen hv hx0 hx hy0 hy h1 h2 h3 h4
  have hmove : ¬(x + HCdx dir = x ∧ y + HCdy dir = y) := by
    cases dir <;> simp [HCdx, HCdy] at hdir ⊢
  have hnew : HCBlank (cells.set (y * N + x).toNat (HC_Get_Cell_By_Dirs prev dir).1) N
      (x + HCdx dir) (y + HCdy dir) :=
    (hset _ _ hx0' hx' hy0' hy').2 ⟨hblank, hmove⟩
  have hmv : HC_move_cursor (d : Int) dir x y = (x + HCdx dir, y + HCdy dir, []) := by
    cases dir <;> simp [HC_move_cursor, HCdx, HCdy] at hdir ⊢ <;> rfl
  have hcp : HC_cache_prev dir prev = (HCopp dir, []) := by
    cases dir <;> simp [HC_cache_prev, HCopp] at hdir ⊢
  refine ⟨cells.set (y * N + x).toNat (HC_Get_Cell_By_Dirs prev dir).1,
    [SDLCall.debugForward (d : Int) x y N (y * N + x), SDLCall.setRenderTarget,
      SDLCall.renderCopy
        { sSpriteRect with x := ((HC_Get_Cell_By_Dirs prev dir).1.toInt - 1) * 4 }
        ⟨x * 4 * pScale, y * 4 * pScale, 4 * pScale, 4 * pScale⟩],
    ?_, ?_, hset, hnew, ⟨_, hv, cells_write_grid _ hlen hx0 hx hy0 hy⟩, ?_, ?_, ?_⟩
  · unfold HC_Algo_Advance_body
    rw [frame_set_self hd]
    have hrd : cells_read (cells.set (y * N + x).toNat (HC_Get_Cell_By_Dirs prev dir).1)
        ((y + HCdy dir) * N + (x + HCdx dir)) = some HC_CELL_NONE := hnew
    simp only [hsym, cells_write_grid _ hlen hx0 hx hy0 hy, hmv, hcp, hw, hrd]
    simp [HC_SYM_LEFT, HC_SYM_RIGHT, HC_SYM_SUB_A, HC_SYM_SUB_B, HC_SYM_NULL, HC_SYM_FORWARD]
  · simp [hlen]
  · simp [HC_actions]
  · simp [HC_warnings]
  · simp [HC_renders]

theorem body_done {st : List HilbertAlgoRecurse_t} (hd : 0 < st.length)
    (P : String) (i : Int) (hsym : cstr_at P i = some HC_SYM_NULL)
    {n N : Int} {cells : List HilbertCell_t} (hlen : (cells.length : Int) = N * N)
    {dir prev : HilbertDir_t} (hdir : dir ≠ HC_NUM_DIRS) (hprev : prev ≠ HC_NUM_DIRS)
    (hne : prev ≠ dir) {x y : Int}
    (hx0 : 0 ≤ x) (hx : x < N) (hy0 : 0 ≤ y) (hy : y < N) (sdl : List SDLCall) :
    ∃ cells' ev,
      HC_Algo_Advance_body
          ⟨⟨n, N, cells⟩, dir, prev, st.set 0 ⟨some P, i⟩, ((0 : Nat) : Int), x, y, sdl⟩ =
        some (⟨⟨n, N, cells'⟩, dir, prev, st.set 0 ⟨none, i + 1⟩, ((0 : Nat) : Int),
                x, y, sdl ++ ev⟩, false) ∧
      (cells'.length : Int) = N * N ∧
      (∀ x' y', 0 ≤ x' → x' < N → 0 ≤ y' → y' < N →
        (HCBlank cells' N x' y' ↔ HCBlank cells N x' y' ∧ ¬(x' = x ∧ y' = y))) ∧
      (∃ v, v ≠ HC_CELL_NONE ∧ cells_write cells (y * N + x) v = some cells') ∧
      HC_actions ev = [] ∧ HC_warnings ev = [] ∧ (HC_renders ev).length = 0 := by
  obtain ⟨hv, hw⟩ := classify_ne_none hprev hdir hne
  refine ⟨cells.set (y * N + x).toNat (HC_Get_Cell_By_Dirs prev dir).1,
    [SDLCall.debugNull ((0 : Nat) : Int), SDLCall.debugDone ((0 : Nat) : Int)], ?_, ?_,
    fun x' y' h1 h2 h3 h4 => blank_set hlen hv hx0 hx hy0 hy h1 h2 h3 h4,
    ⟨_, hv, cells_write_grid _ hlen hx0 hx hy0 hy⟩, ?_, ?_, ?_⟩
  · unfold HC_Algo_Advance_body
    rw [frame_set_self hd]
    simp only [hsym, cells_write_grid _ hlen hx0 hx hy0 hy, hw]
    simp [HC_SYM_SUB_A, HC_SYM_SUB_B, HC_SYM_NULL]
  · simp [hlen]
  · simp [HC_actions]
  · simp [HC_warnings]
  · simp [HC_renders]

/-! ## Composition of passes -/

theorem HCExec.trans {a b c : HilbertAlgoContext_t} {m k : Nat}
    (h1 : HCExec a m b) (h2 : HCExec b k c) : HCExec a (m + k) c := by
  induction h2 with
  | refl => exact h1
  | cont _ hb ih => exact HCExec.cont ih hb
  | stop _ hb hg hw hf ih => exact HCExec.stop ih hb hg hw hf




/-! ## Geometry of the two productions -/

theorem turn_left_right : HC_turn_left HC_DIR_RIGHT = HC_DIR_UP := by decide
theorem turn_left_down : HC_turn_left HC_DIR_DOWN = HC_DIR_RIGHT := by decide
theorem turn_left_left : HC_turn_left HC_DIR_LEFT = HC_DIR_DOWN := by decide
theorem turn_left_up : HC_turn_left HC_DIR_UP = HC_DIR_LEFT := by decide
theorem turn_right_right : HC_turn_right HC_DIR_RIGHT = HC_DIR_DOWN := by decide
theorem turn_right_down : HC_turn_right HC_DIR_DOWN = HC_DIR_LEFT := by decide
theorem turn_right_left : HC_turn_right HC_DIR_LEFT = HC_DIR_UP := by decide
theorem turn_right_up : HC_turn_right HC_DIR_UP = HC_DIR_RIGHT := by decide

theorem inbox_A_right (cx cy s x y : Int) : HCInBox HC_SYM_SUB_A HC_DIR_RIGHT cx cy s x y ↔
    (cx ≤ x ∧ x < cx + s) ∧ (cy - s < y ∧ y ≤ cy) := by
  simp [HCInBox, HCside, HCdx, HCdy, turn_left_right, turn_left_down, turn_left_left,
    turn_left_up, turn_right_right, turn_right_down, turn_right_left, turn_right_up]
theorem inbox_A_down (cx cy s x y : Int) : HCInBox HC_SYM_SUB_A HC_DIR_DOWN cx cy s x y ↔
    (cx ≤ x ∧ x < cx + s) ∧ (cy ≤ y ∧ y < cy + s) := by
  simp [HCInBox, HCside, HCdx, HCdy, turn_left_right, turn_left_down, turn_left_left,
    turn_left_up, turn_right_right, turn_right_down, turn_right_left, turn_right_up]
theorem inbox_A_left (cx cy s x y : Int) : HCInBox HC_SYM_SUB_A HC_DIR_LEFT cx cy s x y ↔
    (cx - s < x ∧ x ≤ cx) ∧ (cy ≤ y ∧ y < cy + s) := by
  simp [HCInBox, HCside, HCdx, HCdy, turn_left_right, turn_left_down, turn_left_left,
    turn_left_up, turn_right_right, turn_right_down, turn_right_left, turn_right_up]
theorem inbox_A_up (cx cy s x y : Int) : HCInBox HC_SYM_SUB_A HC_DIR_UP cx cy s x y ↔
    (cx - s < x ∧ x ≤ cx) ∧ (cy - s < y ∧ y ≤ cy) := by
  simp [HCInBox, HCside, HCdx, HCdy, turn_left_right, turn_left_down, turn_left_left,
    turn_left_up, turn_right_right, turn_right_down, turn_right_left, turn_right_up]
theorem inbox_B_right (cx cy s x y : Int) : HCInBox HC_SYM_SUB_B HC_DIR_RIGHT cx cy s x y ↔
    (cx ≤ x ∧ x < cx + s) ∧ (cy ≤ y ∧ y < cy + s) := by
  simp [HCInBox, HCside, HCdx, HCdy, turn_left_right, turn_left_down, turn_left_left,
    turn_left_up, turn_right_right, turn_right_down, turn_right_left, turn_right_up, HC_SYM_SUB_A, HC_SYM_SUB_B]
theorem inbox_B_down (cx cy s x y : Int) : HCInBox HC_SYM_SUB_B HC_DIR_DOWN cx cy s x y ↔
    (cx - s < x ∧ x ≤ cx) ∧ (cy ≤ y ∧ y < cy + s) := by
  simp [HCInBox, HCside, HCdx, HCdy, turn_left_right, turn_left_down, turn_left_left,
    turn_left_up, turn_right_right, turn_right_down, turn_right_left, turn_right_up, HC_SYM_SUB_A, HC_SYM_SUB_B]
theorem inbox_B_left (cx cy s x y : Int) : HCInBox HC_SYM_SUB_B HC_DIR_LEFT cx cy s x y ↔
    (cx - s < x ∧ x ≤ cx) ∧ (cy - s < y ∧ y ≤ cy) := by
  simp [HCInBox, HCside, HCdx, HCdy, turn_left_right, turn_left_down, turn_left_left,
    turn_left_up, turn_right_right, turn_right_down, turn_right_left, turn_right_up, HC_SYM_SUB_A, HC_SYM_SUB_B]
theorem inbox_B_up (cx cy s x y : Int) : HCInBox HC_SYM_SUB_B HC_DIR_UP cx cy s x y ↔
    (cx ≤ x ∧ x < cx + s) ∧ (cy - s < y ∧ y ≤ cy) := by
  simp [HCInBox, HCside, HCdx, HCdy, turn_left_right, turn_left_down, turn_left_left,
    turn_left_up, turn_right_right, turn_right_down, turn_right_left, turn_right_up, HC_SYM_SUB_A, HC_SYM_SUB_B]


theorem HCExec.cast {a b b' : HilbertAlgoContext_t} {m m' : Nat}
    (h : HCExec a m b) (hm : m = m') (hb : b = b') : HCExec a m' b' := by
  subst hm; subst hb; exact h

theorem expand_succ_A (k : Nat) : HC_expand (k + 1) HC_SYM_SUB_A =
    [HC_SYM_LEFT] ++ HC_expand k HC_SYM_SUB_B ++ [HC_SYM_FORWARD] ++ [HC_SYM_RIGHT]
      ++ HC_expand k HC_SYM_SUB_A ++ [HC_SYM_FORWARD] ++ HC_expand k HC_SYM_SUB_A
      ++ [HC_SYM_RIGHT] ++ [HC_SYM_FORWARD] ++ HC_expand k HC_SYM_SUB_B ++ [HC_SYM_LEFT] := by
  simp [HC_expand, HC_Get_Prod_Str, HC_ALGO_PROD_A, HC_expand_text, HC_SYM_SUB_A, HC_SYM_SUB_B,
    HC_SYM_LEFT, HC_SYM_RIGHT, HC_SYM_FORWARD]

theorem expand_succ_B (k : Nat) : HC_expand (k + 1) HC_SYM_SUB_B =
    [HC_SYM_RIGHT] ++ HC_expand k HC_SYM_SUB_A ++ [HC_SYM_FORWARD] ++ [HC_SYM_LEFT]
      ++ HC_expand k HC_SYM_SUB_B ++ [HC_SYM_FORWARD] ++ HC_expand k HC_SYM_SUB_B
      ++ [HC_SYM_LEFT] ++ [HC_SYM_FORWARD] ++ HC_expand k HC_SYM_SUB_A ++ [HC_SYM_RIGHT] := by
  simp [HC_expand, HC_Get_Prod_Str, HC_ALGO_PROD_B, HC_expand_text, HC_SYM_SUB_A, HC_SYM_SUB_B,
    HC_SYM_LEFT, HC_SYM_RIGHT, HC_SYM_FORWARD]

theorem actions_append (a b : List SDLCall) :
    HC_actions (a ++ b) = HC_actions a ++ HC_actions b := by
  simp [HC_actions]

theorem warnings_append (a b : List SDLCall) :
    HC_warnings (a ++ b) = HC_warnings a ++ HC_warnings b := by
  simp [HC_warnings]

theorem renders_append (a b : List SDLCall) :
    HC_renders (a ++ b) = HC_renders a ++ HC_renders b := by
  simp [HC_renders]

/-! ## Moves and turns inside a run -/

theorem turn_left_ne (d : HilbertDir_t) : HC_turn_left d ≠ HC_NUM_DIRS := by
  cases d <;> decide

theorem turn_right_ne (d : HilbertDir_t) : HC_turn_right d ≠ HC_NUM_DIRS := by
  cases d <;> decide

theorem good_intro {st : List HilbertAlgoRecurse_t} {d : Nat} (hd : d < st.length)
    (P : String) (i : Int) (n N : Int) (cells : List HilbertCell_t)
    (dir prev : HilbertDir_t) {x y : Int}
    (hx0 : 0 ≤ x) (hx : x < N) (hy0 : 0 ≤ y) (hy : y < N) (hb : HCBlank cells N x y)
    (sdl : List SDLCall) :
    HCGood ⟨⟨n, N, cells⟩, dir, prev, st.set d ⟨some P, i⟩, (d : Int), x, y, sdl⟩ := by
  refine ⟨?_, hx0, hx, hy0, hy, hb⟩
  unfold HC_prod_is_null
  rw [frame_set_self hd]
  rfl

theorem exec_forward {c0 : HilbertAlgoContext_t} {m : Nat}
    {st : List HilbertAlgoRecurse_t} {d : Nat} {P : String} {i : Int}
    {n N : Int} {cells : List HilbertCell_t} {dir prev : HilbertDir_t} {x y : Int}
    {sdl : List SDLCall}
    (e : HCExec c0 m
      ⟨⟨n, N, cells⟩, dir, prev, st.set d ⟨some P, i⟩, (d : Int), x, y, sdl⟩)
    (hd : d < st.length) (hsym : cstr_at P i = some HC_SYM_FORWARD)
    (hlen : (cells.length : Int) = N * N)
    (hdir : dir ≠ HC_NUM_DIRS) (hprev : prev ≠ HC_NUM_DIRS) (hne : prev ≠ dir)
    (hP : 0 ≤ x ∧ x < N ∧ 0 ≤ y ∧ y < N)
    (hQ : 0 ≤ x + HCdx dir ∧ x + HCdx dir < N ∧ 0 ≤ y + HCdy dir ∧ y + HCdy dir < N)
    (hblank : HCBlank cells N (x + HCdx dir) (y + HCdy dir)) :
    ∃ cells' ev,
      HCExec c0 (m + 1)
        ⟨⟨n, N, cells'⟩, dir, HCopp dir, st.set d ⟨some P, i + 1⟩, (d : Int),
          x + HCdx dir, y + HCdy dir, sdl ++ ev⟩ ∧
      (cells'.length : Int) = N * N ∧
      (∀ x' y', 0 ≤ x' → x' < N → 0 ≤ y' → y' < N →
        (HCBlank cells' N x' y' ↔ HCBlank cells N x' y' ∧ ¬(x' = x ∧ y' = y))) ∧
      HC_actions ev = [HC_SYM_FORWARD] ∧ HC_warnings ev = [] ∧ (HC_renders ev).length = 1 := by
  obtain ⟨cells', ev, hbody, hlen', hiff, hnew, hwr, ha, hw, hr⟩ :=
    body_forward hd P i hsym (n := n) hlen hdir hprev hne hP.1 hP.2.1 hP.2.2.1 hP.2.2.2
      hQ.1 hQ.2.1 hQ.2.2.1 hQ.2.2.2 hblank sdl
  exact ⟨cells', ev,
    HCExec.stop e hbody (good_intro hd P (i + 1) n N cells' dir (HCopp dir)
      hQ.1 hQ.2.1 hQ.2.2.1 hQ.2.2.2 hnew (sdl ++ ev)) hwr
      (by simp [HCOneForward, HC_forwards, actions_append, ha]),
    hlen', hiff, ha, hw, hr⟩

theorem side_A (h : HilbertDir_t) : HCside HC_SYM_SUB_A h = HC_turn_left h := by
  simp [HCside]

theorem side_B (h : HilbertDir_t) : HCside HC_SYM_SUB_B h = HC_turn_right h := by
  simp [HCside, HC_SYM_SUB_A, HC_SYM_SUB_B]

theorem actions_left (d : Int) : HC_actions [SDLCall.debugLeft d] = [HC_SYM_LEFT] := rfl
theorem actions_right (d : Int) : HC_actions [SDLCall.debugRight d] = [HC_SYM_RIGHT] := rfl
theorem warnings_left (d : Int) : HC_warnings [SDLCall.debugLeft d] = [] := rfl
theorem warnings_right (d : Int) : HC_warnings [SDLCall.debugRight d] = [] := rfl
theorem renders_left (d : Int) : HC_renders [SDLCall.debugLeft d] = [] := rfl
theorem renders_right (d : Int) : HC_renders [SDLCall.debugRight d] = [] := rfl

theorem exec_symbol {k : Nat} (hNT : HCRunsSymbol k) {c0 : HilbertAlgoContext_t} {m : Nat}
    {st : List HilbertAlgoRecurse_t} {d : Nat} {P : String} {i : Int}
    {n N s : Int} {cells : List HilbertCell_t} {dir prev : HilbertDir_t} {x y : Int}
    {sdl : List SDLCall} (sym : Char)
    (e : HCExec c0 m
      ⟨⟨n, N, cells⟩, dir, prev, st.set d ⟨some P, i⟩, (d : Int), x, y, sdl⟩)
    (hs : s = 2 ^ k) (hd : d < st.length) (hlenst : (st.length : Int) = n)
    (hdk : (d : Int) + k = n - 1)
    (hzero : ∀ j, d < j → j < st.length → st[j]? = some ⟨none, 0⟩)
    (hsym : cstr_at P i = some sym) (hnt : sym = HC_SYM_SUB_A ∨ sym = HC_SYM_SUB_B)
    (hlen : (cells.length : Int) = N * N)
    (hdir : dir ≠ HC_NUM_DIRS) (hprev : prev ≠ HC_NUM_DIRS) (hpd : prev ≠ dir)
    (hps : prev ≠ HCside sym dir)
    (hbox : ∀ x' y', HCInBox sym dir x y s x' y' →
      0 ≤ x' ∧ x' < N ∧ 0 ≤ y' ∧ y' < N ∧ HCBlank cells N x' y') :
    ∃ cells' prev' ev,
      HCExec c0 (m + HC_fcount k)
        ⟨⟨n, N, cells'⟩, dir, prev', st.set d ⟨some P, i + 1⟩, (d : Int),
          x + (s - 1) * HCdx dir, y + (s - 1) * HCdy dir, sdl ++ ev⟩ ∧
      (cells'.length : Int) = N * N ∧
      (∀ x' y', 0 ≤ x' → x' < N → 0 ≤ y' → y' < N →
        (HCBlank cells' N x' y' ↔ HCBlank cells N x' y' ∧
          ¬(HCInBox sym dir x y s x' y' ∧
            ¬(x' = x + (s - 1) * HCdx dir ∧ y' = y + (s - 1) * HCdy dir)))) ∧
      prev' ≠ HC_NUM_DIRS ∧
      (prev' = prev ∨ (prev' ≠ dir ∧ prev' ≠ HCopp (HCside sym dir))) ∧
      HC_actions ev = HC_expand k sym ∧ HC_warnings ev = [] ∧
      (HC_renders ev).length = HC_fcount k := by
  obtain ⟨cells', prev', ev, e1, h⟩ :=
    hNT st d P i sym n N s cells dir prev x y sdl hs hd hlenst hdk hzero hsym hnt hlen
      hdir hprev hpd hps hbox
  exact ⟨cells', prev', ev, e.trans e1, h⟩

theorem and_not_box {A Box E : Prop} (h : E → Box) :
    ((A ∧ ¬(Box ∧ ¬E)) ∧ ¬E) ↔ (A ∧ ¬Box) := by
  constructor
  · rintro ⟨⟨ha, hb⟩, he⟩
    exact ⟨ha, fun hbox => hb ⟨hbox, he⟩⟩
  · rintro ⟨ha, hb⟩
    exact ⟨⟨ha, fun hc => hb hc.1⟩, fun he => hb (h he)⟩

theorem and_not_four {B Q1 Q2 Q3 R : Prop} :
    ((((B ∧ ¬Q1) ∧ ¬Q2) ∧ ¬Q3) ∧ ¬R) ↔ (B ∧ ¬(Q1 ∨ Q2 ∨ Q3 ∨ R)) := by
  tauto

/-! ### Geometry of production A -/

theorem geoA_q1 (dir : HilbertDir_t) (x y s x' y' : Int) (hdir : dir ≠ HC_NUM_DIRS) (hs0 : 0 < s)
    (hin : HCInBox HC_SYM_SUB_B (HC_turn_left dir) x y s x' y') :
    HCInBox HC_SYM_SUB_A dir x y (2 * s) x' y' := by
  cases dir with
  | HC_NUM_DIRS => exact absurd rfl hdir
  | _ =>
    simp only [inbox_A_right, inbox_A_down, inbox_A_left, inbox_A_up, inbox_B_right,
      inbox_B_down, inbox_B_left, inbox_B_up, turn_left_right, turn_left_down,
      turn_left_left, turn_left_up, turn_right_right, turn_right_down, turn_right_left,
      turn_right_up, HCdx, HCdy] at hin ⊢
    omega

theorem geoA_p2 (dir : HilbertDir_t) (x y s : Int) (hdir : dir ≠ HC_NUM_DIRS) (hs0 : 0 < s) :
    HCInBox HC_SYM_SUB_A dir x y (2 * s) (x + (s - 1) * HCdx (HC_turn_left dir)) (y + (s - 1) * HCdy (HC_turn_left dir)) ∧
    HCInBox HC_SYM_SUB_A dir x y (2 * s) (x + (s - 1) * HCdx (HC_turn_left dir) + HCdx (HC_turn_left dir)) (y + (s - 1) * HCdy (HC_turn_left dir) + HCdy (HC_turn_left dir)) ∧
    ¬(HCInBox HC_SYM_SUB_B (HC_turn_left dir) x y s (x + (s - 1) * HCdx (HC_turn_left dir) + HCdx (HC_turn_left dir)) (y + (s - 1) * HCdy (HC_turn_left dir) + HCdy (HC_turn_left dir)) ∧
      ¬((x + (s - 1) * HCdx (HC_turn_left dir) + HCdx (HC_turn_left dir)) = x + (s - 1) * HCdx (HC_turn_left dir) ∧
      (y + (s - 1) * HCdy (HC_turn_left dir) + HCdy (HC_turn_left dir)) = y + (s - 1) * HCdy (HC_turn_left dir))) := by
  cases dir with
  | HC_NUM_DIRS => exact absurd rfl hdir
  | _ =>
    simp only [inbox_A_right, inbox_A_down, inbox_A_left, inbox_A_up, inbox_B_right,
      inbox_B_down, inbox_B_left, inbox_B_up, turn_left_right, turn_left_down,
      turn_left_left, turn_left_up, turn_right_right, turn_right_down, turn_right_left,
      turn_right_up, HCdx, HCdy]
    omega

theorem geoA_e1 (dir : HilbertDir_t) (x y s : Int) (hdir : dir ≠ HC_NUM_DIRS) (hs0 : 0 < s) :
    HCInBox HC_SYM_SUB_B (HC_turn_left dir) x y s (x + (s - 1) * HCdx (HC_turn_left dir)) (y + (s - 1) * HCdy (HC_turn_left dir)) := by
  cases dir with
  | HC_NUM_DIRS => exact absurd rfl hdir
  | _ =>
    simp only [inbox_A_right, inbox_A_down, inbox_A_left, inbox_A_up, inbox_B_right,
      inbox_B_down, inbox_B_left, inbox_B_up, turn_left_right, turn_left_down,
      turn_left_left, turn_left_up, turn_right_right, turn_right_down, turn_right_left,
      turn_right_up, HCdx, HCdy]
    omega

theorem geoA_q2 (dir : HilbertDir_t) (x y s x' y' : Int) (hdir : dir ≠ HC_NUM_DIRS) (hs0 : 0 < s)
    (hin : HCInBox HC_SYM_SUB_A (HC_turn_right (HC_turn_left dir))
      (x + (s - 1) * HCdx (HC_turn_left dir) + HCdx (HC_turn_left dir))
      (y + (s - 1) * HCdy (HC_turn_left dir) + HCdy (HC_turn_left dir)) s x' y') :
    HCInBox HC_SYM_SUB_A dir x y (2 * s) x' y' ∧ ¬HCInBox HC_SYM_SUB_B (HC_turn_left dir) x y s x' y' := by
  cases dir with
  | HC_NUM_DIRS => exact absurd rfl hdir
  | _ =>
    simp only [inbox_A_right, inbox_A_down, inbox_A_left, inbox_A_up, inbox_B_right,
      inbox_B_down, inbox_B_left, inbox_B_up, turn_left_right, turn_left_down,
      turn_left_left, turn_left_up, turn_right_right, turn_right_down, turn_right_left,
      turn_right_up, HCdx, HCdy] at hin ⊢
    omega

theorem geoA_p5 (dir : HilbertDir_t) (x y s : Int) (hdir : dir ≠ HC_NUM_DIRS) (hs0 : 0 < s) :
    HCInBox HC_SYM_SUB_A dir x y (2 * s) (x + (s - 1) * HCdx (HC_turn_left dir) + HCdx (HC_turn_left dir) + (s - 1) * HCdx (HC_turn_right (HC_turn_left dir))) (y + (s - 1) * HCdy (HC_turn_left dir) + HCdy (HC_turn_left dir) + (s - 1) * HCdy (HC_turn_right (HC_turn_left dir))) ∧
    HCInBox HC_SYM_SUB_A dir x y (2 * s) (x + (s - 1) * HCdx (HC_turn_left dir) + HCdx (HC_turn_left dir) + (s - 1) * HCdx (HC_turn_right (HC_turn_left dir)) + HCdx (HC_turn_right (HC_turn_left dir))) (y + (s - 1) * HCdy (HC_turn_left dir) + HCdy (HC_turn_left dir) + (s - 1) * HCdy (HC_turn_right (HC_turn_left dir)) + HCdy (HC_turn_right (HC_turn_left dir))) ∧
    ¬HCInBox HC_SYM_SUB_B (HC_turn_left dir) x y s (x + (s - 1) * HCdx (HC_turn_left dir) + HCdx (HC_turn_left dir) + (s - 1) * HCdx (HC_turn_right (HC_turn_left dir)) + HCdx (HC_turn_right (HC_turn_left dir))) (y + (s - 1) * HCdy (HC_turn_left dir) + HCdy (HC_turn_left dir) + (s - 1) * HCdy (HC_turn_right (HC_turn_left dir)) + HCdy (HC_turn_right (HC_turn_left dir))) ∧
    ¬(HCInBox HC_SYM_SUB_A (HC_turn_right (HC_turn_left dir))
      (x + (s - 1) * HCdx (HC_turn_left dir) + HCdx (HC_turn_left dir))
      (y + (s - 1) * HCdy (HC_turn_left dir) + HCdy (HC_turn_left dir)) s (x + (s - 1) * HCdx (HC_turn_left dir) + HCdx (HC_turn_left dir) + (s - 1) * HCdx (HC_turn_right (HC_turn_left dir)) + HCdx (HC_turn_right (HC_turn_left dir))) (y + (s - 1) * HCdy (HC_turn_left dir) + HCdy (HC_turn_left dir) + (s - 1) * HCdy (HC_turn_right (HC_turn_left dir)) + HCdy (HC_turn_right (HC_turn_left dir))) ∧
      ¬((x + (s - 1) * HCdx (HC_turn_left dir) + HCdx (HC_turn_left dir) + (s - 1) * HCdx (HC_turn_right (HC_turn_left dir)) + HCdx (HC_turn_right (HC_turn_left dir))) = x + (s - 1) * HCdx (HC_turn_left dir) + HCdx (HC_turn_left dir) + (s - 1) * HCdx (HC_turn_right (HC_turn_left dir)) ∧
      (y + (s - 1) * HCdy (HC_turn_left dir) + HCdy (HC_turn_left dir) + (s - 1) * HCdy (HC_turn_right (HC_turn_left dir)) + HCdy (HC_turn_right (HC_turn_left dir))) = y + (s - 1) * HCdy (HC_turn_left dir) + HCdy (HC_turn_left dir) + (s - 1) * HCdy (HC_turn_right (HC_turn_left dir)))) := by
  cases dir with
  | HC_NUM_DIRS => exact absurd rfl hdir
  | _ =>
    simp only [inbox_A_right, inbox_A_down, inbox_A_left, inbox_A_up, inbox_B_right,
      inbox_B_down, inbox_B_left, inbox_B_up, turn_left_right, turn_left_down,
      turn_left_left, turn_left_up, turn_right_right, turn_right_down, turn_right_left,
      turn_right_up, HCdx, HCdy]
    omega

theorem geoA_e4 (dir : HilbertDir_t) (x y s : Int) (hdir : dir ≠ HC_NUM_DIRS) (hs0 : 0 < s) :
    HCInBox HC_SYM_SUB_A (HC_turn_right (HC_turn_left dir))
      (x + (s - 1) * HCdx (HC_turn_left dir) + HCdx (HC_turn_left dir))
      (y + (s - 1) * HCdy (HC_turn_left dir) + HCdy (HC_turn_left dir)) s (x + (s - 1) * HCdx (HC_turn_left dir) + HCdx (HC_turn_left dir) + (s - 1) * HCdx (HC_turn_right (HC_turn_left dir))) (y + (s - 1) * HCdy (HC_turn_left dir) + HCdy (HC_turn_left dir) + (s - 1) * HCdy (HC_turn_right (HC_turn_left dir))) := by
  cases dir with
  | HC_NUM_DIRS => exact absurd rfl hdir
  | _ =>
    simp only [inbox_A_right, inbox_A_down, inbox_A_left, inbox_A_up, inbox_B_right,
      inbox_B_down, inbox_B_left, inbox_B_up, turn_left_right, turn_left_down,
      turn_left_left, turn_left_up, turn_right_right, turn_right_down, turn_right_left,
      turn_right_up, HCdx, HCdy]
    omega

theorem geoA_q3 (dir : HilbertDir_t) (x y s x' y' : Int) (hdir : dir ≠ HC_NUM_DIRS) (hs0 : 0 < s)
    (hin : HCInBox HC_SYM_SUB_A (HC_turn_right (HC_turn_left dir))
      (x + (s - 1) * HCdx (HC_turn_left dir) + HCdx (HC_turn_left dir) + (s - 1) * HCdx (HC_turn_right (HC_turn_left dir)) + HCdx (HC_turn_right (HC_turn_left dir)))
      (y + (s - 1) * HCdy (HC_turn_left dir) + HCdy (HC_turn_left dir) + (s - 1) * HCdy (HC_turn_right (HC_turn_left dir)) + HCdy (HC_turn_right (HC_turn_left dir))) s x' y') :
    HCInBox HC_SYM_SUB_A dir x y (2 * s) x' y' ∧ ¬HCInBox HC_SYM_SUB_B (HC_turn_left dir) x y s x' y' ∧
    ¬HCInBox HC_SYM_SUB_A (HC_turn_right (HC_turn_left dir))
      (x + (s - 1) * HCdx (HC_turn_left dir) + HCdx (HC_turn_left dir))
      (y + (s - 1) * HCdy (HC_turn_left dir) + HCdy (HC_turn_left dir)) s x' y' := by
  cases dir with
  | HC_NUM_DIRS => exact absurd rfl hdir
  | _ =>
    simp only [inbox_A_right, inbox_A_down, inbox_A_left, inbox_A_up, inbox_B_right,
      inbox_B_down, inbox_B_left, inbox_B_up, turn_left_right, turn_left_down,
      turn_left_left, turn_left_up, turn_right_right, turn_right_down, turn_right_left,
      turn_right_up, HCdx, HCdy] at hin ⊢
    omega

theorem geoA_p8 (dir : HilbertDir_t) (x y s : Int) (hdir : dir ≠ HC_NUM_DIRS) (hs0 : 0 < s) :
    HCInBox HC_SYM_SUB_A dir x y (2 * s) (x + (s - 1) * HCdx (HC_turn_left dir) + HCdx (HC_turn_left dir) + (s - 1) * HCdx (HC_turn_right (HC_turn_left dir)) + HCdx (HC_turn_right (HC_turn_left dir)) + (s - 1) * HCdx (HC_turn_right (HC_turn_left dir))) (y + (s - 1) * HCdy (HC_turn_left dir) + HCdy (HC_turn_left dir) + (s - 1) * HCdy (HC_turn_right (HC_turn_left dir)) + HCdy (HC_turn_right (HC_turn_left dir)) + (s - 1) * HCdy (HC_turn_right (HC_turn_left dir))) ∧
    HCInBox HC_SYM_SUB_A dir x y (2 * s) (x + (s - 1) * HCdx (HC_turn_left dir) + HCdx (HC_turn_left dir) + (s - 1) * HCdx (HC_turn_right (HC_turn_left dir)) + HCdx (HC_turn_right (HC_turn_left dir)) + (s - 1) * HCdx (HC_turn_right (HC_turn_left dir)) + HCdx (HC_turn_right (HC_turn_right (HC_turn_left dir)))) (y + (s - 1) * HCdy (HC_turn_left dir) + HCdy (HC_turn_left dir) + (s - 1) * HCdy (HC_turn_right (HC_turn_left dir)) + HCdy (HC_turn_right (HC_turn_left dir)) + (s - 1) * HCdy (HC_turn_right (HC_turn_left dir)) + HCdy (HC_turn_right (HC_turn_right (HC_turn_left dir)))) ∧
    ¬HCInBox HC_SYM_SUB_B (HC_turn_left dir) x y s (x + (s - 1) * HCdx (HC_turn_left dir) + HCdx (HC_turn_left dir) + (s - 1) * HCdx (HC_turn_right (HC_turn_left dir)) + HCdx (HC_turn_right (HC_turn_left dir)) + (s - 1) * HCdx (HC_turn_right (HC_turn_left dir)) + HCdx (HC_turn_right (HC_turn_right (HC_turn_left dir)))) (y + (s - 1) * HCdy (HC_turn_left dir) + HCdy (HC_turn_left dir) + (s - 1) * HCdy (HC_turn_right (HC_turn_left dir)) + HCdy (HC_turn_right (HC_turn_left dir)) + (s - 1) * HCdy (HC_turn_right (HC_turn_left dir)) + HCdy (HC_turn_right (HC_turn_right (HC_turn_left dir)))) ∧
    ¬HCInBox HC_SYM_SUB_A (HC_turn_right (HC_turn_left dir))
      (x + (s - 1) * HCdx (HC_turn_left dir) + HCdx (HC_turn_left dir))
      (y + (s - 1) * HCdy (HC_turn_left dir) + HCdy (HC_turn_left dir)) s (x + (s - 1) * HCdx (HC_turn_left dir) + HCdx (HC_turn_left dir) + (s - 1) * HCdx (HC_turn_right (HC_turn_left dir)) + HCdx (HC_turn_right (HC_turn_left dir)) + (s - 1) * HCdx (HC_turn_right (HC_turn_left dir)) + HCdx (HC_turn_right (HC_turn_right (HC_turn_left dir)))) (y + (s - 1) * HCdy (HC_turn_left dir) + HCdy (HC_turn_left dir) + (s - 1) * HCdy (HC_turn_right (HC_turn_left dir)) + HCdy (HC_turn_right (HC_turn_left dir)) + (s - 1) * HCdy (HC_turn_right (HC_turn_left dir)) + HCdy (HC_turn_right (HC_turn_right (HC_turn_left dir)))) ∧
    ¬(HCInBox HC_SYM_SUB_A (HC_turn_right (HC_turn_left dir))
      (x + (s - 1) * HCdx (HC_turn_left dir) + HCdx (HC_turn_left dir) + (s - 1) * HCdx (HC_turn_right (HC_turn_left dir)) + HCdx (HC_turn_right (HC_turn_left dir)))
      (y + (s - 1) * HCdy (HC_turn_left dir) + HCdy (HC_turn_left dir) + (s - 1) * HCdy (HC_turn_right (HC_turn_left dir)) + HCdy (HC_turn_right (HC_turn_left dir))) s (x + (s - 1) * HCdx (HC_turn_left dir) + HCdx (HC_turn_left dir) + (s - 1) * HCdx (HC_turn_right (HC_turn_left dir)) + HCdx (HC_turn_right (HC_turn_left dir)) + (s - 1) * HCdx (HC_turn_right (HC_turn_left dir)) + HCdx (HC_turn_right (HC_turn_right (HC_turn_left dir)))) (y + (s - 1) * HCdy (HC_turn_left dir) + HCdy (HC_turn_left dir) + (s - 1) * HCdy (HC_turn_right (HC_turn_left dir)) + HCdy (HC_turn_right (HC_turn_left dir)) + (s - 1) * HCdy (HC_turn_right (HC_turn_left dir)) + HCdy (HC_turn_right (HC_turn_right (HC_turn_left dir)))) ∧
      ¬((x + (s - 1) * HCdx (HC_turn_left dir) + HCdx (HC_turn_left dir) + (s - 1) * HCdx (HC_turn_right (HC_turn_left dir)) + HCdx (HC_turn_right (HC_turn_left dir)) + (s - 1) * HCdx (HC_turn_right (HC_turn_left dir)) + HCdx (HC_turn_right (HC_turn_right (HC_turn_left dir)))) = x + (s - 1) * HCdx (HC_turn_left dir) + HCdx (HC_turn_left dir) + (s - 1) * HCdx (HC_turn_right (HC_turn_left dir)) + HCdx (HC_turn_right (HC_turn_left dir)) + (s - 1) * HCdx (HC_turn_right (HC_turn_left dir)) ∧
      (y + (s - 1) * HCdy (HC_turn_left dir) + HCdy (HC_turn_left dir) + (s - 1) * HCdy (HC_turn_right (HC_turn_left dir)) + HCdy (HC_turn_right (HC_turn_left dir)) + (s - 1) * HCdy (HC_turn_right (HC_turn_left dir)) + HCdy (HC_turn_right (HC_turn_right (HC_turn_left dir)))) = y + (s - 1) * HCdy (HC_turn_left dir) + HCdy (HC_turn_left dir) + (s - 1) * HCdy (HC_turn_right (HC_turn_left dir)) + HCdy (HC_turn_right (HC_turn_left dir)) + (s - 1) * HCdy (HC_turn_right (HC_turn_left dir)))) := by
  cases dir with
  | HC_NUM_DIRS => exact absurd rfl hdir
  | _ =>
    simp only [inbox_A_right, inbox_A_down, inbox_A_left, inbox_A_up, inbox_B_right,
      inbox_B_down, inbox_B_left, inbox_B_up, turn_left_right, turn_left_down,
      turn_left_left, turn_left_up, turn_right_right, turn_right_down, turn_right_left,
      turn_right_up, HCdx, HCdy]
    omega

theorem geoA_e6 (dir : HilbertDir_t) (x y s : Int) (hdir : dir ≠ HC_NUM_DIRS) (hs0 : 0 < s) :
    HCInBox HC_SYM_SUB_A (HC_turn_right (HC_turn_left dir))
      (x + (s - 1) * HCdx (HC_turn_left dir) + HCdx (HC_turn_left dir) + (s - 1) * HCdx (HC_turn_right (HC_turn_left dir)) + HCdx (HC_turn_right (HC_turn_left dir)))
      (y + (s - 1) * HCdy (HC_turn_left dir) + HCdy (HC_turn_left dir) + (s - 1) * HCdy (HC_turn_right (HC_turn_left dir)) + HCdy (HC_turn_right (HC_turn_left dir))) s (x + (s - 1) * HCdx (HC_turn_left dir) + HCdx (HC_turn_left dir) + (s - 1) * HCdx (HC_turn_right (HC_turn_left dir)) + HCdx (HC_turn_right (HC_turn_left dir)) + (s - 1) * HCdx (HC_turn_right (HC_turn_left dir))) (y + (s - 1) * HCdy (HC_turn_left dir) + HCdy (HC_turn_left dir) + (s - 1) * HCdy (HC_turn_right (HC_turn_left dir)) + HCdy (HC_turn_right (HC_turn_left dir)) + (s - 1) * HCdy (HC_turn_right (HC_turn_left dir))) := by
  cases dir with
  | HC_NUM_DIRS => exact absurd rfl hdir
  | _ =>
    simp only [inbox_A_right, inbox_A_down, inbox_A_left, inbox_A_up, inbox_B_right,
      inbox_B_down, inbox_B_left, inbox_B_up, turn_left_right, turn_left_down,
      turn_left_left, turn_left_up, turn_right_right, turn_right_down, turn_right_left,
      turn_right_up, HCdx, HCdy]
    omega

theorem geoA_q4 (dir : HilbertDir_t) (x y s x' y' : Int) (hdir : dir ≠ HC_NUM_DIRS) (hs0 : 0 < s)
    (hin : HCInBox HC_SYM_SUB_B (HC_turn_right (HC_turn_right (HC_turn_left dir)))
      (x + (s - 1) * HCdx (HC_turn_left dir) + HCdx (HC_turn_left dir) + (s - 1) * HCdx (HC_turn_right (HC_turn_left dir)) + HCdx (HC_turn_right (HC_turn_left dir)) + (s - 1) * HCdx (HC_turn_right (HC_turn_left dir)) + HCdx (HC_turn_right (HC_turn_right (HC_turn_left dir))))
      (y + (s - 1) * HCdy (HC_turn_left dir) + HCdy (HC_turn_left dir) + (s - 1) * HCdy (HC_turn_right (HC_turn_left dir)) + HCdy (HC_turn_right (HC_turn_left dir)) + (s - 1) * HCdy (HC_turn_right (HC_turn_left dir)) + HCdy (HC_turn_right (HC_turn_right (HC_turn_left dir)))) s x' y') :
    HCInBox HC_SYM_SUB_A dir x y (2 * s) x' y' ∧ ¬HCInBox HC_SYM_SUB_B (HC_turn_left dir) x y s x' y' ∧
    ¬HCInBox HC_SYM_SUB_A (HC_turn_right (HC_turn_left dir))
      (x + (s - 1) * HCdx (HC_turn_left dir) + HCdx (HC_turn_left dir))
      (y + (s - 1) * HCdy (HC_turn_left dir) + HCdy (HC_turn_left dir)) s x' y' ∧
    ¬HCInBox HC_SYM_SUB_A (HC_turn_right (HC_turn_left dir))
      (x + (s - 1) * HCdx (HC_turn_left dir) + HCdx (HC_turn_left dir) + (s - 1) * HCdx (HC_turn_right (HC_turn_left dir)) + HCdx (HC_turn_right (HC_turn_left dir)))
      (y + (s - 1) * HCdy (HC_turn_left dir) + HCdy (HC_turn_left dir) + (s - 1) * HCdy (HC_turn_right (HC_turn_left dir)) + HCdy (HC_turn_right (HC_turn_left dir))) s x' y' := by
  cases dir with
  | HC_NUM_DIRS => exact absurd rfl hdir
  | _ =>
    simp only [inbox_A_right, inbox_A_down, inbox_A_left, inbox_A_up, inbox_B_right,
      inbox_B_down, inbox_B_left, inbox_B_up, turn_left_right, turn_left_down,
      turn_left_left, turn_left_up, turn_right_right, turn_right_down, turn_right_left,
      turn_right_up, HCdx, HCdy] at hin ⊢
    omega

theorem geoA_end (dir : HilbertDir_t) (x y s : Int) (hdir : dir ≠ HC_NUM_DIRS) (hs0 : 0 < s) :
    x + (s - 1) * HCdx (HC_turn_left dir) + HCdx (HC_turn_left dir) + (s - 1) * HCdx (HC_turn_right (HC_turn_left dir)) + HCdx (HC_turn_right (HC_turn_left dir)) + (s - 1) * HCdx (HC_turn_right (HC_turn_left dir)) + HCdx (HC_turn_right (HC_turn_right (HC_turn_left dir))) + (s - 1) * HCdx (HC_turn_right (HC_turn_right (HC_turn_left dir))) = x + (2 * s - 1) * HCdx dir ∧
    y + (s - 1) * HCdy (HC_turn_left dir) + HCdy (HC_turn_left dir) + (s - 1) * HCdy (HC_turn_right (HC_turn_left dir)) + HCdy (HC_turn_right (HC_turn_left dir)) + (s - 1) * HCdy (HC_turn_right (HC_turn_left dir)) + HCdy (HC_turn_right (HC_turn_right (HC_turn_left dir))) + (s - 1) * HCdy (HC_turn_right (HC_turn_right (HC_turn_left dir))) = y + (2 * s - 1) * HCdy dir ∧
    (HC_turn_left (HC_turn_right (HC_turn_right (HC_turn_left dir)))) = dir := by
  cases dir with
  | HC_NUM_DIRS => exact absurd rfl hdir
  | _ =>
    simp only [inbox_A_right, inbox_A_down, inbox_A_left, inbox_A_up, inbox_B_right,
      inbox_B_down, inbox_B_left, inbox_B_up, turn_left_right, turn_left_down,
      turn_left_left, turn_left_up, turn_right_right, turn_right_down, turn_right_left,
      turn_right_up, HCdx, HCdy]
    exact ⟨by omega, by omega, trivial⟩

theorem geoA_iff (dir : HilbertDir_t) (x y s x' y' : Int) (hdir : dir ≠ HC_NUM_DIRS) (hs0 : 0 < s) :
    (HCInBox HC_SYM_SUB_A dir x y (2 * s) x' y' ∧
      ¬(x' = x + (2 * s - 1) * HCdx dir ∧ y' = y + (2 * s - 1) * HCdy dir)) ↔
    (HCInBox HC_SYM_SUB_B (HC_turn_left dir) x y s x' y' ∨
     HCInBox HC_SYM_SUB_A (HC_turn_right (HC_turn_left dir))
      (x + (s - 1) * HCdx (HC_turn_left dir) + HCdx (HC_turn_left dir))
      (y + (s - 1) * HCdy (HC_turn_left dir) + HCdy (HC_turn_left dir)) s x' y' ∨
     HCInBox HC_SYM_SUB_A (HC_turn_right (HC_turn_left dir))
      (x + (s - 1) * HCdx (HC_turn_left dir) + HCdx (HC_turn_left dir) + (s - 1) * HCdx (HC_turn_right (HC_turn_left dir)) + HCdx (HC_turn_right (HC_turn_left dir)))
      (y + (s - 1) * HCdy (HC_turn_left dir) + HCdy (HC_turn_left dir) + (s - 1) * HCdy (HC_turn_right (HC_turn_left dir)) + HCdy (HC_turn_right (HC_turn_left dir))) s x' y' ∨
     (HCInBox HC_SYM_SUB_B (HC_turn_right (HC_turn_right (HC_turn_left dir)))
      (x + (s - 1) * HCdx (HC_turn_left dir) + HCdx (HC_turn_left dir) + (s - 1) * HCdx (HC_turn_right (HC_turn_left dir)) + HCdx (HC_turn_right (HC_turn_left dir)) + (s - 1) * HCdx (HC_turn_right (HC_turn_left dir)) + HCdx (HC_turn_right (HC_turn_right (HC_turn_left dir))))
      (y + (s - 1) * HCdy (HC_turn_left dir) + HCdy (HC_turn_left dir) + (s - 1) * HCdy (HC_turn_right (HC_turn_left dir)) + HCdy (HC_turn_right (HC_turn_left dir)) + (s - 1) * HCdy (HC_turn_right (HC_turn_left dir)) + HCdy (HC_turn_right (HC_turn_right (HC_turn_left dir)))) s x' y' ∧
      ¬(x' = x + (s - 1) * HCdx (HC_turn_left dir) + HCdx (HC_turn_left dir) + (s - 1) * HCdx (HC_turn_right (HC_turn_left dir)) + HCdx (HC_turn_right (HC_turn_left dir)) + (s - 1) * HCdx (HC_turn_right (HC_turn_left dir)) + HCdx (HC_turn_right (HC_turn_right (HC_turn_left dir))) + (s - 1) * HCdx (HC_turn_right (HC_turn_right (HC_turn_left dir))) ∧
      y' = y + (s - 1) * HCdy (HC_turn_left dir) + HCdy (HC_turn_left dir) + (s - 1) * HCdy (HC_turn_right (HC_turn_left dir)) + HCdy (HC_turn_right (HC_turn_left dir)) + (s - 1) * HCdy (HC_turn_right (HC_turn_left dir)) + HCdy (HC_turn_right (HC_turn_right (HC_turn_left dir))) + (s - 1) * HCdy (HC_turn_right (HC_turn_right (HC_turn_left dir)))))) := by
  cases dir with
  | HC_NUM_DIRS => exact absurd rfl hdir
  | _ =>
    simp only [inbox_A_right, inbox_A_down, inbox_A_left, inbox_A_up, inbox_B_right,
      inbox_B_down, inbox_B_left, inbox_B_up, turn_left_right, turn_left_down,
      turn_left_left, turn_left_up, turn_right_right, turn_right_down, turn_right_left,
      turn_right_up, HCdx, HCdy]
    constructor <;> intro h <;> omega

set_option maxHeartbeats 4000000 in
/-- The production of `A`, read at a frame with `k` levels of stack below it:
the eleven symbols from the first to the terminator. -/
theorem runs_frame_A (k : Nat) (hNT : HCRunsSymbol k)
    (st : List HilbertAlgoRecurse_t) (d : Nat)
    (n N s : Int) (cells : List HilbertCell_t) (dir prev : HilbertDir_t) (x y : Int)
    (sdl : List SDLCall)
    (hs : s = 2 ^ k) (hd : d < st.length) (hlenst : (st.length : Int) = n)
    (hdk : (d : Int) + k = n - 1)
    (hzero : ∀ j, d < j → j < st.length → st[j]? = some ⟨none, 0⟩)
    (hlen : (cells.length : Int) = N * N)
    (hdir : dir ≠ HC_NUM_DIRS)
    (hprev : prev ≠ HC_NUM_DIRS) (hpd : prev ≠ dir)
    (hps : prev ≠ HCside HC_SYM_SUB_A dir)
    (hbox : ∀ x' y', HCInBox HC_SYM_SUB_A dir x y (2 * s) x' y' →
      0 ≤ x' ∧ x' < N ∧ 0 ≤ y' ∧ y' < N ∧ HCBlank cells N x' y') :
    ∃ cells' prev' ev,
      HCExec ⟨⟨n, N, cells⟩, dir, prev, st.set d ⟨some HC_ALGO_PROD_A, 0⟩, (d : Int), x, y, sdl⟩
        (HC_fcount (k + 1))
        ⟨⟨n, N, cells'⟩, dir, prev', st.set d ⟨some HC_ALGO_PROD_A, 11⟩, (d : Int),
          x + (2 * s - 1) * HCdx dir, y + (2 * s - 1) * HCdy dir, sdl ++ ev⟩ ∧
      (cells'.length : Int) = N * N ∧
      (∀ x' y', 0 ≤ x' → x' < N → 0 ≤ y' → y' < N →
        (HCBlank cells' N x' y' ↔ HCBlank cells N x' y' ∧
          ¬(HCInBox HC_SYM_SUB_A dir x y (2 * s) x' y' ∧
            ¬(x' = x + (2 * s - 1) * HCdx dir ∧ y' = y + (2 * s - 1) * HCdy dir)))) ∧
      prev' ≠ HC_NUM_DIRS ∧ prev' ≠ dir ∧ prev' ≠ HCopp (HCside HC_SYM_SUB_A dir) ∧
      HC_actions ev = HC_expand (k + 1) HC_SYM_SUB_A ∧ HC_warnings ev = [] ∧
      (HC_renders ev).length = HC_fcount (k + 1) := by
  have hs0 : 0 < s := by rw [hs]; positivity
  -- symbol 0: a turn
  have e0 := HCExec.cont (HCExec.refl _)
    (body_left hd HC_ALGO_PROD_A 0 (by decide) ⟨n, N, cells⟩ dir prev x y sdl)
  -- symbol 1: the other non-terminal, on the first quarter
  obtain ⟨cells1, prev1, ev1, e1, hlen1, hb1, hp1, hq1, ha1, hw1, hr1⟩ :=
    exec_symbol hNT HC_SYM_SUB_B e0 hs hd hlenst hdk hzero (by decide) (Or.inr rfl) hlen
      (turn_left_ne _) hprev
      (by
        clear * - hps hpd hdir
        revert dir prev
        decide)
      (by
        clear * - hps hpd hdir
        revert dir prev
        decide)
      (fun x' y' hin => hbox x' y' (geoA_q1 dir x y s x' y' hdir hs0 hin))
  -- symbol 2: a move into the second quarter
  have gg2 := geoA_p2 dir x y s hdir hs0
  have gP2 := hbox _ _ gg2.1
  have gQ2 := hbox _ _ gg2.2.1
  obtain ⟨cells2, ev2, e2, hlen2, hb2, ha2, hw2, hr2⟩ :=
    exec_forward e1 hd (by decide) hlen1 (turn_left_ne _) hp1
      (by
        clear * - hq1 hps hpd hdir
        revert dir prev prev1
        decide)
      ⟨gP2.1, gP2.2.1, gP2.2.2.1, gP2.2.2.2.1⟩ ⟨gQ2.1, gQ2.2.1, gQ2.2.2.1, gQ2.2.2.2.1⟩
      ((hb1 _ _ gQ2.1 gQ2.2.1 gQ2.2.2.1 gQ2.2.2.2.1).2 ⟨gQ2.2.2.2.2, gg2.2.2⟩)
  have hc2 := fun x' y' (h1 : 0 ≤ x') (h2 : x' < N) (h3 : 0 ≤ y') (h4 : y' < N) =>
    ((hb2 x' y' h1 h2 h3 h4).trans (and_congr_left' (hb1 x' y' h1 h2 h3 h4))).trans
      (and_not_box (fun hE => by rw [hE.1, hE.2]; exact geoA_e1 dir x y s hdir hs0))
  -- symbol 3: a turn
  have e3 := HCExec.cont e2 (body_right hd HC_ALGO_PROD_A (0 + 1 + 1 + 1) (by decide) _ _ _ _ _ _)
  -- symbol 4: the own non-terminal, on the second quarter
  obtain ⟨cells4, prev4, ev4, e4, hlen4, hb4, hp4, hq4, ha4, hw4, hr4⟩ :=
    exec_symbol hNT HC_SYM_SUB_A e3 hs hd hlenst hdk hzero (by decide) (Or.inl rfl) hlen2
      (turn_right_ne _)
      (by
        clear * - hdir
        revert dir
        decide)
      (by
        clear * - hdir
        revert dir
        decide)
      (by
        clear * - hdir
        revert dir
        decide)
      (fun x' y' hin =>
        have q := geoA_q2 dir x y s x' y' hdir hs0 hin
        have g := hbox x' y' q.1
        ⟨g.1, g.2.1, g.2.2.1, g.2.2.2.1,
          (hc2 x' y' g.1 g.2.1 g.2.2.1 g.2.2.2.1).2 ⟨g.2.2.2.2, q.2⟩⟩)
  have hc4 := fun x' y' (h1 : 0 ≤ x') (h2 : x' < N) (h3 : 0 ≤ y') (h4 : y' < N) =>
    (hb4 x' y' h1 h2 h3 h4).trans (and_congr_left' (hc2 x' y' h1 h2 h3 h4))
  -- symbol 5: a move into the third quarter
  have gg5 := geoA_p5 dir x y s hdir hs0
  have gP5 := hbox _ _ gg5.1
  have gQ5 := hbox _ _ gg5.2.1
  obtain ⟨cells5, ev5, e5, hlen5, hb5, ha5, hw5, hr5⟩ :=
    exec_forward e4 hd (by decide) hlen4 (turn_right_ne _) hp4
      (by
        clear * - hq4 hdir
        revert dir prev4
        decide)
      ⟨gP5.1, gP5.2.1, gP5.2.2.1, gP5.2.2.2.1⟩ ⟨gQ5.1, gQ5.2.1, gQ5.2.2.1, gQ5.2.2.2.1⟩
      ((hc4 _ _ gQ5.1 gQ5.2.1 gQ5.2.2.1 gQ5.2.2.2.1).2
        ⟨⟨gQ5.2.2.2.2, gg5.2.2.1⟩, gg5.2.2.2⟩)
  have hc5 := fun x' y' (h1 : 0 ≤ x') (h2 : x' < N) (h3 : 0 ≤ y') (h4 : y' < N) =>
    ((hb5 x' y' h1 h2 h3 h4).trans (and_congr_left' (hc4 x' y' h1 h2 h3 h4))).trans
      (and_not_box (fun hE => by rw [hE.1, hE.2]; exact geoA_e4 dir x y s hdir hs0))
  -- symbol 6: the own non-terminal, on the third quarter
  obtain ⟨cells6, prev6, ev6, e6, hlen6, hb6, hp6, hq6, ha6, hw6, hr6⟩ :=
    exec_symbol hNT HC_SYM_SUB_A e5 hs hd hlenst hdk hzero (by decide) (Or.inl rfl) hlen5
      (turn_right_ne _)
      (by
        clear * - hdir
        revert dir
        decide)
      (by
        clear * - hdir
        revert dir
        decide)
      (by
        clear * - hdir
        revert dir
        decide)
      (fun x' y' hin =>
        have q := geoA_q3 dir x y s x' y' hdir hs0 hin
        have g := hbox x' y' q.1
        ⟨g.1, g.2.1, g.2.2.1, g.2.2.2.1,
          (hc5 x' y' g.1 g.2.1 g.2.2.1 g.2.2.2.1).2 ⟨⟨g.2.2.2.2, q.2.1⟩, q.2.2⟩⟩)
  have hc6 := fun x' y' (h1 : 0 ≤ x') (h2 : x' < N) (h3 : 0 ≤ y') (h4 : y' < N) =>
    (hb6 x' y' h1 h2 h3 h4).trans (and_congr_left' (hc5 x' y' h1 h2 h3 h4))
  -- symbol 7: a turn
  have e7 := HCExec.cont e6
    (body_right hd HC_ALGO_PROD_A (0 + 1 + 1 + 1 + 1 + 1 + 1 + 1) (by decide) _ _ _ _ _ _)
  -- symbol 8: a move into the fourth quarter
  have gg8 := geoA_p8 dir x y s hdir hs0
  have gP8 := hbox _ _ gg8.1
  have gQ8 := hbox _ _ gg8.2.1
  obtain ⟨cells8, ev8, e8, hlen8, hb8, ha8, hw8, hr8⟩ :=
    exec_forward e7 hd (by decide) hlen6 (turn_right_ne _) hp6
      (by
        clear * - hq6 hdir
        revert dir prev6
        decide)
      ⟨gP8.1, gP8.2.1, gP8.2.2.1, gP8.2.2.2.1⟩ ⟨gQ8.1, gQ8.2.1, gQ8.2.2.1, gQ8.2.2.2.1⟩
      ((hc6 _ _ gQ8.1 gQ8.2.1 gQ8.2.2.1 gQ8.2.2.2.1).2
        ⟨⟨⟨gQ8.2.2.2.2, gg8.2.2.1⟩, gg8.2.2.2.1⟩, gg8.2.2.2.2⟩)
  have hc8 := fun x' y' (h1 : 0 ≤ x') (h2 : x' < N) (h3 : 0 ≤ y') (h4 : y' < N) =>
    ((hb8 x' y' h1 h2 h3 h4).trans (and_congr_left' (hc6 x' y' h1 h2 h3 h4))).trans
      (and_not_box (fun hE => by rw [hE.1, hE.2]; exact geoA_e6 dir x y s hdir hs0))
  -- symbol 9: the other non-terminal, on the fourth quarter
  obtain ⟨cells9, prev9, ev9, e9, hlen9, hb9, hp9, hq9, ha9, hw9, hr9⟩ :=
    exec_symbol hNT HC_SYM_SUB_B e8 hs hd hlenst hdk hzero (by decide) (Or.inr rfl) hlen8
      (turn_right_ne _)
      (by
        clear * - hdir
        revert dir
        decide)
      (by
        clear * - hdir
        revert dir
        decide)
      (by
        clear * - hdir
        revert dir
        decide)
      (fun x' y' hin =>
        have q := geoA_q4 dir x y s x' y' hdir hs0 hin
        have g := hbox x' y' q.1
        ⟨g.1, g.2.1, g.2.2.1, g.2.2.2.1,
          (hc8 x' y' g.1 g.2.1 g.2.2.1 g.2.2.2.1).2
            ⟨⟨⟨g.2.2.2.2, q.2.1⟩, q.2.2.1⟩, q.2.2.2⟩⟩)
  have hc9 := fun x' y' (h1 : 0 ≤ x') (h2 : x' < N) (h3 : 0 ≤ y') (h4 : y' < N) =>
    (hb9 x' y' h1 h2 h3 h4).trans (and_congr_left' (hc8 x' y' h1 h2 h3 h4))
  -- symbol 10: a turn
  have e10 := HCExec.cont e9
    (body_left hd HC_ALGO_PROD_A (0 + 1 + 1 + 1 + 1 + 1 + 1 + 1 + 1 + 1 + 1) (by decide)
      _ _ _ _ _ _)
  obtain ⟨hex, hey, heh⟩ := geoA_end dir x y s hdir hs0
  refine ⟨cells9, prev9,
    [SDLCall.debugLeft d] ++ ev1 ++ ev2 ++ [SDLCall.debugRight d] ++ ev4 ++ ev5 ++ ev6
      ++ [SDLCall.debugRight d] ++ ev8 ++ ev9 ++ [SDLCall.debugLeft d],
    ?_, hlen9, ?_, hp9, ?_, ?_, ?_, ?_, ?_⟩
  · refine HCExec.cast e10 (by simp only [HC_fcount]; omega) ?_
    rw [hex, hey, heh]
    simp only [List.append_assoc]
    norm_num
  · intro x' y' h1 h2 h3 h4
    rw [hc9 x' y' h1 h2 h3 h4, geoA_iff dir x y s x' y' hdir hs0]
    exact and_not_four
  ·
    clear * - hq9 hdir
    revert dir prev9
    decide
  ·
    clear * - hq9 hdir
    revert dir prev9
    decide
  · rw [expand_succ_A]
    simp only [actions_append, ha1, ha2, ha4, ha5, ha6, ha8, ha9, actions_left, actions_right]
  · simp only [warnings_append, hw1, hw2, hw4, hw5, hw6, hw8, hw9, warnings_left,
      warnings_right, List.append_nil]
  · simp only [renders_append, List.length_append, hr1, hr2, hr4, hr5, hr6, hr8, hr9,
      renders_left, renders_right, List.length_nil, HC_fcount]
    omega

/-! ### Geometry of production B -/

theorem geoB_q1 (dir : HilbertDir_t) (x y s x' y' : Int) (hdir : dir ≠ HC_NUM_DIRS) (hs0 : 0 < s)
    (hin : HCInBox HC_SYM_SUB_A (HC_turn_right dir) x y s x' y') :
    HCInBox HC_SYM_SUB_B dir x y (2 * s) x' y' := by
  cases dir with
  | HC_NUM_DIRS => exact absurd rfl hdir
  | _ =>
    simp only [inbox_A_right, inbox_A_down, inbox_A_left, inbox_A_up, inbox_B_right,
      inbox_B_down, inbox_B_left, inbox_B_up, turn_left_right, turn_left_down,
      turn_left_left, turn_left_up, turn_right_right, turn_right_down, turn_right_left,
      turn_right_up, HCdx, HCdy] at hin ⊢
    omega

theorem geoB_p2 (dir : HilbertDir_t) (x y s : Int) (hdir : dir ≠ HC_NUM_DIRS) (hs0 : 0 < s) :
    HCInBox HC_SYM_SUB_B dir x y (2 * s) (x + (s - 1) * HCdx (HC_turn_right dir)) (y + (s - 1) * HCdy (HC_turn_right dir)) ∧
    HCInBox HC_SYM_SUB_B dir x y (2 * s) (x + (s - 1) * HCdx (HC_turn_right dir) + HCdx (HC_turn_right dir)) (y + (s - 1) * HCdy (HC_turn_right dir) + HCdy (HC_turn_right dir)) ∧
    ¬(HCInBox HC_SYM_SUB_A (HC_turn_right dir) x y s (x + (s - 1) * HCdx (HC_turn_right dir) + HCdx (HC_turn_right dir)) (y + (s - 1) * HCdy (HC_turn_right dir) + HCdy (HC_turn_right dir)) ∧
      ¬((x + (s - 1) * HCdx (HC_turn_right dir) + HCdx (HC_turn_right dir)) = x + (s - 1) * HCdx (HC_turn_right dir) ∧
      (y + (s - 1) * HCdy (HC_turn_right dir) + HCdy (HC_turn_right dir)) = y + (s - 1) * HCdy (HC_turn_right dir))) := by
  cases dir with
  | HC_NUM_DIRS => exact absurd rfl hdir
  | _ =>
    simp only [inbox_A_right, inbox_A_down, inbox_A_left, inbox_A_up, inbox_B_right,
      inbox_B_down, inbox_B_left, inbox_B_up, turn_left_right, turn_left_down,
      turn_left_left, turn_left_up, turn_right_right, turn_right_down, turn_right_left,
      turn_right_up, HCdx, HCdy]
    omega

theorem geoB_e1 (dir : HilbertDir_t) (x y s : Int) (hdir : dir ≠ HC_NUM_DIRS) (hs0 : 0 < s) :
    HCInBox HC_SYM_SUB_A (HC_turn_right dir) x y s (x + (s - 1) * HCdx (HC_turn_right dir)) (y + (s - 1) * HCdy (HC_turn_right dir)) := by
  cases dir with
  | HC_NUM_DIRS => exact absurd rfl hdir
  | _ =>
    simp only [inbox_A_right, inbox_A_down, inbox_A_left, inbox_A_up, inbox_B_right,
      inbox_B_down, inbox_B_left, inbox_B_up, turn_left_right, turn_left_down,
      turn_left_left, turn_left_up, turn_right_right, turn_right_down, turn_right_left,
      turn_right_up, HCdx, HCdy]
    omega

theorem geoB_q2 (dir : HilbertDir_t) (x y s x' y' : Int) (hdir : dir ≠ HC_NUM_DIRS) (hs0 : 0 < s)
    (hin : HCInBox HC_SYM_SUB_B (HC_turn_left (HC_turn_right dir))
      (x + (s - 1) * HCdx (HC_turn_right dir) + HCdx (HC_turn_right dir))
      (y + (s - 1) * HCdy (HC_turn_right dir) + HCdy (HC_turn_right dir)) s x' y') :
    HCInBox HC_SYM_SUB_B dir x y (2 * s) x' y' ∧ ¬HCInBox HC_SYM_SUB_A (HC_turn_right dir) x y s x' y' := by
  cases dir with
  | HC_NUM_DIRS => exact absurd rfl hdir
  | _ =>
    simp only [inbox_A_right, inbox_A_down, inbox_A_left, inbox_A_up, inbox_B_right,
      inbox_B_down, inbox_B_left, inbox_B_up, turn_left_right, turn_left_down,
      turn_left_left, turn_left_up, turn_right_right, turn_right_down, turn_right_left,
      turn_right_up, HCdx, HCdy] at hin ⊢
    omega

theorem geoB_p5 (dir : HilbertDir_t) (x y s : Int) (hdir : dir ≠ HC_NUM_DIRS) (hs0 : 0 < s) :
    HCInBox HC_SYM_SUB_B dir x y (2 * s) (x + (s - 1) * HCdx (HC_turn_right dir) + HCdx (HC_turn_right dir) + (s - 1) * HCdx (HC_turn_left (HC_turn_right dir))) (y + (s - 1) * HCdy (HC_turn_right dir) + HCdy (HC_turn_right dir) + (s - 1) * HCdy (HC_turn_left (HC_turn_right dir))) ∧
    HCInBox HC_SYM_SUB_B dir x y (2 * s) (x + (s - 1) * HCdx (HC_turn_right dir) + HCdx (HC_turn_right dir) + (s - 1) * HCdx (HC_turn_left (HC_turn_right dir)) + HCdx (HC_turn_left (HC_turn_right dir))) (y + (s - 1) * HCdy (HC_turn_right dir) + HCdy (HC_turn_right dir) + (s - 1) * HCdy (HC_turn_left (HC_turn_right dir)) + HCdy (HC_turn_left (HC_turn_right dir))) ∧
    ¬HCInBox HC_SYM_SUB_A (HC_turn_right dir) x y s (x + (s - 1) * HCdx (HC_turn_right dir) + HCdx (HC_turn_right dir) + (s - 1) * HCdx (HC_turn_left (HC_turn_right dir)) + HCdx (HC_turn_left (HC_turn_right dir))) (y + (s - 1) * HCdy (HC_turn_right dir) + HCdy (HC_turn_right dir) + (s - 1) * HCdy (HC_turn_left (HC_turn_right dir)) + HCdy (HC_turn_left (HC_turn_right dir))) ∧
    ¬(HCInBox HC_SYM_SUB_B (HC_turn_left (HC_turn_right dir))
      (x + (s - 1) * HCdx (HC_turn_right dir) + HCdx (HC_turn_right dir))
      (y + (s - 1) * HCdy (HC_turn_right dir) + HCdy (HC_turn_right dir)) s (x + (s - 1) * HCdx (HC_turn_right dir) + HCdx (HC_turn_right dir) + (s - 1) * HCdx (HC_turn_left (HC_turn_right dir)) + HCdx (HC_turn_left (HC_turn_right dir))) (y + (s - 1) * HCdy (HC_turn_right dir) + HCdy (HC_turn_right dir) + (s - 1) * HCdy (HC_turn_left (HC_turn_right dir)) + HCdy (HC_turn_left (HC_turn_right dir))) ∧
      ¬((x + (s - 1) * HCdx (HC_turn_right dir) + HCdx (HC_turn_right dir) + (s - 1) * HCdx (HC_turn_left (HC_turn_right dir)) + HCdx (HC_turn_left (HC_turn_right dir))) = x + (s - 1) * HCdx (HC_turn_right dir) + HCdx (HC_turn_right dir) + (s - 1) * HCdx (HC_turn_left (HC_turn_right dir)) ∧
      (y + (s - 1) * HCdy (HC_turn_right dir) + HCdy (HC_turn_right dir) + (s - 1) * HCdy (HC_turn_left (HC_turn_right dir)) + HCdy (HC_turn_left (HC_turn_right dir))) = y + (s - 1) * HCdy (HC_turn_right dir) + HCdy (HC_turn_right dir) + (s - 1) * HCdy (HC_turn_left (HC_turn_right dir)))) := by
  cases dir with
  | HC_NUM_DIRS => exact absurd rfl hdir
  | _ =>
    simp only [inbox_A_right, inbox_A_down, inbox_A_left, inbox_A_up, inbox_B_right,
      inbox_B_down, inbox_B_left, inbox_B_up, turn_left_right, turn_left_down,
      turn_left_left, turn_left_up, turn_right_right, turn_right_down, turn_right_left,
      turn_right_up, HCdx, HCdy]
    omega

theorem geoB_e4 (dir : HilbertDir_t) (x y s : Int) (hdir : dir ≠ HC_NUM_DIRS) (hs0 : 0 < s) :
    HCInBox HC_SYM_SUB_B (HC_turn_left (HC_turn_right dir))
      (x + (s - 1) * HCdx (HC_turn_right dir) + HCdx (HC_turn_right dir))
      (y + (s - 1) * HCdy (HC_turn_right dir) + HCdy (HC_turn_right dir)) s (x + (s - 1) * HCdx (HC_turn_right dir) + HCdx (HC_turn_right dir) + (s - 1) * HCdx (HC_turn_left (HC_turn_right dir))) (y + (s - 1) * HCdy (HC_turn_right dir) + HCdy (HC_turn_right dir) + (s - 1) * HCdy (HC_turn_left (HC_turn_right dir))) := by
  cases dir with
  | HC_NUM_DIRS => exact absurd rfl hdir
  | _ =>
    simp only [inbox_A_right, inbox_A_down, inbox_A_left, inbox_A_up, inbox_B_right,
      inbox_B_down, inbox_B_left, inbox_B_up, turn_left_right, turn_left_down,
      turn_left_left, turn_left_up, turn_right_right, turn_right_down, turn_right_left,
      turn_right_up, HCdx, HCdy]
    omega

theorem geoB_q3 (dir : HilbertDir_t) (x y s x' y' : Int) (hdir : dir ≠ HC_NUM_DIRS) (hs0 : 0 < s)
    (hin : HCInBox HC_SYM_SUB_B (HC_turn_left (HC_turn_right dir))
      (x + (s - 1) * HCdx (HC_turn_right dir) + HCdx (HC_turn_right dir) + (s - 1) * HCdx (HC_turn_left (HC_turn_right dir)) + HCdx (HC_turn_left (HC_turn_right dir)))
      (y + (s - 1) * HCdy (HC_turn_right dir) + HCdy (HC_turn_right dir) + (s - 1) * HCdy (HC_turn_left (HC_turn_right dir)) + HCdy (HC_turn_left (HC_turn_right dir))) s x' y') :
    HCInBox HC_SYM_SUB_B dir x y (2 * s) x' y' ∧ ¬HCInBox HC_SYM_SUB_A (HC_turn_right dir) x y s x' y' ∧
    ¬HCInBox HC_SYM_SUB_B (HC_turn_left (HC_turn_right dir))
      (x + (s - 1) * HCdx (HC_turn_right dir) + HCdx (HC_turn_right dir))
      (y + (s - 1) * HCdy (HC_turn_right dir) + HCdy (HC_turn_right dir)) s x' y' := by
  cases dir with
  | HC_NUM_DIRS => exact absurd rfl hdir
  | _ =>
    simp only [inbox_A_right, inbox_A_down, inbox_A_left, inbox_A_up, inbox_B_right,
      inbox_B_down, inbox_B_left, inbox_B_up, turn_left_right, turn_left_down,
      turn_left_left, turn_left_up, turn_right_right, turn_right_down, turn_right_left,
      turn_right_up, HCdx, HCdy] at hin ⊢
    omega

theorem geoB_p8 (dir : HilbertDir_t) (x y s : Int) (hdir : dir ≠ HC_NUM_DIRS) (hs0 : 0 < s) :
    HCInBox HC_SYM_SUB_B dir x y (2 * s) (x + (s - 1) * HCdx (HC_turn_right dir) + HCdx (HC_turn_right dir) + (s - 1) * HCdx (HC_turn_left (HC_turn_right dir)) + HCdx (HC_turn_left (HC_turn_right dir)) + (s - 1) * HCdx (HC_turn_left (HC_turn_right dir))) (y + (s - 1) * HCdy (HC_turn_right dir) + HCdy (HC_turn_right dir) + (s - 1) * HCdy (HC_turn_left (HC_turn_right dir)) + HCdy (HC_turn_left (HC_turn_right dir)) + (s - 1) * HCdy (HC_turn_left (HC_turn_right dir))) ∧
    HCInBox HC_SYM_SUB_B dir x y (2 * s) (x + (s - 1) * HCdx (HC_turn_right dir) + HCdx (HC_turn_right dir) + (s - 1) * HCdx (HC_turn_left (HC_turn_right dir)) + HCdx (HC_turn_left (HC_turn_right dir)) + (s - 1) * HCdx (HC_turn_left (HC_turn_right dir)) + HCdx (HC_turn_left (HC_turn_left (HC_turn_right dir)))) (y + (s - 1) * HCdy (HC_turn_right dir) + HCdy (HC_turn_right dir) + (s - 1) * HCdy (HC_turn_left (HC_turn_right dir)) + HCdy (HC_turn_left (HC_turn_right dir)) + (s - 1) * HCdy (HC_turn_left (HC_turn_right dir)) + HCdy (HC_turn_left (HC_turn_left (HC_turn_right dir)))) ∧
    ¬HCInBox HC_SYM_SUB_A (HC_turn_right dir) x y s (x + (s - 1) * HCdx (HC_turn_right dir) + HCdx (HC_turn_right dir) + (s - 1) * HCdx (HC_turn_left (HC_turn_right dir)) + HCdx (HC_turn_left (HC_turn_right dir)) + (s - 1) * HCdx (HC_turn_left (HC_turn_right dir)) + HCdx (HC_turn_left (HC_turn_left (HC_turn_right dir)))) (y + (s - 1) * HCdy (HC_turn_right dir) + HCdy (HC_turn_right dir) + (s - 1) * HCdy (HC_turn_left (HC_turn_right dir)) + HCdy (HC_turn_left (HC_turn_right dir)) + (s - 1) * HCdy (HC_turn_left (HC_turn_right dir)) + HCdy (HC_turn_left (HC_turn_left (HC_turn_right dir)))) ∧
    ¬HCInBox HC_SYM_SUB_B (HC_turn_left (HC_turn_right dir))
      (x + (s - 1) * HCdx (HC_turn_right dir) + HCdx (HC_turn_right dir))
      (y + (s - 1) * HCdy (HC_turn_right dir) + HCdy (HC_turn_right dir)) s (x + (s - 1) * HCdx (HC_turn_right dir) + HCdx (HC_turn_right dir) + (s - 1) * HCdx (HC_turn_left (HC_turn_right dir)) + HCdx (HC_turn_left (HC_turn_right dir)) + (s - 1) * HCdx (HC_turn_left (HC_turn_right dir)) + HCdx (HC_turn_left (HC_turn_left (HC_turn_right dir)))) (y + (s - 1) * HCdy (HC_turn_right dir) + HCdy (HC_turn_right dir) + (s - 1) * HCdy (HC_turn_left (HC_turn_right dir)) + HCdy (HC_turn_left (HC_turn_right dir)) + (s - 1) * HCdy (HC_turn_left (HC_turn_right dir)) + HCdy (HC_turn_left (HC_turn_left (HC_turn_right dir)))) ∧
    ¬(HCInBox HC_SYM_SUB_B (HC_turn_left (HC_turn_right dir))
      (x + (s - 1) * HCdx (HC_turn_right dir) + HCdx (HC_turn_right dir) + (s - 1) * HCdx (HC_turn_left (HC_turn_right dir)) + HCdx (HC_turn_left (HC_turn_right dir)))
      (y + (s - 1) * HCdy (HC_turn_right dir) + HCdy (HC_turn_right dir) + (s - 1) * HCdy (HC_turn_left (HC_turn_right dir)) + HCdy (HC_turn_left (HC_turn_right dir))) s (x + (s - 1) * HCdx (HC_turn_right dir) + HCdx (HC_turn_right dir) + (s - 1) * HCdx (HC_turn_left (HC_turn_right dir)) + HCdx (HC_turn_left (HC_turn_right dir)) + (s - 1) * HCdx (HC_turn_left (HC_turn_right dir)) + HCdx (HC_turn_left (HC_turn_left (HC_turn_right dir)))) (y + (s - 1) * HCdy (HC_turn_right dir) + HCdy (HC_turn_right dir) + (s - 1) * HCdy (HC_turn_left (HC_turn_right dir)) + HCdy (HC_turn_left (HC_turn_right dir)) + (s - 1) * HCdy (HC_turn_left (HC_turn_right dir)) + HCdy (HC_turn_left (HC_turn_left (HC_turn_right dir)))) ∧
      ¬((x + (s - 1) * HCdx (HC_turn_right dir) + HCdx (HC_turn_right dir) + (s - 1) * HCdx (HC_turn_left (HC_turn_right dir)) + HCdx (HC_turn_left (HC_turn_right dir)) + (s - 1) * HCdx (HC_turn_left (HC_turn_right dir)) + HCdx (HC_turn_left (HC_turn_left (HC_turn_right dir)))) = x + (s - 1) * HCdx (HC_turn_right dir) + HCdx (HC_turn_right dir) + (s - 1) * HCdx (HC_turn_left (HC_turn_right dir)) + HCdx (HC_turn_left (HC_turn_right dir)) + (s - 1) * HCdx (HC_turn_left (HC_turn_right dir)) ∧
      (y + (s - 1) * HCdy (HC_turn_right dir) + HCdy (HC_turn_right dir) + (s - 1) * HCdy (HC_turn_left (HC_turn_right dir)) + HCdy (HC_turn_left (HC_turn_right dir)) + (s - 1) * HCdy (HC_turn_left (HC_turn_right dir)) + HCdy (HC_turn_left (HC_turn_left (HC_turn_right dir)))) = y + (s - 1) * HCdy (HC_turn_right dir) + HCdy (HC_turn_right dir) + (s - 1) * HCdy (HC_turn_left (HC_turn_right dir)) + HCdy (HC_turn_left (HC_turn_right dir)) + (s - 1) * HCdy (HC_turn_left (HC_turn_right dir)))) := by
  cases dir with
  | HC_NUM_DIRS => exact absurd rfl hdir
  | _ =>
    simp only [inbox_A_right, inbox_A_down, inbox_A_left, inbox_A_up, inbox_B_right,
      inbox_B_down, inbox_B_left, inbox_B_up, turn_left_right, turn_left_down,
      turn_left_left, turn_left_up, turn_right_right, turn_right_down, turn_right_left,
      turn_right_up, HCdx, HCdy]
    omega

theorem geoB_e6 (dir : HilbertDir_t) (x y s : Int) (hdir : dir ≠ HC_NUM_DIRS) (hs0 : 0 < s) :
    HCInBox HC_SYM_SUB_B (HC_turn_left (HC_turn_right dir))
      (x + (s - 1) * HCdx (HC_turn_right dir) + HCdx (HC_turn_right dir) + (s - 1) * HCdx (HC_turn_left (HC_turn_right dir)) + HCdx (HC_turn_left (HC_turn_right dir)))
      (y + (s - 1) * HCdy (HC_turn_right dir) + HCdy (HC_turn_right dir) + (s - 1) * HCdy (HC_turn_left (HC_turn_right dir)) + HCdy (HC_turn_left (HC_turn_right dir))) s (x + (s - 1) * HCdx (HC_turn_right dir) + HCdx (HC_turn_right dir) + (s - 1) * HCdx (HC_turn_left (HC_turn_right dir)) + HCdx (HC_turn_left (HC_turn_right dir)) + (s - 1) * HCdx (HC_turn_left (HC_turn_right dir))) (y + (s - 1) * HCdy (HC_turn_right dir) + HCdy (HC_turn_right dir) + (s - 1) * HCdy (HC_turn_left (HC_turn_right dir)) + HCdy (HC_turn_left (HC_turn_right dir)) + (s - 1) * HCdy (HC_turn_left (HC_turn_right dir))) := by
  cases dir with
  | HC_NUM_DIRS => exact absurd rfl hdir
  | _ =>
    simp only [inbox_A_right, inbox_A_down, inbox_A_left, inbox_A_up, inbox_B_right,
      inbox_B_down, inbox_B_left, inbox_B_up, turn_left_right, turn_left_down,
      turn_left_left, turn_left_up, turn_right_right, turn_right_down, turn_right_left,
      turn_right_up, HCdx, HCdy]
    omega

theorem geoB_q4 (dir : HilbertDir_t) (x y s x' y' : Int) (hdir : dir ≠ HC_NUM_DIRS) (hs0 : 0 < s)
    (hin : HCInBox HC_SYM_SUB_A (HC_turn_left (HC_turn_left (HC_turn_right dir)))
      (x + (s - 1) * HCdx (HC_turn_right dir) + HCdx (HC_turn_right dir) + (s - 1) * HCdx (HC_turn_left (HC_turn_right dir)) + HCdx (HC_turn_left (HC_turn_right dir)) + (s - 1) * HCdx (HC_turn_left (HC_turn_right dir)) + HCdx (HC_turn_left (HC_turn_left (HC_turn_right dir))))
      (y + (s - 1) * HCdy (HC_turn_right dir) + HCdy (HC_turn_right dir) + (s - 1) * HCdy (HC_turn_left (HC_turn_right dir)) + HCdy (HC_turn_left (HC_turn_right dir)) + (s - 1) * HCdy (HC_turn_left (HC_turn_right dir)) + HCdy (HC_turn_left (HC_turn_left (HC_turn_right dir)))) s x' y') :
    HCInBox HC_SYM_SUB_B dir x y (2 * s) x' y' ∧ ¬HCInBox HC_SYM_SUB_A (HC_turn_right dir) x y s x' y' ∧
    ¬HCInBox HC_SYM_SUB_B (HC_turn_left (HC_turn_right dir))
      (x + (s - 1) * HCdx (HC_turn_right dir) + HCdx (HC_turn_right dir))
      (y + (s - 1) * HCdy (HC_turn_right dir) + HCdy (HC_turn_right dir)) s x' y' ∧
    ¬HCInBox HC_SYM_SUB_B (HC_turn_left (HC_turn_right dir))
      (x + (s - 1) * HCdx (HC_turn_right dir) + HCdx (HC_turn_right dir) + (s - 1) * HCdx (HC_turn_left (HC_turn_right dir)) + HCdx (HC_turn_left (HC_turn_right dir)))
      (y + (s - 1) * HCdy (HC_turn_right dir) + HCdy (HC_turn_right dir) + (s - 1) * HCdy (HC_turn_left (HC_turn_right dir)) + HCdy (HC_turn_left (HC_turn_right dir))) s x' y' := by
  cases dir with
  | HC_NUM_DIRS => exact absurd rfl hdir
  | _ =>
    simp only [inbox_A_right, inbox_A_down, inbox_A_left, inbox_A_up, inbox_B_right,
      inbox_B_down, inbox_B_left, inbox_B_up, turn_left_right, turn_left_down,
      turn_left_left, turn_left_up, turn_right_right, turn_right_down, turn_right_left,
      turn_right_up, HCdx, HCdy] at hin ⊢
    omega

theorem geoB_end (dir : HilbertDir_t) (x y s : Int) (hdir : dir ≠ HC_NUM_DIRS) (hs0 : 0 < s) :
    x + (s - 1) * HCdx (HC_turn_right dir) + HCdx (HC_turn_right dir) + (s - 1) * HCdx (HC_turn_left (HC_turn_right dir)) + HCdx (HC_turn_left (HC_turn_right dir)) + (s - 1) * HCdx (HC_turn_left (HC_turn_right dir)) + HCdx (HC_turn_left (HC_turn_left (HC_turn_right dir))) + (s - 1) * HCdx (HC_turn_left (HC_turn_left (HC_turn_right dir))) = x + (2 * s - 1) * HCdx dir ∧
    y + (s - 1) * HCdy (HC_turn_right dir) + HCdy (HC_turn_right dir) + (s - 1) * HCdy (HC_turn_left (HC_turn_right dir)) + HCdy (HC_turn_left (HC_turn_right dir)) + (s - 1) * HCdy (HC_turn_left (HC_turn_right dir)) + HCdy (HC_turn_left (HC_turn_left (HC_turn_right dir))) + (s - 1) * HCdy (HC_turn_left (HC_turn_left (HC_turn_right dir))) = y + (2 * s - 1) * HCdy dir ∧
    (HC_turn_right (HC_turn_left (HC_turn_left (HC_turn_right dir)))) = dir := by
  cases dir with
  | HC_NUM_DIRS => exact absurd rfl hdir
  | _ =>
    simp only [inbox_A_right, inbox_A_down, inbox_A_left, inbox_A_up, inbox_B_right,
      inbox_B_down, inbox_B_left, inbox_B_up, turn_left_right, turn_left_down,
      turn_left_left, turn_left_up, turn_right_right, turn_right_down, turn_right_left,
      turn_right_up, HCdx, HCdy]
    exact ⟨by omega, by omega, trivial⟩

theorem geoB_iff (dir : HilbertDir_t) (x y s x' y' : Int) (hdir : dir ≠ HC_NUM_DIRS) (hs0 : 0 < s) :
    (HCInBox HC_SYM_SUB_B dir x y (2 * s) x' y' ∧
      ¬(x' = x + (2 * s - 1) * HCdx dir ∧ y' = y + (2 * s - 1) * HCdy dir)) ↔
    (HCInBox HC_SYM_SUB_A (HC_turn_right dir) x y s x' y' ∨
     HCInBox HC_SYM_SUB_B (HC_turn_left (HC_turn_right dir))
      (x + (s - 1) * HCdx (HC_turn_right dir) + HCdx (HC_turn_right dir))
      (y + (s - 1) * HCdy (HC_turn_right dir) + HCdy (HC_turn_right dir)) s x' y' ∨
     HCInBox HC_SYM_SUB_B (HC_turn_left (HC_turn_right dir))
      (x + (s - 1) * HCdx (HC_turn_right dir) + HCdx (HC_turn_right dir) + (s - 1) * HCdx (HC_turn_left (HC_turn_right dir)) + HCdx (HC_turn_left (HC_turn_right dir)))
      (y + (s - 1) * HCdy (HC_turn_right dir) + HCdy (HC_turn_right dir) + (s - 1) * HCdy (HC_turn_left (HC_turn_right dir)) + HCdy (HC_turn_left (HC_turn_right dir))) s x' y' ∨
     (HCInBox HC_SYM_SUB_A (HC_turn_left (HC_turn_left (HC_turn_right dir)))
      (x + (s - 1) * HCdx (HC_turn_right dir) + HCdx (HC_turn_right dir) + (s - 1) * HCdx (HC_turn_left (HC_turn_right dir)) + HCdx (HC_turn_left (HC_turn_right dir)) + (s - 1) * HCdx (HC_turn_left (HC_turn_right dir)) + HCdx (HC_turn_left (HC_turn_left (HC_turn_right dir))))
      (y + (s - 1) * HCdy (HC_turn_right dir) + HCdy (HC_turn_right dir) + (s - 1) * HCdy (HC_turn_left (HC_turn_right dir)) + HCdy (HC_turn_left (HC_turn_right dir)) + (s - 1) * HCdy (HC_turn_left (HC_turn_right dir)) + HCdy (HC_turn_left (HC_turn_left (HC_turn_right dir)))) s x' y' ∧
      ¬(x' = x + (s - 1) * HCdx (HC_turn_right dir) + HCdx (HC_turn_right dir) + (s - 1) * HCdx (HC_turn_left (HC_turn_right dir)) + HCdx (HC_turn_left (HC_turn_right dir)) + (s - 1) * HCdx (HC_turn_left (HC_turn_right dir)) + HCdx (HC_turn_left (HC_turn_left (HC_turn_right dir))) + (s - 1) * HCdx (HC_turn_left (HC_turn_left (HC_turn_right dir))) ∧
      y' = y + (s - 1) * HCdy (HC_turn_right dir) + HCdy (HC_turn_right dir) + (s - 1) * HCdy (HC_turn_left (HC_turn_right dir)) + HCdy (HC_turn_left (HC_turn_right dir)) + (s - 1) * HCdy (HC_turn_left (HC_turn_right dir)) + HCdy (HC_turn_left (HC_turn_left (HC_turn_right dir))) + (s - 1) * HCdy (HC_turn_left (HC_turn_left (HC_turn_right dir)))))) := by
  cases dir with
  | HC_NUM_DIRS => exact absurd rfl hdir
  | _ =>
    simp only [inbox_A_right, inbox_A_down, inbox_A_left, inbox_A_up, inbox_B_right,
      inbox_B_down, inbox_B_left, inbox_B_up, turn_left_right, turn_left_down,
      turn_left_left, turn_left_up, turn_right_right, turn_right_down, turn_right_left,
      turn_right_up, HCdx, HCdy]
    constructor <;> intro h <;> omega

set_option maxHeartbeats 4000000 in
/-- The production of `B`, read at a frame with `k` levels of stack below it:
the eleven symbols from the first to the terminator. -/
theorem runs_frame_B (k : Nat) (hNT : HCRunsSymbol k)
    (st : List HilbertAlgoRecurse_t) (d : Nat)
    (n N s : Int) (cells : List HilbertCell_t) (dir prev : HilbertDir_t) (x y : Int)
    (sdl : List SDLCall)
    (hs : s = 2 ^ k) (hd : d < st.length) (hlenst : (st.length : Int) = n)
    (hdk : (d : Int) + k = n - 1)
    (hzero : ∀ j, d < j → j < st.length → st[j]? = some ⟨none, 0⟩)
    (hlen : (cells.length : Int) = N * N)
    (hdir : dir ≠ HC_NUM_DIRS)
    (hprev : prev ≠ HC_NUM_DIRS) (hpd : prev ≠ dir)
    (hps : prev ≠ HCside HC_SYM_SUB_B dir)
    (hbox : ∀ x' y', HCInBox HC_SYM_SUB_B dir x y (2 * s) x' y' →
      0 ≤ x' ∧ x' < N ∧ 0 ≤ y' ∧ y' < N ∧ HCBlank cells N x' y') :
    ∃ cells' prev' ev,
      HCExec ⟨⟨n, N, cells⟩, dir, prev, st.set d ⟨some HC_ALGO_PROD_B, 0⟩, (d : Int), x, y, sdl⟩
        (HC_fcount (k + 1))
        ⟨⟨n, N, cells'⟩, dir, prev', st.set d ⟨some HC_ALGO_PROD_B, 11⟩, (d : Int),
          x + (2 * s - 1) * HCdx dir, y + (2 * s - 1) * HCdy dir, sdl ++ ev⟩ ∧
      (cells'.length : Int) = N * N ∧
      (∀ x' y', 0 ≤ x' → x' < N → 0 ≤ y' → y' < N →
        (HCBlank cells' N x' y' ↔ HCBlank cells N x' y' ∧
          ¬(HCInBox HC_SYM_SUB_B dir x y (2 * s) x' y' ∧
            ¬(x' = x + (2 * s - 1) * HCdx dir ∧ y' = y + (2 * s - 1) * HCdy dir)))) ∧
      prev' ≠ HC_NUM_DIRS ∧ prev' ≠ dir ∧ prev' ≠ HCopp (HCside HC_SYM_SUB_B dir) ∧
      HC_actions ev = HC_expand (k + 1) HC_SYM_SUB_B ∧ HC_warnings ev = [] ∧
      (HC_renders ev).length = HC_fcount (k + 1) := by
  have hs0 : 0 < s := by rw [hs]; positivity
  -- symbol 0: a turn
  have e0 := HCExec.cont (HCExec.refl _)
    (body_right hd HC_ALGO_PROD_B 0 (by decide) ⟨n, N, cells⟩ dir prev x y sdl)
  -- symbol 1: the other non-terminal, on the first quarter
  obtain ⟨cells1, prev1, ev1, e1, hlen1, hb1, hp1, hq1, ha1, hw1, hr1⟩ :=
    exec_symbol hNT HC_SYM_SUB_A e0 hs hd hlenst hdk hzero (by decide) (Or.inl rfl) hlen
      (turn_right_ne _) hprev
      (by
        clear * - hps hpd hdir
        revert dir prev
        decide)
      (by
        clear * - hps hpd hdir
        revert dir prev
        decide)
      (fun x' y' hin => hbox x' y' (geoB_q1 dir x y s x' y' hdir hs0 hin))
  -- symbol 2: a move into the second quarter
  have gg2 := geoB_p2 dir x y s hdir hs0
  have gP2 := hbox _ _ gg2.1
  have gQ2 := hbox _ _ gg2.2.1
  obtain ⟨cells2, ev2, e2, hlen2, hb2, ha2, hw2, hr2⟩ :=
    exec_forward e1 hd (by decide) hlen1 (turn_right_ne _) hp1
      (by
        clear * - hq1 hps hpd hdir
        revert dir prev prev1
        decide)
      ⟨gP2.1, gP2.2.1, gP2.2.2.1, gP2.2.2.2.1⟩ ⟨gQ2.1, gQ2.2.1, gQ2.2.2.1, gQ2.2.2.2.1⟩
      ((hb1 _ _ gQ2.1 gQ2.2.1 gQ2.2.2.1 gQ2.2.2.2.1).2 ⟨gQ2.2.2.2.2, gg2.2.2⟩)
  have hc2 := fun x' y' (h1 : 0 ≤ x') (h2 : x' < N) (h3 : 0 ≤ y') (h4 : y' < N) =>
    ((hb2 x' y' h1 h2 h3 h4).trans (and_congr_left' (hb1 x' y' h1 h2 h3 h4))).trans
      (and_not_box (fun hE => by rw [hE.1, hE.2]; exact geoB_e1 dir x y s hdir hs0))
  -- symbol 3: a turn
  have e3 := HCExec.cont e2 (body_left hd HC_ALGO_PROD_B (0 + 1 + 1 + 1) (by decide) _ _ _ _ _ _)
  -- symbol 4: the own non-terminal, on the second quarter
  obtain ⟨cells4, prev4, ev4, e4, hlen4, hb4, hp4, hq4, ha4, hw4, hr4⟩ :=
    exec_symbol hNT HC_SYM_SUB_B e3 hs hd hlenst hdk hzero (by decide) (Or.inr rfl) hlen2
      (turn_left_ne _)
      (by
        clear * - hdir
        revert dir
        decide)
      (by
        clear * - hdir
        revert dir
        decide)
      (by
        clear * - hdir
        revert dir
        decide)
      (fun x' y' hin =>
        have q := geoB_q2 dir x y s x' y' hdir hs0 hin
        have g := hbox x' y' q.1
        ⟨g.1, g.2.1, g.2.2.1, g.2.2.2.1,
          (hc2 x' y' g.1 g.2.1 g.2.2.1 g.2.2.2.1).2 ⟨g.2.2.2.2, q.2⟩⟩)
  have hc4 := fun x' y' (h1 : 0 ≤ x') (h2 : x' < N) (h3 : 0 ≤ y') (h4 : y' < N) =>
    (hb4 x' y' h1 h2 h3 h4).trans (and_congr_left' (hc2 x' y' h1 h2 h3 h4))
  -- symbol 5: a move into the third quarter
  have gg5 := geoB_p5 dir x y s hdir hs0
  have gP5 := hbox _ _ gg5.1
  have gQ5 := hbox _ _ gg5.2.1
  obtain ⟨cells5, ev5, e5, hlen5, hb5, ha5, hw5, hr5⟩ :=
    exec_forward e4 hd (by decide) hlen4 (turn_left_ne _) hp4
      (by
        clear * - hq4 hdir
        revert dir prev4
        decide)
      ⟨gP5.1, gP5.2.1, gP5.2.2.1, gP5.2.2.2.1⟩ ⟨gQ5.1, gQ5.2.1, gQ5.2.2.1, gQ5.2.2.2.1⟩
      ((hc4 _ _ gQ5.1 gQ5.2.1 gQ5.2.2.1 gQ5.2.2.2.1).2
        ⟨⟨gQ5.2.2.2.2, gg5.2.2.1⟩, gg5.2.2.2⟩)
  have hc5 := fun x' y' (h1 : 0 ≤ x') (h2 : x' < N) (h3 : 0 ≤ y') (h4 : y' < N) =>
    ((hb5 x' y' h1 h2 h3 h4).trans (and_congr_left' (hc4 x' y' h1 h2 h3 h4))).trans
      (and_not_box (fun hE => by rw [hE.1, hE.2]; exact geoB_e4 dir x y s hdir hs0))
  -- symbol 6: the own non-terminal, on the third quarter
  obtain ⟨cells6, prev6, ev6, e6, hlen6, hb6, hp6, hq6, ha6, hw6, hr6⟩ :=
    exec_symbol hNT HC_SYM_SUB_B e5 hs hd hlenst hdk hzero (by decide) (Or.inr rfl) hlen5
      (turn_left_ne _)
      (by
        clear * - hdir
        revert dir
        decide)
      (by
        clear * - hdir
        revert dir
        decide)
      (by
        clear * - hdir
        revert dir
        decide)
      (fun x' y' hin =>
        have q := geoB_q3 dir x y s x' y' hdir hs0 hin
        have g := hbox x' y' q.1
        ⟨g.1, g.2.1, g.2.2.1, g.2.2.2.1,
          (hc5 x' y' g.1 g.2.1 g.2.2.1 g.2.2.2.1).2 ⟨⟨g.2.2.2.2, q.2.1⟩, q.2.2⟩⟩)
  have hc6 := fun x' y' (h1 : 0 ≤ x') (h2 : x' < N) (h3 : 0 ≤ y') (h4 : y' < N) =>
    (hb6 x' y' h1 h2 h3 h4).trans (and_congr_left' (hc5 x' y' h1 h2 h3 h4))
  -- symbol 7: a turn
  have e7 := HCExec.cont e6
    (body_left hd HC_ALGO_PROD_B (0 + 1 + 1 + 1 + 1 + 1 + 1 + 1) (by decide) _ _ _ _ _ _)
  -- symbol 8: a move into the fourth quarter
  have gg8 := geoB_p8 dir x y s hdir hs0
  have gP8 := hbox _ _ gg8.1
  have gQ8 := hbox _ _ gg8.2.1
  obtain ⟨cells8, ev8, e8, hlen8, hb8, ha8, hw8, hr8⟩ :=
    exec_forward e7 hd (by decide) hlen6 (turn_left_ne _) hp6
      (by
        clear * - hq6 hdir
        revert dir prev6
        decide)
      ⟨gP8.1, gP8.2.1, gP8.2.2.1, gP8.2.2.2.1⟩ ⟨gQ8.1, gQ8.2.1, gQ8.2.2.1, gQ8.2.2.2.1⟩
      ((hc6 _ _ gQ8.1 gQ8.2.1 gQ8.2.2.1 gQ8.2.2.2.1).2
        ⟨⟨⟨gQ8.2.2.2.2, gg8.2.2.1⟩, gg8.2.2.2.1⟩, gg8.2.2.2.2⟩)
  have hc8 := fun x' y' (h1 : 0 ≤ x') (h2 : x' < N) (h3 : 0 ≤ y') (h4 : y' < N) =>
    ((hb8 x' y' h1 h2 h3 h4).trans (and_congr_left' (hc6 x' y' h1 h2 h3 h4))).trans
      (and_not_box (fun hE => by rw [hE.1, hE.2]; exact geoB_e6 dir x y s hdir hs0))
  -- symbol 9: the other non-terminal, on the fourth quarter
  obtain ⟨cells9, prev9, ev9, e9, hlen9, hb9, hp9, hq9, ha9, hw9, hr9⟩ :=
    exec_symbol hNT HC_SYM_SUB_A e8 hs hd hlenst hdk hzero (by decide) (Or.inl rfl) hlen8
      (turn_left_ne _)
      (by
        clear * - hdir
        revert dir
        decide)
      (by
        clear * - hdir
        revert dir
        decide)
      (by
        clear * - hdir
        revert dir
        decide)
      (fun x' y' hin =>
        have q := geoB_q4 dir x y s x' y' hdir hs0 hin
        have g := hbox x' y' q.1
        ⟨g.1, g.2.1, g.2.2.1, g.2.2.2.1,
          (hc8 x' y' g.1 g.2.1 g.2.2.1 g.2.2.2.1).2
            ⟨⟨⟨g.2.2.2.2, q.2.1⟩, q.2.2.1⟩, q.2.2.2⟩⟩)
  have hc9 := fun x' y' (h1 : 0 ≤ x') (h2 : x' < N) (h3 : 0 ≤ y') (h4 : y' < N) =>
    (hb9 x' y' h1 h2 h3 h4).trans (and_congr_left' (hc8 x' y' h1 h2 h3 h4))
  -- symbol 10: a turn
  have e10 := HCExec.cont e9
    (body_right hd HC_ALGO_PROD_B (0 + 1 + 1 + 1 + 1 + 1 + 1 + 1 + 1 + 1 + 1) (by decide)
      _ _ _ _ _ _)
  obtain ⟨hex, hey, heh⟩ := geoB_end dir x y s hdir hs0
  refine ⟨cells9, prev9,
    [SDLCall.debugRight d] ++ ev1 ++ ev2 ++ [SDLCall.debugLeft d] ++ ev4 ++ ev5 ++ ev6
      ++ [SDLCall.debugLeft d] ++ ev8 ++ ev9 ++ [SDLCall.debugRight d],
    ?_, hlen9, ?_, hp9, ?_, ?_, ?_, ?_, ?_⟩
  · refine HCExec.cast e10 (by simp only [HC_fcount]; omega) ?_
    rw [hex, hey, heh]
    simp only [List.append_assoc]
    norm_num
  · intro x' y' h1 h2 h3 h4
    rw [hc9 x' y' h1 h2 h3 h4, geoB_iff dir x y s x' y' hdir hs0]
    exact and_not_four
  ·
    clear * - hq9 hdir
    revert dir prev9
    decide
  ·
    clear * - hq9 hdir
    revert dir prev9
    decide
  · rw [expand_succ_B]
    simp only [actions_append, ha1, ha2, ha4, ha5, ha6, ha8, ha9, actions_left, actions_right]
  · simp only [warnings_append, hw1, hw2, hw4, hw5, hw6, hw8, hw9, warnings_left,
      warnings_right, List.append_nil]
  · simp only [renders_append, List.length_append, hr1, hr2, hr4, hr5, hr6, hr8, hr9,
      renders_left, renders_right, List.length_nil, HC_fcount]
    omega

/-! ## Interpreting a non-terminal to any depth -/

theorem list_set_same {α : Type} {l : List α} {i : Nat} {a : α} (h : l[i]? = some a) :
    l.set i a = l := by
  apply List.ext_getElem?
  intro j
  by_cases hj : i = j
  · subst hj
    have hlt : i < l.length := by
      by_contra hge
      rw [List.getElem?_eq_none (by omega)] at h
      cases h
    rw [List.getElem?_set_self hlt, h]
  · rw [List.getElem?_set_ne hj]

theorem geo_unit {sym : Char} (hnt : sym = HC_SYM_SUB_A ∨ sym = HC_SYM_SUB_B)
    (dir : HilbertDir_t) (x y x' y' : Int) (hdir : dir ≠ HC_NUM_DIRS)
    (hin : HCInBox sym dir x y 1 x' y') : x' = x ∧ y' = y := by
  rcases hnt with rfl | rfl <;>
  cases dir with
  | HC_NUM_DIRS => exact absurd rfl hdir
  | _ =>
    simp only [inbox_A_right, inbox_A_down, inbox_A_left, inbox_A_up, inbox_B_right,
      inbox_B_down, inbox_B_left, inbox_B_up] at hin
    omega

theorem actions_skip (d : Int) (sym : Char) : HC_actions [SDLCall.debugSkip d sym] = [] := rfl
theorem warnings_skip (d : Int) (sym : Char) : HC_warnings [SDLCall.debugSkip d sym] = [] := rfl
theorem renders_skip (d : Int) (sym : Char) : HC_renders [SDLCall.debugSkip d sym] = [] := rfl
theorem actions_recurse (d : Int) (sym : Char) :
    HC_actions [SDLCall.debugRecurse d sym] = [] := rfl
theorem warnings_recurse (d : Int) (sym : Char) :
    HC_warnings [SDLCall.debugRecurse d sym] = [] := rfl
theorem renders_recurse (d : Int) (sym : Char) :
    HC_renders [SDLCall.debugRecurse d sym] = [] := rfl
theorem actions_null (d : Int) : HC_actions [SDLCall.debugNull d] = [] := rfl
theorem warnings_null (d : Int) : HC_warnings [SDLCall.debugNull d] = [] := rfl
theorem renders_null (d : Int) : HC_renders [SDLCall.debugNull d] = [] := rfl

theorem runs_symbol_zero : HCRunsSymbol 0 := by
  intro st d P i sym n N s cells dir prev x y sdl hs hd hlenst hdk hzero hsym hnt hlen
    hdir hprev hpd hps hbox
  have hs1 : s = 1 := by simpa using hs
  subst hs1
  have hbot : ¬ ((d : Int) < n - 1) := by omega
  have e0 := HCExec.cont (HCExec.refl _)
    (body_skip hd P i sym hsym hnt (N := N) hbot cells dir prev x y sdl)
  refine ⟨cells, prev, [SDLCall.debugSkip d sym], ?_, hlen, ?_, hprev, Or.inl rfl, rfl, rfl,
    rfl⟩
  · refine HCExec.cast e0 rfl ?_
    simp
  · intro x' y' _ _ _ _
    constructor
    · intro hb
      refine ⟨hb, fun hc => hc.2 ?_⟩
      have := geo_unit hnt dir x y x' y' hdir hc.1
      simpa using this
    · exact fun hb => hb.1

theorem runs_symbol_succ (k : Nat) (ih : HCRunsSymbol k) : HCRunsSymbol (k + 1) := by
  intro st d P i sym n N s cells dir prev x y sdl hs hd hlenst hdk hzero hsym hnt hlen
    hdir hprev hpd hps hbox
  have hs2 : s = 2 * 2 ^ k := by rw [hs, pow_succ]; ring
  subst hs2
  have hdeep : (d : Int) < n - 1 := by omega
  have hd1 : d + 1 < st.length := by omega
  have hd1' : d + 1 < (st.set d ⟨some P, i + 1⟩).length := by simpa using hd1
  have hlenst' : ((st.set d ⟨some P, i + 1⟩).length : Int) = n := by simpa using hlenst
  have hdk' : ((d + 1 : Nat) : Int) + k = n - 1 := by push_cast; omega
  have hzero' : ∀ j, d + 1 < j → j < (st.set d ⟨some P, i + 1⟩).length →
      (st.set d ⟨some P, i + 1⟩)[j]? = some ⟨none, 0⟩ := by
    intro j hj hjl
    rw [List.getElem?_set_ne (by omega)]
    exact hzero j (by omega) (by simpa using hjl)
  have hpop : (st.set d ⟨some P, i + 1⟩).set (d + 1) ⟨none, 0⟩ = st.set d ⟨some P, i + 1⟩ := by
    apply list_set_same
    rw [List.getElem?_set_ne (by omega)]
    exact hzero (d + 1) (by omega) hd1
  have e0 := HCExec.cont (HCExec.refl _)
    (body_recurse hd1 P i sym hsym hnt (N := N) hdeep cells dir prev x y sdl)
  rcases hnt with rfl | rfl
  · obtain ⟨cells', prev', ev, e1, hlen', hb, hp, hq1, hq2, ha, hw, hr⟩ :=
      runs_frame_A k ih (st.set d ⟨some P, i + 1⟩) (d + 1) n N (2 ^ k) cells dir prev x y
        (sdl ++ [SDLCall.debugRecurse d HC_SYM_SUB_A]) rfl hd1' hlenst' hdk' hzero' hlen
        hdir hprev hpd hps hbox
    have e2 := HCExec.cont (e0.trans e1)
      (body_return hd1' HC_ALGO_PROD_A 11 (by decide) _ _ _ _ _ _)
    refine ⟨cells', prev', [SDLCall.debugRecurse d HC_SYM_SUB_A] ++ ev
      ++ [SDLCall.debugNull ((d + 1 : Nat) : Int)], ?_, hlen', hb, hp, Or.inr ⟨hq1, hq2⟩,
      ?_, ?_, ?_⟩
    · refine HCExec.cast e2 (by omega) ?_
      rw [hpop]
      simp only [List.append_assoc]
    · simp only [actions_append, ha, actions_recurse, actions_null, List.append_nil,
        List.nil_append]
    · simp only [warnings_append, hw, warnings_recurse, warnings_null, List.append_nil]
    · simp only [renders_append, hr, renders_recurse, renders_null, List.append_nil,
        List.nil_append, List.length_append, List.length_nil]
  · obtain ⟨cells', prev', ev, e1, hlen', hb, hp, hq1, hq2, ha, hw, hr⟩ :=
      runs_frame_B k ih (st.set d ⟨some P, i + 1⟩) (d + 1) n N (2 ^ k) cells dir prev x y
        (sdl ++ [SDLCall.debugRecurse d HC_SYM_SUB_B]) rfl hd1' hlenst' hdk' hzero' hlen
        hdir hprev hpd hps hbox
    have e2 := HCExec.cont (e0.trans e1)
      (body_return hd1' HC_ALGO_PROD_B 11 (by decide) _ _ _ _ _ _)
    refine ⟨cells', prev', [SDLCall.debugRecurse d HC_SYM_SUB_B] ++ ev
      ++ [SDLCall.debugNull ((d + 1 : Nat) : Int)], ?_, hlen', hb, hp, Or.inr ⟨hq1, hq2⟩,
      ?_, ?_, ?_⟩
    · refine HCExec.cast e2 (by omega) ?_
      rw [hpop]
      simp only [List.append_assoc]
    · simp only [actions_append, ha, actions_recurse, actions_null, List.append_nil,
        List.nil_append]
    · simp only [warnings_append, hw, warnings_recurse, warnings_null, List.append_nil]
    · simp only [renders_append, hr, renders_recurse, renders_null, List.append_nil,
        List.nil_append, List.length_append, List.length_nil]

theorem runs_symbol : ∀ k, HCRunsSymbol k
  | 0 => runs_symbol_zero
  | k + 1 => runs_symbol_succ k (runs_symbol k)

/-! ## From passes of the loop body to calls of `HC_Algo_Advance` -/

/-- A pass that does not end the call leaves the grid and the cursor alone. -/
theorem body_cont_frame {c c' : HilbertAlgoContext_t}
    (h : HC_Algo_Advance_body c = some (c', true)) :
    c'.graph = c.graph ∧ c'.x = c.x ∧ c'.y = c.y ∧
      HC_forwards c'.sdl = HC_forwards c.sdl := by
  unfold HC_Algo_Advance_body at h
  dsimp only at h
  repeat' split at h
  all_goals
    simp only [Option.some.injEq, Prod.mk.injEq, reduceCtorEq, and_false, and_true,
      Bool.true_eq_false, Bool.false_eq_true] at h
  all_goals
    subst h
    refine ⟨rfl, rfl, rfl, ?_⟩
    simp [HC_forwards, HC_actions, List.filterMap_append, HC_SYM_LEFT, HC_SYM_RIGHT,
      HC_SYM_FORWARD]

/-- A pass that ends the call writes the classification of
`(prevDir, currDir)` into the cell under the cursor. -/
theorem body_stop_write {c c' : HilbertAlgoContext_t}
    (h : HC_Algo_Advance_body c = some (c', false)) :
    cells_write c.graph.cells (c.y * c.graph.sidelen + c.x)
        (HC_Get_Cell_By_Dirs c.prevDir c.currDir).1 = some c'.graph.cells ∧
      c'.graph.sidelen = c.graph.sidelen ∧ c'.graph.order = c.graph.order := by
  unfold HC_Algo_Advance_body at h
  dsimp only at h
  repeat' split at h
  all_goals
    simp only [Option.some.injEq, Prod.mk.injEq, reduceCtorEq, and_false, and_true,
      Bool.true_eq_false, Bool.false_eq_true] at h
  all_goals
    subst h
    exact ⟨by assumption, rfl, rfl⟩

theorem loop_mono {fuel : Nat} {c r : HilbertAlgoContext_t}
    (h : HC_Algo_Advance_loop fuel c = some r) :
    ∀ fuel', fuel ≤ fuel' → HC_Algo_Advance_loop fuel' c = some r := by
  induction fuel generalizing c with
  | zero => simp [HC_Algo_Advance_loop] at h
  | succ f ih =>
    intro fuel' hle
    obtain ⟨f', rfl⟩ : ∃ f', fuel' = f' + 1 := ⟨fuel' - 1, by omega⟩
    unfold HC_Algo_Advance_loop at h ⊢
    cases hb : HC_Algo_Advance_body c with
    | none => simp [hb] at h
    | some p =>
      obtain ⟨c1, b⟩ := p
      cases b with
      | true =>
        simp only [hb] at h ⊢
        exact ih h f' (by omega)
      | false =>
        simp only [hb] at h ⊢
        exact h

theorem advance_mono {fuel : Nat} {c : HilbertAlgoContext_t}
    {r : HilbertAlgoContext_t × Bool} (h : HC_Algo_Advance fuel c = some r) :
    ∀ fuel', fuel ≤ fuel' → HC_Algo_Advance fuel' c = some r := by
  intro fuel' hle
  unfold HC_Algo_Advance at h ⊢
  cases hn : HC_prod_is_null c with
  | none => simp [hn] at h
  | some b =>
    cases b with
    | true => simpa [hn] using h
    | false =>
      simp only [hn] at h ⊢
      cases hl : HC_Algo_Advance_loop fuel c with
      | none => simp [hl] at h
      | some c1 =>
        rw [loop_mono hl fuel' hle]
        simpa [hl] using h

theorem body_some_not_null {c : HilbertAlgoContext_t} {p : HilbertAlgoContext_t × Bool}
    (h : HC_Algo_Advance_body c = some p) : HC_prod_is_null c = some false := by
  unfold HC_Algo_Advance_body at h
  unfold HC_prod_is_null
  cases hf : HC_frame c with
  | none => simp [hf] at h
  | some st =>
    cases hp : st.prod with
    | none => simp [hf, hp] at h
    | some prod => simp [hp]

theorem loop_some_not_null {fuel : Nat} {c r : HilbertAlgoContext_t}
    (h : HC_Algo_Advance_loop fuel c = some r) : HC_prod_is_null c = some false := by
  cases fuel with
  | zero => simp [HC_Algo_Advance_loop] at h
  | succ f =>
    unfold HC_Algo_Advance_loop at h
    cases hb : HC_Algo_Advance_body c with
    | none => simp [hb] at h
    | some p => exact body_some_not_null hb

theorem loop_step_cont {fuel : Nat} {c c1 r : HilbertAlgoContext_t}
    (hb : HC_Algo_Advance_body c = some (c1, true))
    (h : HC_Algo_Advance_loop fuel c1 = some r) :
    HC_Algo_Advance_loop (fuel + 1) c = some r := by
  rw [HC_Algo_Advance_loop, hb]
  exact h

theorem loop_step_stop (fuel : Nat) {c c1 : HilbertAlgoContext_t}
    (hb : HC_Algo_Advance_body c = some (c1, false)) :
    HC_Algo_Advance_loop (fuel + 1) c = some c1 := by
  rw [HC_Algo_Advance_loop, hb]

theorem advance_of_loop {fuel : Nat} {c r : HilbertAlgoContext_t} {b : Bool}
    (h : HC_Algo_Advance_loop fuel c = some r) (hr : HC_prod_is_null r = some b) :
    HC_Algo_Advance fuel c = some (r, b) := by
  unfold HC_Algo_Advance
  rw [loop_some_not_null h]
  simp [h, hr]

theorem HCCalls.mono {fuel : Nat} {c s : HilbertAlgoContext_t} {m : Nat}
    (h : HCCalls fuel c m s) : ∀ fuel', fuel ≤ fuel' → HCCalls fuel' c m s := by
  intro fuel' hle
  induction h with
  | refl => exact HCCalls.refl _
  | call _ ha hg hw hf ih => exact HCCalls.call ih (advance_mono ha fuel' hle) hg hw hf

/-- Passes of the loop body regroup into calls: whatever call the engine
completes from the context reached by the passes, it completes from the context
left by the last of the `m` calls, which has the same grid and cursor. -/
theorem exec_calls {c c' : HilbertAlgoContext_t} {m : Nat} (h : HCExec c m c') :
    ∃ F, ∀ fuel c'', HC_Algo_Advance_loop fuel c' = some c'' →
      ∃ s, HCCalls (fuel + F) c m s ∧ HC_Algo_Advance_loop (fuel + F) s = some c'' ∧
        s.graph = c'.graph ∧ s.x = c'.x ∧ s.y = c'.y ∧
        HC_forwards s.sdl = HC_forwards c'.sdl := by
  induction h with
  | refl => exact ⟨0, fun fuel c'' hl => ⟨c, HCCalls.refl _, hl, rfl, rfl, rfl, rfl⟩⟩
  | cont _ hb ih =>
    obtain ⟨F, hF⟩ := ih
    refine ⟨F + 1, fun fuel c'' hl => ?_⟩
    obtain ⟨s, hs, hl', hg, hx, hy, hf⟩ := hF (fuel + 1) c'' (loop_step_cont hb hl)
    obtain ⟨fg, fx, fy, ff⟩ := body_cont_frame hb
    exact ⟨s, hs.mono _ (by omega), loop_mono hl' _ (by omega), hg.trans fg.symm,
      hx.trans fx.symm, hy.trans fy.symm, hf.trans ff.symm⟩
  | @stop c1 c2 m _ hb hg hw hf ih =>
    obtain ⟨F, hF⟩ := ih
    refine ⟨F + 1, fun fuel c'' hl => ?_⟩
    obtain ⟨s, hs, hl', sg, sx, sy, sf⟩ := hF 1 c2 (loop_step_stop 0 hb)
    refine ⟨c2, HCCalls.call (hs.mono _ (by omega)) ?_ hg ?_ ?_, loop_mono hl _ (by omega),
      rfl, rfl, rfl, rfl⟩
    · exact advance_of_loop (loop_mono hl' _ (by omega)) hg.1
    · unfold HCWrote at hw ⊢
      rw [sg, sx, sy]
      exact hw
    · unfold HCOneForward at hf ⊢
      rw [sf]
      exact hf

theorem calls_complete {fuel : Nat} {c s : HilbertAlgoContext_t} {m : Nat}
    (h : HCCalls fuel c m s) :
    ∀ calls r, HC_Algo_Complete_loop fuel calls s = some r →
      HC_Algo_Complete_loop fuel (calls + m) c = some r := by
  induction h with
  | refl => exact fun calls r hr => hr
  | @call c1 c2 m _ ha hg _ _ ih =>
    intro calls r hr
    have : HC_Algo_Complete_loop fuel (calls + 1) c1 = some r := by
      rw [HC_Algo_Complete_loop, ha]
      exact hr
    have := ih (calls + 1) r this
    rw [show calls + (m + 1) = calls + 1 + m by omega]
    exact this

theorem times_snoc {fuel : Nat} (m : Nat) {c s : HilbertAlgoContext_t}
    {r : HilbertAlgoContext_t × Bool}
    (h : HC_Algo_Advance_times fuel m c = some s) (ha : HC_Algo_Advance fuel s = some r) :
    HC_Algo_Advance_times fuel (m + 1) c = some r.1 := by
  induction m generalizing c with
  | zero =>
    simp only [HC_Algo_Advance_times] at h
    cases h
    simp [HC_Algo_Advance_times, ha]
  | succ k ih =>
    rw [HC_Algo_Advance_times] at h ⊢
    cases hc : HC_Algo_Advance fuel c with
    | none => simp [hc] at h
    | some p =>
      simp only [hc] at h ⊢
      exact ih h

theorem calls_times {fuel : Nat} {c s : HilbertAlgoContext_t} {m : Nat}
    (h : HCCalls fuel c m s) : HC_Algo_Advance_times fuel m c = some s := by
  induction h with
  | refl => rfl
  | call _ ha _ _ _ ih => exact times_snoc _ ih ha

theorem calls_good {fuel : Nat} {c s : HilbertAlgoContext_t} {m : Nat}
    (h : HCCalls fuel c m s) (hc : HCGood c) : HCGood s := by
  cases h with
  | refl => exact hc
  | call _ _ hg _ _ => exact hg

/-- Every call of a run starts on a blank cell, writes that cell, and leaves
the cursor on a blank cell. -/
theorem calls_each {fuel : Nat} {c s : HilbertAlgoContext_t} {m : Nat}
    (h : HCCalls fuel c m s) (hc : HCGood c) :
    ∀ j, j < m → ∃ sj sj', HC_Algo_Advance_times fuel j c = some sj ∧ HCGood sj ∧
      HC_Algo_Advance fuel sj = some (sj', false) ∧ HCGood sj' ∧ HCWrote sj sj' ∧
      HCOneForward sj sj' := by
  induction h with
  | refl => exact fun j hj => absurd hj (Nat.not_lt_zero j)
  | @call c1 c2 m h1 ha hg hw hf ih =>
    intro j hj
    by_cases hjm : j < m
    · exact ih j hjm
    · have : j = m := by omega
      subst this
      exact ⟨c1, c2, calls_times h1, calls_good h1 hc, ha, hg, hw, hf⟩

/-! ## The run from a fresh engine -/

theorem fresh_eq (n : Nat) (h1 : 1 ≤ n) (h15 : n ≤ 15) :
    HC_fresh (n : Int) = some (HCStart n) := by
  have h2 : ((2 ^ n : Nat) : Int) = 2 ^ n := by push_cast; rfl
  have h3 : (((2 : Int) ^ n) * 2 ^ n).toNat = 2 ^ n * 2 ^ n := by
    rw [← h2, ← Int.natCast_mul, Int.toNat_natCast]
  unfold HC_fresh HC_Graph_Create HC_Algo_Create HCStart
  rw [if_neg (by omega)]
  simp only [if_true, Int.toNat_natCast, Nat.one_shiftLeft, List.length_replicate, h2, h3]
  rw [if_pos (by omega)]
  rfl

theorem blank_replicate {N x y : Int} {len : Nat} (hlen : (len : Int) = N * N)
    (hx0 : 0 ≤ x) (hx : x < N) (hy0 : 0 ≤ y) (hy : y < N) :
    HCBlank (List.replicate len HC_CELL_NONE) N x y := by
  have hb := idx_bounds hx0 hx hy0 hy
  unfold HCBlank cells_read
  rw [if_neg (by omega)]
  have hlt : (y * N + x).toNat < len := by omega
  simp [List.getElem?_replicate, hlt]

theorem good_start (n : Nat) (h1 : 1 ≤ n) : HCGood (HCStart n) := by
  have hN : (1 : Int) ≤ 2 ^ n := one_le_pow₀ (by norm_num)
  refine good_intro (by simpa using h1) HC_ALGO_PROD_A 0 n (2 ^ n) _ _ _ (le_refl 0)
    (by omega) (by omega) (by omega) ?_ []
  exact blank_replicate (by push_cast; rfl) (le_refl 0) (by omega) (by omega) (by omega)

/-- The run of the engine of order `n` from `HCStart n`: `4 ^ n - 1` calls that
make one move each, and one more call that classifies the last cell. -/
theorem run_start (n : Nat) (h1 : 1 ≤ n) :
    ∃ (cells : List HilbertCell_t) (prev : HilbertDir_t) (sdl : List SDLCall)
      (s : HilbertAlgoContext_t) (F : Nat),
      HCCalls F (HCStart n) (HC_fcount n) s ∧ HCGood s ∧
      HC_Algo_Advance F s =
        some (⟨⟨(n : Int), 2 ^ n, cells⟩, HC_DIR_RIGHT, prev,
          (List.replicate n ⟨none, 0⟩).set 0 ⟨none, 12⟩, ((0 : Nat) : Int),
          2 ^ n - 1, 2 ^ n - 1, sdl⟩, true) ∧
      HCWrote s ⟨⟨(n : Int), 2 ^ n, cells⟩, HC_DIR_RIGHT, prev,
          (List.replicate n ⟨none, 0⟩).set 0 ⟨none, 12⟩, ((0 : Nat) : Int),
          2 ^ n - 1, 2 ^ n - 1, sdl⟩ ∧
      HC_forwards sdl = HC_forwards s.sdl ∧
      (cells.length : Int) = 2 ^ n * 2 ^ n ∧
      (∀ x y : Int, 0 ≤ x → x < 2 ^ n → 0 ≤ y → y < 2 ^ n → ¬HCBlank cells (2 ^ n) x y) ∧
      prev ≠ HC_NUM_DIRS ∧ prev ≠ HC_DIR_RIGHT ∧
      HC_actions sdl = HC_expand n HC_SYM_SUB_A ∧ HC_warnings sdl = [] ∧
      (HC_renders sdl).length = HC_fcount n := by
  obtain ⟨k, rfl⟩ : ∃ k, n = k + 1 := ⟨n - 1, by omega⟩
  have hN : (1 : Int) ≤ 2 ^ k := one_le_pow₀ (by norm_num)
  have hN2 : (2 : Int) ^ (k + 1) = 2 * 2 ^ k := by rw [pow_succ]; ring
  have hlen0 : ((List.replicate (2 ^ (k + 1) * 2 ^ (k + 1)) HC_CELL_NONE).length : Int)
      = 2 ^ (k + 1) * 2 ^ (k + 1) := by
    simp
  obtain ⟨cells1, prev1, ev1, e1, hlen1, hb1, hp1, hq1, _, ha1, hw1, hr1⟩ :=
    runs_frame_A k (runs_symbol k) (List.replicate (k + 1) ⟨none, 0⟩) 0 ((k + 1 : Nat) : Int)
      (2 ^ (k + 1)) (2 ^ k) (List.replicate (2 ^ (k + 1) * 2 ^ (k + 1)) HC_CELL_NONE)
      HC_DIR_RIGHT HC_DIR_DOWN 0 (2 ^ (k + 1) - 1) [] rfl (by simp) (by simp)
      (by push_cast; omega)
      (fun j _ hj => by
        rw [List.length_replicate] at hj
        simp [List.getElem?_replicate, hj])
      hlen0 (by decide) (by decide) (by decide) (by decide)
      (fun x' y' hin => by
        rw [inbox_A_right] at hin
        have g : 0 ≤ x' ∧ x' < 2 ^ (k + 1) ∧ 0 ≤ y' ∧ y' < 2 ^ (k + 1) := by omega
        exact ⟨g.1, g.2.1, g.2.2.1, g.2.2.2,
          blank_replicate (by push_cast; rfl) g.1 g.2.1 g.2.2.1 g.2.2.2⟩)
  have hxe : (0 : Int) + (2 * 2 ^ k - 1) * HCdx HC_DIR_RIGHT = 2 ^ (k + 1) - 1 := by
    simp only [HCdx]; omega
  have hye : (2 : Int) ^ (k + 1) - 1 + (2 * 2 ^ k - 1) * HCdy HC_DIR_RIGHT = 2 ^ (k + 1) - 1 := by
    simp only [HCdy]; omega
  rw [hxe, hye] at e1 hb1
  obtain ⟨cells2, ev2, hbody, hlen2, hb2, hwr2, ha2, hw2, hr2⟩ :=
    body_done (show 0 < (List.replicate (k + 1) (⟨none, 0⟩ : HilbertAlgoRecurse_t)).length by simp)
      HC_ALGO_PROD_A 11 (by decide)
      (n := ((k + 1 : Nat) : Int)) hlen1 (by decide) hp1 hq1
      (show (0 : Int) ≤ 2 ^ (k + 1) - 1 by omega) (show (2 : Int) ^ (k + 1) - 1 < 2 ^ (k + 1) by omega)
      (show (0 : Int) ≤ 2 ^ (k + 1) - 1 by omega) (show (2 : Int) ^ (k + 1) - 1 < 2 ^ (k + 1) by omega)
      ([] ++ ev1)
  obtain ⟨F, hF⟩ := exec_calls e1
  obtain ⟨s, hs, hl, sg, sx, sy, sf⟩ := hF 1 _ (loop_step_stop 0 hbody)
  refine ⟨cells2, prev1, [] ++ ev1 ++ ev2, s, 1 + F, hs,
    calls_good hs (good_start (k + 1) (by omega)), ?_, ?_, ?_, hlen2, ?_, hp1, hq1, ?_, ?_,
    ?_⟩
  · refine advance_of_loop hl ?_
    simp [HC_prod_is_null, HC_frame]
  · unfold HCWrote
    rw [sg, sx, sy]
    exact hwr2
  · rw [sf]
    simp [HC_forwards, actions_append, ha2]
  · intro x y hx0 hx hy0 hy hblank
    have h2 := (hb2 x y hx0 hx hy0 hy).1 hblank
    have h1' := (hb1 x y hx0 hx hy0 hy).1 h2.1
    apply h1'.2
    refine ⟨?_, h2.2⟩
    rw [inbox_A_right]
    omega
  · simp only [actions_append, ha1, ha2, List.append_nil, List.nil_append]
  · simp only [warnings_append, hw1, hw2, List.append_nil, List.nil_append]
  · simp only [renders_append, List.length_append, hr1, hr2, List.nil_append]
    rfl

/-! ## The complete run of a fresh engine -/

theorem fcount_succ (n : Nat) : HC_fcount n + 1 = 4 ^ n := by
  induction n with
  | zero => rfl
  | succ k ih => simp only [HC_fcount, pow_succ]; omega

theorem cells_all_filled {cells : List HilbertCell_t} {N : Int} (hN : 0 < N)
    (hlen : (cells.length : Int) = N * N)
    (h : ∀ x y : Int, 0 ≤ x → x < N → 0 ≤ y → y < N → ¬HCBlank cells N x y) :
    ∀ c ∈ cells, c ≠ HC_CELL_NONE := by
  intro c hc hnone
  obtain ⟨i, hi, hci⟩ := List.getElem_of_mem hc
  have hiN : (i : Int) < N * N := by omega
  have hq : (i : Int) / N < N := Int.ediv_lt_of_lt_mul hN hiN
  apply h ((i : Int) % N) ((i : Int) / N) (Int.emod_nonneg _ (by omega))
    (Int.emod_lt_of_pos _ hN) (Int.ediv_nonneg (by omega) (by omega)) hq
  unfold HCBlank cells_read
  have hsum : (i : Int) / N * N + (i : Int) % N = i := Int.ediv_add_emod' _ _
  rw [hsum, if_neg (by omega), Int.toNat_natCast, List.getElem?_eq_getElem hi, hci, hnone]

/-- The run of a fresh engine of order `n`, for every large enough fuel:
`HC_Algo_Complete` returns the context `HCFinal n cells prev sdl`, reached by
`4 ^ n - 1` calls that return `false` and one call that returns `true`. -/
theorem run_fresh (n : Nat) (h1 : 1 ≤ n) :
    ∃ (cells : List HilbertCell_t) (prev : HilbertDir_t) (sdl : List SDLCall) (F : Nat),
      ((cells.length : Int) = 2 ^ n * 2 ^ n ∧
        (∀ x y : Int, 0 ≤ x → x < 2 ^ n → 0 ≤ y → y < 2 ^ n → ¬HCBlank cells (2 ^ n) x y) ∧
        prev ≠ HC_NUM_DIRS ∧ prev ≠ HC_DIR_RIGHT ∧
        HC_actions sdl = HC_expand n HC_SYM_SUB_A ∧ HC_warnings sdl = [] ∧
        (HC_renders sdl).length = HC_fcount n) ∧
      ∀ fuel, F ≤ fuel →
        HC_Algo_Complete fuel (HCStart n) = some (HCFinal n cells prev sdl) ∧
        ∃ s, HCCalls fuel (HCStart n) (HC_fcount n) s ∧ HCGood s ∧
          HC_Algo_Advance fuel s = some (HCFinal n cells prev sdl, true) ∧
          HCWrote s (HCFinal n cells prev sdl) ∧ HC_forwards sdl = HC_forwards s.sdl := by
  obtain ⟨cells, prev, sdl, s, F, hs, hg, ha, hw, hf, hlen, hfill, hp, hq, hact, hwarn, hren⟩ :=
    run_start n h1
  refine ⟨cells, prev, sdl, F + HC_fcount n + 1, ⟨hlen, hfill, hp, hq, hact, hwarn, hren⟩,
    fun fuel hfuel => ?_⟩
  have ha' := advance_mono ha fuel (by omega)
  have hs' := hs.mono fuel (by omega)
  refine ⟨?_, s, hs', hg, ha', hw, hf⟩
  obtain ⟨k, hk⟩ : ∃ k, fuel = k + 1 + HC_fcount n := ⟨fuel - 1 - HC_fcount n, by omega⟩
  have hlast : HC_Algo_Complete_loop fuel (k + 1) s = some (HCFinal n cells prev sdl) := by
    rw [HC_Algo_Complete_loop, ha']
    rfl
  have := calls_complete hs' (k + 1) _ hlast
  unfold HC_Algo_Complete
  rw [← hk] at this
  exact this

/-- Call number `m + 1` of the run of a fresh engine, for `m < 4 ^ n`: it
starts on a blank cell, writes a shape other than `HC_CELL_NONE` into exactly
that cell, and returns `true` exactly when it is call number `4 ^ n`. -/
theorem run_fresh_call {n : Nat} (h1 : 1 ≤ n) {cells : List HilbertCell_t}
    {prev : HilbertDir_t} {sdl : List SDLCall} {fuel : Nat} {s : HilbertAlgoContext_t}
    (hs : HCCalls fuel (HCStart n) (HC_fcount n) s) (hg : HCGood s)
    (ha : HC_Algo_Advance fuel s = some (HCFinal n cells prev sdl, true))
    (hw : HCWrote s (HCFinal n cells prev sdl)) (hf : HC_forwards sdl = HC_forwards s.sdl)
    (m : Nat) (hm : m < 4 ^ n) :
    ∃ sm sm' b, HC_Algo_Advance_times fuel m (HCStart n) = some sm ∧
      HC_Algo_Advance fuel sm = some (sm', b) ∧ (b = true ↔ m + 1 = 4 ^ n) ∧
      HCGood sm ∧ HCWrote sm sm' ∧ (b = false → HCGood sm' ∧ HCOneForward sm sm') ∧
      (b = true → sm' = HCFinal n cells prev sdl ∧ HC_forwards sm'.sdl = HC_forwards sm.sdl) := by
  have hfc := fcount_succ n
  by_cases hlt : m < HC_fcount n
  · obtain ⟨sj, sj', ht, hgj, haj, hgj', hwj, hfj⟩ := calls_each hs (good_start n h1) m hlt
    exact ⟨sj, sj', false, ht, haj, by simp; omega, hgj, hwj, fun _ => ⟨hgj', hfj⟩,
      fun h => Bool.noConfusion h⟩
  · have hmeq : m = HC_fcount n := by omega
    subst hmeq
    exact ⟨s, _, true, calls_times hs, ha, by simp; omega, hg, hw,
      fun h => Bool.noConfusion h, fun _ => ⟨rfl, hf⟩⟩

theorem fresh_split {order : Int} {a : HilbertAlgoContext_t} (h : HC_fresh order = some a) :
    ∃ g, HC_Graph_Create order true true = some g ∧ HC_Algo_Create g true true = some a := by
  unfold HC_fresh at h
  cases hg : HC_Graph_Create order true true with
  | none => simp [hg] at h
  | some g => exact ⟨g, rfl, by simpa [hg] using h⟩

theorem expand_forwards (k : Nat) :
    (HC_expand k HC_SYM_SUB_A).count HC_SYM_FORWARD = HC_fcount k ∧
    (HC_expand k HC_SYM_SUB_B).count HC_SYM_FORWARD = HC_fcount k := by
  induction k with
  | zero => exact ⟨rfl, rfl⟩
  | succ k ih =>
    have h1 : [HC_SYM_LEFT].count HC_SYM_FORWARD = 0 := by decide
    have h2 : [HC_SYM_RIGHT].count HC_SYM_FORWARD = 0 := by decide
    have h3 : [HC_SYM_FORWARD].count HC_SYM_FORWARD = 1 := by decide
    rw [expand_succ_A, expand_succ_B]
    simp only [List.count_append, ih.1, ih.2, h1, h2, h3, HC_fcount]
    constructor <;> omega

theorem expand_text_zero (l : List Char) :
    l.filter (fun ch => ch != 'A' && ch != 'B') = HC_expand_text (HC_expand 0) l := by
  induction l with
  | nil => rfl
  | cons a t ih =>
    have hstep : HC_expand_text (HC_expand 0) (a :: t) =
        (if a = HC_SYM_SUB_A ∨ a = HC_SYM_SUB_B then [] else [a])
          ++ HC_expand_text (HC_expand 0) t := by
      simp [HC_expand_text, HC_expand]
    rw [hstep, ← ih]
    by_cases hA : a = 'A'
    · subst hA; simp [HC_SYM_SUB_A]
    · by_cases hB : a = 'B'
      · subst hB; simp [HC_SYM_SUB_B]
      · simp [HC_SYM_SUB_A, HC_SYM_SUB_B, hA, hB]

theorem expand_text_rewrite (k : Nat) (l : List Char) :
    HC_expand_text (HC_expand k) (spec_rewrite l) = HC_expand_text (HC_expand (k + 1)) l := by
  induction l with
  | nil => rfl
  | cons a t ih =>
    have hl : spec_rewrite (a :: t) = spec_rewrite [a] ++ spec_rewrite t := by
      simp [spec_rewrite]
    have happ : ∀ (f : Char → List Char) (u v : List Char),
        HC_expand_text f (u ++ v) = HC_expand_text f u ++ HC_expand_text f v := by
      intro f u v
      simp [HC_expand_text]
    have hcons : HC_expand_text (HC_expand (k + 1)) (a :: t) =
        HC_expand_text (HC_expand (k + 1)) [a] ++ HC_expand_text (HC_expand (k + 1)) t := by
      rw [← happ]; rfl
    rw [hl, happ, ih, hcons]
    congr 1
    by_cases hA : a = 'A'
    · subst hA
      simp [spec_rewrite, HC_expand_text, HC_expand, HC_Get_Prod_Str, HC_ALGO_PROD_A,
        HC_SYM_SUB_A, HC_SYM_SUB_B]
    · by_cases hB : a = 'B'
      · subst hB
        simp [spec_rewrite, HC_expand_text, HC_expand, HC_Get_Prod_Str, HC_ALGO_PROD_B,
          HC_SYM_SUB_A, HC_SYM_SUB_B]
      · simp [spec_rewrite, HC_expand_text, HC_SYM_SUB_A, HC_SYM_SUB_B, hA, hB]

theorem filter_iterate_rewrite (k : Nat) (l : List Char) :
    (spec_rewrite^[k] l).filter (fun ch => ch != 'A' && ch != 'B') =
      HC_expand_text (HC_expand k) l := by
  induction k generalizing l with
  | zero => exact expand_text_zero l
  | succ k ih => rw [Function.iterate_succ_apply, ih, expand_text_rewrite]

theorem spec_lsystem_eq (n : Nat) : spec_lsystem n = HC_expand n HC_SYM_SUB_A := by
  unfold spec_lsystem
  rw [filter_iterate_rewrite]
  simp [HC_expand_text, HC_SYM_SUB_A]

theorem advance_loop_of_good {fuel : Nat} {s : HilbertAlgoContext_t}
    {r : HilbertAlgoContext_t × Bool} (h : HC_Algo_Advance fuel s = some r) (hg : HCGood s) :
    HC_Algo_Advance_loop fuel s = some r.1 := by
  unfold HC_Algo_Advance at h
  rw [hg.1] at h
  cases hl : HC_Algo_Advance_loop fuel s with
  | none => simp [hl] at h
  | some c =>
    simp only [hl] at h
    cases hn : HC_prod_is_null c with
    | none => simp [hn] at h
    | some b =>
      simp only [hn, Option.some.injEq] at h
      rw [← h]

/-! ## The claims -/

/-- **C1.** For every order `n` with `1 ≤ n ≤ 15`, a grid made by
`HC_Graph_Create(n)` and an engine made by `HC_Algo_Create` on it exist, and
`HC_Algo_Complete` (with any large enough fuel) returns a context whose grid has
side `2 ^ n` and `4 ^ n` cells, none of which is `HC_CELL_NONE`. -/
theorem C1_complete_fills_every_cell (n : Nat) (h1 : 1 ≤ n) (h15 : n ≤ 15) :
    ∃ graph algo fin F,
      HC_Graph_Create (n : Int) true true = some graph ∧
      HC_Algo_Create graph true true = some algo ∧
      fin.graph.sidelen = 2 ^ n ∧ fin.graph.sidelen * fin.graph.sidelen = 4 ^ n ∧
      fin.graph.cells.length = 4 ^ n ∧
      (∀ c ∈ fin.graph.cells, c ≠ HC_CELL_NONE) ∧
      ∀ fuel, F ≤ fuel → HC_Algo_Complete fuel algo = some fin := by
  obtain ⟨cells, prev, sdl, F, ⟨hlen, hfill, -, -, -, -, -⟩, hrun⟩ := run_fresh n h1
  obtain ⟨graph, hg, ha⟩ := fresh_split (fresh_eq n h1 h15)
  have h4 : (2 : Int) ^ n * 2 ^ n = 4 ^ n := by rw [← mul_pow]; norm_num
  have hN : (0 : Int) < 2 ^ n := by positivity
  refine ⟨graph, HCStart n, HCFinal n cells prev sdl, F, hg, ha, rfl, h4, ?_,
    cells_all_filled hN hlen hfill, fun fuel hfuel => (hrun fuel hfuel).1⟩
  have : ((HCFinal n cells prev sdl).graph.cells.length : Int) = ((4 ^ n : Nat) : Int) := by
    push_cast
    rw [← h4]
    exact hlen
  exact_mod_cast this

theorem C1_complete_fills_every_cell_witness :
    ((1 : Nat) ≤ 1 ∧ (1 : Nat) ≤ 15) ∧
    (∃ graph algo fin F,
      HC_Graph_Create ((1 : Nat) : Int) true true = some graph ∧
      HC_Algo_Create graph true true = some algo ∧
      fin.graph.sidelen = 2 ^ 1 ∧ fin.graph.sidelen * fin.graph.sidelen = 4 ^ 1 ∧
      fin.graph.cells.length = 4 ^ 1 ∧
      (∀ c ∈ fin.graph.cells, c ≠ HC_CELL_NONE) ∧
      ∀ fuel, F ≤ fuel → HC_Algo_Complete fuel algo = some fin) :=
  ⟨⟨by decide, by decide⟩, C1_complete_fills_every_cell 1 (by decide) (by decide)⟩

/-- **C2.** For every order `n` with `1 ≤ n ≤ 15`, in the run of a fresh engine
to completion every one of the `4 ^ n` calls of `HC_Algo_Advance` starts with
`HC_CELL_NONE` in the cell under the cursor, writes a shape other than
`HC_CELL_NONE` into exactly that cell, and, when it is a `Forward` (the call
returns `false`), leaves the cursor on a cell that holds `HC_CELL_NONE`; no
`Non-blank cell` warning is logged in the whole run. -/
theorem C2_no_cell_classified_twice (n : Nat) (h1 : 1 ≤ n) (h15 : n ≤ 15) :
    ∃ algo fin F,
      HC_fresh (n : Int) = some algo ∧
      (∀ d x y, SDLCall.warnNonBlank d x y ∉ fin.sdl) ∧
      ∀ fuel, F ≤ fuel →
        HC_Algo_Complete fuel algo = some fin ∧
        ∀ m, m < 4 ^ n → ∃ s s' b v,
          HC_Algo_Advance_times fuel m algo = some s ∧
          HC_Algo_Advance fuel s = some (s', b) ∧
          (b = true ↔ m + 1 = 4 ^ n) ∧
          cells_read s.graph.cells (s.y * s.graph.sidelen + s.x) = some HC_CELL_NONE ∧
          v ≠ HC_CELL_NONE ∧
          cells_write s.graph.cells (s.y * s.graph.sidelen + s.x) v = some s'.graph.cells ∧
          (b = false →
            cells_read s'.graph.cells (s'.y * s'.graph.sidelen + s'.x) = some HC_CELL_NONE) := by
  obtain ⟨cells, prev, sdl, F, ⟨-, -, -, -, -, hwarn, -⟩, hrun⟩ := run_fresh n h1
  refine ⟨HCStart n, HCFinal n cells prev sdl, F, fresh_eq n h1 h15, ?_, fun fuel hfuel => ?_⟩
  · intro d x y hmem
    have : SDLCall.warnNonBlank d x y ∈ HC_warnings sdl := by
      unfold HC_warnings
      exact List.mem_filter.2 ⟨hmem, rfl⟩
    rw [hwarn] at this
    cases this
  · obtain ⟨hc, s, hs, hg, ha, hw, hf⟩ := hrun fuel hfuel
    refine ⟨hc, fun m hm => ?_⟩
    obtain ⟨sm, sm', b, ht, hadv, hb, hgm, ⟨v, hv, hwr⟩, hfalse, -⟩ :=
      run_fresh_call h1 hs hg ha hw hf m hm
    exact ⟨sm, sm', b, v, ht, hadv, hb, hgm.2.2.2.2.2, hv, hwr,
      fun hbf => (hfalse hbf).1.2.2.2.2.2⟩

theorem C2_no_cell_classified_twice_witness :
    ((1 : Nat) ≤ 1 ∧ (1 : Nat) ≤ 15) ∧
    (∃ algo fin F,
      HC_fresh ((1 : Nat) : Int) = some algo ∧
      (∀ d x y, SDLCall.warnNonBlank d x y ∉ fin.sdl) ∧
      ∀ fuel, F ≤ fuel →
        HC_Algo_Complete fuel algo = some fin ∧
        ∀ m, m < 4 ^ 1 → ∃ s s' b v,
          HC_Algo_Advance_times fuel m algo = some s ∧
          HC_Algo_Advance fuel s = some (s', b) ∧
          (b = true ↔ m + 1 = 4 ^ 1) ∧
          cells_read s.graph.cells (s.y * s.graph.sidelen + s.x) = some HC_CELL_NONE ∧
          v ≠ HC_CELL_NONE ∧
          cells_write s.graph.cells (s.y * s.graph.sidelen + s.x) v = some s'.graph.cells ∧
          (b = false →
            cells_read s'.graph.cells (s'.y * s'.graph.sidelen + s'.x) = some HC_CELL_NONE)) :=
  ⟨⟨by decide, by decide⟩, C2_no_cell_classified_twice 1 (by decide) (by decide)⟩

/-- **C3.** For every order `n` with `1 ≤ n ≤ 15`, the run of a fresh engine
consists of `4 ^ n - 1` calls of `HC_Algo_Advance` that return `false`, each
processing exactly one `Forward` and writing one cell, followed by one call
that returns `true`, processes no `Forward` and writes one cell; the run
processes `4 ^ n - 1 = sidelen ^ 2 - 1` `Forward` symbols in all, and
`HC_Algo_Complete` returns the context left by the last call. -/
theorem C3_forwards_then_final_classification (n : Nat) (h1 : 1 ≤ n) (h15 : n ≤ 15) :
    ∃ algo fin F,
      HC_fresh (n : Int) = some algo ∧
      fin.graph.sidelen * fin.graph.sidelen = 4 ^ n ∧
      HC_forwards fin.sdl = 4 ^ n - 1 ∧
      ∀ fuel, F ≤ fuel →
        HC_Algo_Complete fuel algo = some fin ∧
        (∀ m, m < 4 ^ n - 1 → ∃ s s' v,
          HC_Algo_Advance_times fuel m algo = some s ∧
          HC_Algo_Advance fuel s = some (s', false) ∧
          HC_forwards s'.sdl = HC_forwards s.sdl + 1 ∧
          v ≠ HC_CELL_NONE ∧
          cells_write s.graph.cells (s.y * s.graph.sidelen + s.x) v = some s'.graph.cells) ∧
        ∃ s v,
          HC_Algo_Advance_times fuel (4 ^ n - 1) algo = some s ∧
          HC_Algo_Advance fuel s = some (fin, true) ∧
          HC_forwards fin.sdl = HC_forwards s.sdl ∧
          v ≠ HC_CELL_NONE ∧
          cells_write s.graph.cells (s.y * s.graph.sidelen + s.x) v = some fin.graph.cells := by
  obtain ⟨cells, prev, sdl, F, ⟨-, -, -, -, hact, -, -⟩, hrun⟩ := run_fresh n h1
  have hfc := fcount_succ n
  have h4 : (2 : Int) ^ n * 2 ^ n = 4 ^ n := by rw [← mul_pow]; norm_num
  refine ⟨HCStart n, HCFinal n cells prev sdl, F, fresh_eq n h1 h15, h4, ?_,
    fun fuel hfuel => ?_⟩
  · show HC_forwards sdl = 4 ^ n - 1
    unfold HC_forwards
    rw [hact, (expand_forwards n).1]
    omega
  · obtain ⟨hc, s, hs, hg, ha, hw, hf⟩ := hrun fuel hfuel
    refine ⟨hc, fun m hm => ?_, ?_⟩
    · obtain ⟨sj, sj', ht, -, haj, -, ⟨v, hv, hwr⟩, hfj⟩ :=
        calls_each hs (good_start n h1) m (by omega)
      exact ⟨sj, sj', v, ht, haj, hfj, hv, hwr⟩
    · obtain ⟨v, hv, hwr⟩ := hw
      have ht := calls_times hs
      rw [show HC_fcount n = 4 ^ n - 1 by omega] at ht
      exact ⟨s, v, ht, ha, hf, hv, hwr⟩

theorem C3_forwards_then_final_classification_witness :
    ((1 : Nat) ≤ 1 ∧ (1 : Nat) ≤ 15) ∧
    (∃ algo fin F,
      HC_fresh ((1 : Nat) : Int) = some algo ∧
      fin.graph.sidelen * fin.graph.sidelen = 4 ^ 1 ∧
      HC_forwards fin.sdl = 4 ^ 1 - 1 ∧
      ∀ fuel, F ≤ fuel →
        HC_Algo_Complete fuel algo = some fin ∧
        (∀ m, m < 4 ^ 1 - 1 → ∃ s s' v,
          HC_Algo_Advance_times fuel m algo = some s ∧
          HC_Algo_Advance fuel s = some (s', false) ∧
          HC_forwards s'.sdl = HC_forwards s.sdl + 1 ∧
          v ≠ HC_CELL_NONE ∧
          cells_write s.graph.cells (s.y * s.graph.sidelen + s.x) v = some s'.graph.cells) ∧
        ∃ s v,
          HC_Algo_Advance_times fuel (4 ^ 1 - 1) algo = some s ∧
          HC_Algo_Advance fuel s = some (fin, true) ∧
          HC_forwards fin.sdl = HC_forwards s.sdl ∧
          v ≠ HC_CELL_NONE ∧
          cells_write s.graph.cells (s.y * s.graph.sidelen + s.x) v = some fin.graph.cells) :=
  ⟨⟨by decide, by decide⟩, C3_forwards_then_final_classification 1 (by decide) (by decide)⟩

/-- **C4.** For every order `n` with `1 ≤ n ≤ 15`, `HC_Algo_Complete` on a
fresh engine returns for every large enough fuel: the loop inside each of the
`4 ^ n` calls of `HC_Algo_Advance` ends, and call number `4 ^ n` returns
`true`. -/
theorem C4_complete_terminates (n : Nat) (h1 : 1 ≤ n) (h15 : n ≤ 15) :
    ∃ algo F,
      HC_fresh (n : Int) = some algo ∧
      ∀ fuel, F ≤ fuel →
        (∃ fin, HC_Algo_Complete fuel algo = some fin) ∧
        (∀ m, m < 4 ^ n → ∃ s r,
          HC_Algo_Advance_times fuel m algo = some s ∧
          HC_Algo_Advance_loop fuel s = some r) ∧
        ∃ s fin,
          HC_Algo_Advance_times fuel (4 ^ n - 1) algo = some s ∧
          HC_Algo_Advance fuel s = some (fin, true) := by
  obtain ⟨cells, prev, sdl, F, -, hrun⟩ := run_fresh n h1
  have hfc := fcount_succ n
  refine ⟨HCStart n, F, fresh_eq n h1 h15, fun fuel hfuel => ?_⟩
  obtain ⟨hc, s, hs, hg, ha, hw, hf⟩ := hrun fuel hfuel
  refine ⟨⟨_, hc⟩, fun m hm => ?_, ?_⟩
  · obtain ⟨sm, sm', b, ht, hadv, -, hgm, -, -, -⟩ := run_fresh_call h1 hs hg ha hw hf m hm
    exact ⟨sm, sm', ht, advance_loop_of_good hadv hgm⟩
  · have ht := calls_times hs
    rw [show HC_fcount n = 4 ^ n - 1 by omega] at ht
    exact ⟨s, _, ht, ha⟩

theorem C4_complete_terminates_witness :
    ((1 : Nat) ≤ 1 ∧ (1 : Nat) ≤ 15) ∧
    (∃ algo F,
      HC_fresh ((1 : Nat) : Int) = some algo ∧
      ∀ fuel, F ≤ fuel →
        (∃ fin, HC_Algo_Complete fuel algo = some fin) ∧
        (∀ m, m < 4 ^ 1 → ∃ s r,
          HC_Algo_Advance_times fuel m algo = some s ∧
          HC_Algo_Advance_loop fuel s = some r) ∧
        ∃ s fin,
          HC_Algo_Advance_times fuel (4 ^ 1 - 1) algo = some s ∧
          HC_Algo_Advance fuel s = some (fin, true)) :=
  ⟨⟨by decide, by decide⟩, C4_complete_terminates 1 (by decide) (by decide)⟩

/-- **C5.** For order `1` a fresh engine starts with cursor `(0, 1)`,
`prevDir = Down`, `currDir = Right` on a grid of side `2`; the first call writes
Vertical at `(0, 1)` and moves to `(0, 0)`, the second writes DownRight at
`(0, 0)` and moves to `(1, 0)`, the third writes DownLeft at `(1, 0)` and moves
to `(1, 1)`, all three returning `false`; the fourth writes UpRight at `(1, 1)`
and returns `true`.  `HC_Algo_Complete` leaves the grid
`(0,0) = DownRight, (1,0) = DownLeft, (0,1) = Vertical, (1,1) = UpRight`
(cell `(x, y)` is `cells[y * 2 + x]`). -/
theorem C5_order_one_scenario :
    (HC_fresh 1).map (fun a => (a.x, a.y, a.prevDir, a.currDir))
      = some (0, 1, HC_DIR_DOWN, HC_DIR_RIGHT) ∧
    (HC_fresh 1).map (fun a => (a.graph.sidelen, a.graph.cells))
      = some (2, [HC_CELL_NONE, HC_CELL_NONE, HC_CELL_NONE, HC_CELL_NONE]) ∧
    ((HC_fresh 1).bind (HC_Algo_Advance_times 8 1)).map (fun a => (a.graph.cells, a.x, a.y))
      = some ([HC_CELL_NONE, HC_CELL_NONE, HC_CELL_VERT, HC_CELL_NONE], 0, 0) ∧
    ((HC_fresh 1).bind (HC_Algo_Advance_times 8 2)).map (fun a => (a.graph.cells, a.x, a.y))
      = some ([HC_CELL_D_R, HC_CELL_NONE, HC_CELL_VERT, HC_CELL_NONE], 1, 0) ∧
    ((HC_fresh 1).bind (HC_Algo_Advance_times 8 3)).map (fun a => (a.graph.cells, a.x, a.y))
      = some ([HC_CELL_D_R, HC_CELL_D_L, HC_CELL_VERT, HC_CELL_NONE], 1, 1) ∧
    ((HC_fresh 1).bind (HC_Algo_Advance_times 8 4)).map (fun a => (a.graph.cells, a.x, a.y))
      = some ([HC_CELL_D_R, HC_CELL_D_L, HC_CELL_VERT, HC_CELL_U_R], 1, 1) ∧
    (((HC_fresh 1).bind (HC_Algo_Advance_times 8 0)).bind (HC_Algo_Advance 8)).map Prod.snd
      = some false ∧
    (((HC_fresh 1).bind (HC_Algo_Advance_times 8 1)).bind (HC_Algo_Advance 8)).map Prod.snd
      = some false ∧
    (((HC_fresh 1).bind (HC_Algo_Advance_times 8 2)).bind (HC_Algo_Advance 8)).map Prod.snd
      = some false ∧
    (((HC_fresh 1).bind (HC_Algo_Advance_times 8 3)).bind (HC_Algo_Advance 8)).map Prod.snd
      = some true ∧
    (HC_fresh 1).bind (HC_Algo_Complete 8) = (HC_fresh 1).bind (HC_Algo_Advance_times 8 4) ∧
    ((HC_fresh 1).bind (HC_Algo_Complete 8)).map
        (fun a => (cells_read a.graph.cells (0 * 2 + 0), cells_read a.graph.cells (0 * 2 + 1),
          cells_read a.graph.cells (1 * 2 + 0), cells_read a.graph.cells (1 * 2 + 1)))
      = some (some HC_CELL_D_R, some HC_CELL_D_L, some HC_CELL_VERT, some HC_CELL_U_R) := by
  refine ⟨?_, ?_, ?_, ?_, ?_, ?_, ?_, ?_, ?_, ?_, ?_, ?_⟩ <;> decide

/-- **C6.** For every order `n` with `1 ≤ n ≤ 15`, the sequence of `LEFT`,
`RIGHT` and `FORWARD` actions that the engine performs over a complete run
from a fresh engine is the string of the specification: `A` rewritten exactly
`n` times with the two productions, the remaining `A` and `B` deleted. -/
theorem C6_actions_are_the_lsystem_string (n : Nat) (h1 : 1 ≤ n) (h15 : n ≤ 15) :
    ∃ algo fin F,
      HC_fresh (n : Int) = some algo ∧
      HC_actions fin.sdl = spec_lsystem n ∧
      ∀ fuel, F ≤ fuel → HC_Algo_Complete fuel algo = some fin := by
  obtain ⟨cells, prev, sdl, F, ⟨-, -, -, -, hact, -, -⟩, hrun⟩ := run_fresh n h1
  exact ⟨HCStart n, HCFinal n cells prev sdl, F, fresh_eq n h1 h15,
    hact.trans (spec_lsystem_eq n).symm, fun fuel hfuel => (hrun fuel hfuel).1⟩

theorem C6_actions_are_the_lsystem_string_witness :
    ((1 : Nat) ≤ 1 ∧ (1 : Nat) ≤ 15) ∧
    (∃ algo fin F,
      HC_fresh ((1 : Nat) : Int) = some algo ∧
      HC_actions fin.sdl = spec_lsystem 1 ∧
      ∀ fuel, F ≤ fuel → HC_Algo_Complete fuel algo = some fin) :=
  ⟨⟨by decide, by decide⟩, C6_actions_are_the_lsystem_string 1 (by decide) (by decide)⟩

/-- **C7.** `HC_Graph_Create(order)` returns no grid for every order outside
`[1, 15]`, and none when an allocation fails; for every order in `[1, 15]`
with both allocations succeeding it returns a grid whose `order` is the
argument, whose `sidelen` is `2 ^ order`, and whose `sidelen * sidelen` cells
are all `HC_CELL_NONE`. -/
theorem C7_graph_create (order : Int) (mallocOk callocOk : Bool) :
    ((order < 1 ∨ 15 < order) → HC_Graph_Create order mallocOk callocOk = none) ∧
    ((mallocOk = false ∨ callocOk = false) → HC_Graph_Create order mallocOk callocOk = none) ∧
    (1 ≤ order → order ≤ 15 → mallocOk = true → callocOk = true →
      ∃ g, HC_Graph_Create order mallocOk callocOk = some g ∧
        g.order = order ∧ g.sidelen = 2 ^ order.toNat ∧
        (g.cells.length : Int) = g.sidelen * g.sidelen ∧
        ∀ c ∈ g.cells, c = HC_CELL_NONE) := by
  refine ⟨fun h => ?_, fun h => ?_, fun h1 h15 hm hc => ?_⟩
  · unfold HC_Graph_Create
    rw [if_pos (by omega)]
  · unfold HC_Graph_Create
    rcases h with h | h <;> subst h <;> split <;> simp
  · subst hm hc
    have h2 : ((1 <<< order.toNat : Nat) : Int) = 2 ^ order.toNat := by
      rw [Nat.one_shiftLeft]; push_cast; rfl
    refine ⟨⟨order, 2 ^ order.toNat,
      List.replicate ((2 : Int) ^ order.toNat * 2 ^ order.toNat).toNat HC_CELL_NONE⟩,
      ?_, rfl, rfl, ?_, ?_⟩
    · unfold HC_Graph_Create
      rw [if_neg (by omega)]
      simp only [if_true, h2]
    · have hpos : (0 : Int) ≤ 2 ^ order.toNat * 2 ^ order.toNat := by positivity
      simp only [List.length_replicate]
      exact Int.toNat_of_nonneg hpos
    · intro c hc
      exact (List.mem_replicate.1 hc).2

theorem C7_graph_create_witness :
    HC_Graph_Create 0 true true = none ∧ HC_Graph_Create 16 true true = none ∧
    (∃ g, HC_Graph_Create 1 true true = some g ∧
        g.order = 1 ∧ g.sidelen = 2 ^ (1 : Int).toNat ∧
        (g.cells.length : Int) = g.sidelen * g.sidelen ∧
        ∀ c ∈ g.cells, c = HC_CELL_NONE) ∧
    (∃ g, HC_Graph_Create 15 true true = some g ∧
        g.order = 15 ∧ g.sidelen = 2 ^ (15 : Int).toNat ∧
        (g.cells.length : Int) = g.sidelen * g.sidelen ∧
        ∀ c ∈ g.cells, c = HC_CELL_NONE) :=
  ⟨(C7_graph_create 0 true true).1 (Or.inl (by decide)),
    (C7_graph_create 16 true true).1 (Or.inr (by decide)),
    (C7_graph_create 1 true true).2.2 (by decide) (by decide) rfl rfl,
    (C7_graph_create 15 true true).2.2 (by decide) (by decide) rfl rfl⟩

/-- **C8.** For every direction `d`, `HC_Get_Cell_By_Dirs(d, d)` logs the
warning and yields `HC_CELL_NONE`; for directions among Right, Down, Left, Up
the result is `HC_CELL_NONE` exactly when `from = to`, and the warning is
logged exactly then. -/
theorem C8_classify_none_iff_equal :
    (∀ d : HilbertDir_t,
      HC_Get_Cell_By_Dirs d d = (HC_CELL_NONE, [SDLCall.warnCombination d d])) ∧
    (∀ a b : HilbertDir_t, a = HC_NUM_DIRS ∨ b = HC_NUM_DIRS ∨
      (((HC_Get_Cell_By_Dirs a b).1 = HC_CELL_NONE ↔ a = b) ∧
       ((HC_Get_Cell_By_Dirs a b).2 ≠ [] ↔ a = b))) := by
  constructor <;> decide

/-- **C9.** Classifying a direction against its opposite gives Vertical for
Up and Down and Horizontal for Left and Right, in either order; each of the
eight remaining pairs of differing directions gives the corner named by its two
directions. -/
theorem C9_classify_table :
    (HC_Get_Cell_By_Dirs HC_DIR_UP HC_DIR_DOWN).1 = HC_CELL_VERT ∧
    (HC_Get_Cell_By_Dirs HC_DIR_DOWN HC_DIR_UP).1 = HC_CELL_VERT ∧
    (HC_Get_Cell_By_Dirs HC_DIR_LEFT HC_DIR_RIGHT).1 = HC_CELL_HORZ ∧
    (HC_Get_Cell_By_Dirs HC_DIR_RIGHT HC_DIR_LEFT).1 = HC_CELL_HORZ ∧
    (HC_Get_Cell_By_Dirs HC_DIR_UP HC_DIR_RIGHT).1 = HC_CELL_U_R ∧
    (HC_Get_Cell_By_Dirs HC_DIR_RIGHT HC_DIR_UP).1 = HC_CELL_U_R ∧
    (HC_Get_Cell_By_Dirs HC_DIR_DOWN HC_DIR_RIGHT).1 = HC_CELL_D_R ∧
    (HC_Get_Cell_By_Dirs HC_DIR_RIGHT HC_DIR_DOWN).1 = HC_CELL_D_R ∧
    (HC_Get_Cell_By_Dirs HC_DIR_DOWN HC_DIR_LEFT).1 = HC_CELL_D_L ∧
    (HC_Get_Cell_By_Dirs HC_DIR_LEFT HC_DIR_DOWN).1 = HC_CELL_D_L ∧
    (HC_Get_Cell_By_Dirs HC_DIR_UP HC_DIR_LEFT).1 = HC_CELL_U_L ∧
    (HC_Get_Cell_By_Dirs HC_DIR_LEFT HC_DIR_UP).1 = HC_CELL_U_L ∧
    (∀ d : HilbertDir_t, d = HC_NUM_DIRS ∨
      (HC_Get_Cell_By_Dirs d (HC_cache_prev d d).1).1 =
        (if d = HC_DIR_UP ∨ d = HC_DIR_DOWN then HC_CELL_VERT else HC_CELL_HORZ)) := by
  refine ⟨?_, ?_, ?_, ?_, ?_, ?_, ?_, ?_, ?_, ?_, ?_, ?_, ?_⟩ <;> decide

/-- **C10.** Once a call of `HC_Algo_Advance` has returned `true`, every later
call on the context it left returns `true` and leaves that context (cursor,
directions, stack, stack index, every grid cell, and the SDL calls made)
unchanged, whatever the fuel and however many calls follow. -/
theorem C10_done_is_idempotent (fuel : Nat) (algo algo' : HilbertAlgoContext_t)
    (h : HC_Algo_Advance fuel algo = some (algo', true)) :
    ∀ fuel' : Nat, HC_Algo_Advance fuel' algo' = some (algo', true) ∧
      ∀ k : Nat, HC_Algo_Advance_times fuel' k algo' = some algo' := by
  have hnull : HC_prod_is_null algo' = some true := by
    unfold HC_Algo_Advance at h
    cases hn : HC_prod_is_null algo with
    | none => simp [hn] at h
    | some b =>
      cases b with
      | true =>
        simp only [hn, Option.some.injEq, Prod.mk.injEq, and_true] at h
        rw [← h]; exact hn
      | false =>
        simp only [hn] at h
        cases hl : HC_Algo_Advance_loop fuel algo with
        | none => simp [hl] at h
        | some c =>
          simp only [hl] at h
          cases hc : HC_prod_is_null c with
          | none => simp [hc] at h
          | some r =>
            simp only [hc, Option.some.injEq, Prod.mk.injEq] at h
            rw [← h.1, hc, h.2]
  intro fuel'
  have hstep : HC_Algo_Advance fuel' algo' = some (algo', true) := by
    unfold HC_Algo_Advance
    rw [hnull]
  refine ⟨hstep, fun k => ?_⟩
  induction k with
  | zero => rfl
  | succ k ih =>
    rw [HC_Algo_Advance_times, hstep]
    exact ih

theorem C10_done_is_idempotent_witness :
    HC_Algo_Advance 4 (⟨⟨1, 2, [HC_CELL_D_R, HC_CELL_D_L, HC_CELL_VERT, HC_CELL_NONE]⟩, HC_DIR_RIGHT,
          HC_DIR_UP, [⟨some HC_ALGO_PROD_A, 11⟩], 0, 1, 1, []⟩ : HilbertAlgoContext_t) = some ((⟨⟨1, 2, [HC_CELL_D_R, HC_CELL_D_L, HC_CELL_VERT, HC_CELL_U_R]⟩, HC_DIR_RIGHT,
          HC_DIR_UP, [⟨none, 12⟩], 0, 1, 1,
          [SDLCall.debugNull 0, SDLCall.debugDone 0]⟩ : HilbertAlgoContext_t), true) ∧
    ∀ fuel' : Nat,
      HC_Algo_Advance fuel' (⟨⟨1, 2, [HC_CELL_D_R, HC_CELL_D_L, HC_CELL_VERT, HC_CELL_U_R]⟩, HC_DIR_RIGHT,
          HC_DIR_UP, [⟨none, 12⟩], 0, 1, 1,
          [SDLCall.debugNull 0, SDLCall.debugDone 0]⟩ : HilbertAlgoContext_t) = some ((⟨⟨1, 2, [HC_CELL_D_R, HC_CELL_D_L, HC_CELL_VERT, HC_CELL_U_R]⟩, HC_DIR_RIGHT,
          HC_DIR_UP, [⟨none, 12⟩], 0, 1, 1,
          [SDLCall.debugNull 0, SDLCall.debugDone 0]⟩ : HilbertAlgoContext_t), true) ∧
      ∀ k : Nat, HC_Algo_Advance_times fuel' k (⟨⟨1, 2, [HC_CELL_D_R, HC_CELL_D_L, HC_CELL_VERT, HC_CELL_U_R]⟩, HC_DIR_RIGHT,
          HC_DIR_UP, [⟨none, 12⟩], 0, 1, 1,
          [SDLCall.debugNull 0, SDLCall.debugDone 0]⟩ : HilbertAlgoContext_t) = some (⟨⟨1, 2, [HC_CELL_D_R, HC_CELL_D_L, HC_CELL_VERT, HC_CELL_U_R]⟩, HC_DIR_RIGHT,
          HC_DIR_UP, [⟨none, 12⟩], 0, 1, 1,
          [SDLCall.debugNull 0, SDLCall.debugDone 0]⟩ : HilbertAlgoContext_t) :=
  ⟨by decide, C10_done_is_idempotent 4 (⟨⟨1, 2, [HC_CELL_D_R, HC_CELL_D_L, HC_CELL_VERT, HC_CELL_NONE]⟩, HC_DIR_RIGHT,
          HC_DIR_UP, [⟨some HC_ALGO_PROD_A, 11⟩], 0, 1, 1, []⟩ : HilbertAlgoContext_t) (⟨⟨1, 2, [HC_CELL_D_R, HC_CELL_D_L, HC_CELL_VERT, HC_CELL_U_R]⟩, HC_DIR_RIGHT,
          HC_DIR_UP, [⟨none, 12⟩], 0, 1, 1,
          [SDLCall.debugNull 0, SDLCall.debugDone 0]⟩ : HilbertAlgoContext_t) (by decide)⟩

/-! ## Single calls and reachable contexts in general -/

/-! ## Facts about single passes, for arbitrary contexts -/

theorem renders_classify (a b : HilbertDir_t) : HC_renders (HC_Get_Cell_By_Dirs a b).2 = [] := by
  cases a <;> cases b <;> rfl

theorem renders_move (d : Int) (dir : HilbertDir_t) (x y : Int) :
    HC_renders (HC_move_cursor d dir x y).2.2 = [] := by
  cases dir <;> rfl

theorem renders_cache (dir prev : HilbertDir_t) : HC_renders (HC_cache_prev dir prev).2 = [] := by
  cases dir <;> rfl

theorem body_cont_keep {c c' : HilbertAlgoContext_t}
    (h : HC_Algo_Advance_body c = some (c', true)) :
    c'.prevDir = c.prevDir ∧ HC_renders c'.sdl = HC_renders c.sdl ∧
      (c.currDir ≠ HC_NUM_DIRS → c'.currDir ≠ HC_NUM_DIRS) := by
  unfold HC_Algo_Advance_body at h
  dsimp only at h
  repeat' split at h
  all_goals
    simp only [Option.some.injEq, Prod.mk.injEq, reduceCtorEq, and_false, and_true,
      Bool.true_eq_false, Bool.false_eq_true] at h
  all_goals
    subst h
    refine ⟨rfl, ?_, ?_⟩
    · simp [HC_renders, List.filter_append]
    · first
        | exact fun _ => turn_left_ne _
        | exact fun _ => turn_right_ne _
        | exact fun hh => hh

theorem body_stack {c c' : HilbertAlgoContext_t} {b : Bool}
    (h : HC_Algo_Advance_body c = some (c', b)) (hs : HCStackOk c) : HCStackOk c' := by
  obtain ⟨h0, h1, h2⟩ := hs
  unfold HC_Algo_Advance_body at h
  dsimp only at h
  repeat' split at h
  all_goals
    simp only [Option.some.injEq, Prod.mk.injEq, reduceCtorEq, and_false, and_true,
      Bool.true_eq_false, Bool.false_eq_true] at h
  all_goals
    obtain ⟨h, -⟩ := h
    subst h
    unfold HCStackOk
    simp only [List.length_set]
    omega

theorem forwards_classify (a b : HilbertDir_t) :
    HC_actions (HC_Get_Cell_By_Dirs a b).2 = [] := by
  cases a <;> cases b <;> rfl

theorem forwards_move (d : Int) (dir : HilbertDir_t) (x y : Int) :
    HC_actions (HC_move_cursor d dir x y).2.2 = [] := by
  cases dir <;> rfl

theorem forwards_cache (dir prev : HilbertDir_t) :
    HC_actions (HC_cache_prev dir prev).2 = [] := by
  cases dir <;> rfl

theorem frame_set_get {st : List HilbertAlgoRecurse_t} {i : Int} {f g : HilbertAlgoRecurse_t}
    (h : (if i < 0 then none else st[i.toNat]?) = some f) :
    (if i < 0 then none else (st.set i.toNat g)[i.toNat]?) = some g := by
  split at h
  · cases h
  · rename_i hi
    rw [if_neg hi]
    have hlt : i.toNat < st.length := by
      by_contra hc
      rw [List.getElem?_eq_none (by omega)] at h
      cases h
    simp [List.getElem?_set, hlt]

/-- The pass that ends a call: either a `Forward` (the frame keeps its
production, one `SDL_RenderCopy` is made, the cursor and `prevDir` are updated
by the two switches), or the end of the run (the frame's production becomes
`NULL`, no `SDL_RenderCopy` is made, cursor and `prevDir` stay). -/
theorem body_stop_cases {c c' : HilbertAlgoContext_t}
    (h : HC_Algo_Advance_body c = some (c', false)) :
    c'.currDir = c.currDir ∧
    ((HC_prod_is_null c' = some false ∧
        (∃ prod i, HC_frame c = some ⟨some prod, i⟩ ∧ cstr_at prod i = some HC_SYM_FORWARD) ∧
        c'.x = (HC_move_cursor c.state_index c.currDir c.x c.y).1 ∧
        c'.y = (HC_move_cursor c.state_index c.currDir c.x c.y).2.1 ∧
        c'.prevDir = (HC_cache_prev c.currDir c.prevDir).1 ∧
        (HC_renders c'.sdl).length = (HC_renders c.sdl).length + 1 ∧
        HC_forwards c'.sdl = HC_forwards c.sdl + 1) ∨
     (HC_prod_is_null c' = some true ∧
        (∃ prod i, HC_frame c = some ⟨some prod, i⟩ ∧ cstr_at prod i = some HC_SYM_NULL) ∧
        c'.x = c.x ∧ c'.y = c.y ∧ c'.prevDir = c.prevDir ∧
        HC_renders c'.sdl = HC_renders c.sdl ∧
        HC_forwards c'.sdl = HC_forwards c.sdl)) := by
  unfold HC_Algo_Advance_body at h
  cases hf : HC_frame c with
  | none => simp [hf] at h
  | some st =>
    obtain ⟨p, i⟩ := st
    cases p with
    | none => simp [hf] at h
    | some prod =>
      cases hs : cstr_at prod i with
      | none => simp [hf, hs] at h
      | some sym =>
        simp only [hf, hs] at h
        have hfr := hf
        unfold HC_frame at hfr
        split at h
        · split at h <;> [split at h; skip] <;> simp at h
        · split at h
          · rename_i hnull
            split at h
            · simp at h
            · split at h
              · simp at h
              · simp only [Option.some.injEq, Prod.mk.injEq, and_true] at h
                subst h
                refine ⟨rfl, Or.inr ⟨?_, ⟨prod, i, rfl, by rw [hs, hnull]⟩, rfl, rfl, rfl, ?_, ?_⟩⟩
                · unfold HC_prod_is_null HC_frame
                  dsimp only
                  rw [List.set_set]
                  rw [frame_set_get hfr]
                  rfl
                · show HC_renders (c.sdl ++ _ ++ _) = _
                  rw [renders_append, renders_append, renders_classify]
                  simp [HC_renders]
                · show HC_forwards (c.sdl ++ _ ++ _) = _
                  unfold HC_forwards
                  rw [actions_append, actions_append, forwards_classify]
                  simp [HC_actions]
          · split at h
            · simp at h
            · split at h
              · simp at h
              · split at h
                · rename_i hfw
                  split at h
                  · simp at h
                  · split at h
                    · simp at h
                    · simp only [Option.some.injEq, Prod.mk.injEq, and_true] at h
                      subst h
                      refine ⟨rfl, Or.inl ⟨?_, ⟨prod, i, rfl, by rw [hs, hfw]⟩, rfl, rfl, rfl, ?_, ?_⟩⟩
                      · unfold HC_prod_is_null HC_frame
                        dsimp only
                        rw [frame_set_get hfr]
                        rfl
                      · show (HC_renders (c.sdl ++ _ ++ _ ++ _ ++ _ ++ _ ++ _)).length = _
                        simp only [renders_append, renders_classify, renders_move, renders_cache]
                        split <;> simp [HC_renders]
                      · show HC_forwards (c.sdl ++ _ ++ _ ++ _ ++ _ ++ _ ++ _) = _
                        unfold HC_forwards
                        simp only [actions_append, forwards_classify, forwards_move, forwards_cache]
                        split <;> simp [HC_actions, HC_SYM_FORWARD]
                · simp at h

/-! ## Facts about whole calls, for arbitrary contexts -/

/-- A call whose loop ends went through passes that changed neither the grid,
the cursor, `prevDir` nor the rendering, down to one last pass that ended it. -/
theorem loop_decompose {fuel : Nat} {s r : HilbertAlgoContext_t}
    (h : HC_Algo_Advance_loop fuel s = some r) :
    ∃ c, HC_Algo_Advance_body c = some (r, false) ∧
      c.graph = s.graph ∧ c.x = s.x ∧ c.y = s.y ∧ c.prevDir = s.prevDir ∧
      HC_renders c.sdl = HC_renders s.sdl ∧ HC_forwards c.sdl = HC_forwards s.sdl ∧
      (s.currDir ≠ HC_NUM_DIRS → c.currDir ≠ HC_NUM_DIRS) ∧
      (HCStackOk s → HCStackOk c) := by
  induction fuel generalizing s with
  | zero => simp [HC_Algo_Advance_loop] at h
  | succ f ih =>
    unfold HC_Algo_Advance_loop at h
    cases hb : HC_Algo_Advance_body s with
    | none => simp [hb] at h
    | some p =>
      obtain ⟨c1, b⟩ := p
      cases b with
      | false =>
        simp only [hb, Option.some.injEq] at h
        subst h
        exact ⟨s, hb, rfl, rfl, rfl, rfl, rfl, rfl, fun hh => hh, fun hh => hh⟩
      | true =>
        simp only [hb] at h
        obtain ⟨c, hc, hg, hx, hy, hp, hr, hf, hd, hk⟩ := ih h
        obtain ⟨fg, fx, fy, ff⟩ := body_cont_frame hb
        obtain ⟨kp, kr, kd⟩ := body_cont_keep hb
        exact ⟨c, hc, hg.trans fg, hx.trans fx, hy.trans fy, hp.trans kp, hr.trans kr,
          hf.trans ff, fun hh => hd (kd hh), fun hh => hk (body_stack hb hh)⟩

/-- The two ways a call of `HC_Algo_Advance` returns: at once, on a finished engine, or
after its loop. -/
theorem advance_cases {fuel : Nat} {s r : HilbertAlgoContext_t} {b : Bool}
    (h : HC_Algo_Advance fuel s = some (r, b)) :
    (HC_prod_is_null s = some true ∧ r = s ∧ b = true) ∨
    (HC_prod_is_null s = some false ∧ HC_Algo_Advance_loop fuel s = some r ∧
      HC_prod_is_null r = some b) := by
  unfold HC_Algo_Advance at h
  cases hn : HC_prod_is_null s with
  | none => simp [hn] at h
  | some t =>
    cases t with
    | true =>
      simp only [hn, Option.some.injEq, Prod.mk.injEq] at h
      exact Or.inl ⟨rfl, h.1.symm, h.2.symm⟩
    | false =>
      simp only [hn] at h
      cases hl : HC_Algo_Advance_loop fuel s with
      | none => simp [hl] at h
      | some c =>
        simp only [hl] at h
        cases hc : HC_prod_is_null c with
        | none => simp [hc] at h
        | some t =>
          simp only [hc, Option.some.injEq, Prod.mk.injEq] at h
          obtain ⟨h1, h2⟩ := h
          subst h1 h2
          exact Or.inr ⟨rfl, rfl, hc⟩

theorem advance_stack {fuel : Nat} {s r : HilbertAlgoContext_t} {b : Bool}
    (h : HC_Algo_Advance fuel s = some (r, b)) (hs : HCStackOk s) : HCStackOk r := by
  rcases advance_cases h with ⟨-, rfl, -⟩ | ⟨-, hl, -⟩
  · exact hs
  · obtain ⟨c, hc, -, -, -, -, -, -, -, hk⟩ := loop_decompose hl
    exact body_stack hc (hk hs)

theorem times_stack {fuel : Nat} (m : Nat) {s r : HilbertAlgoContext_t}
    (h : HC_Algo_Advance_times fuel m s = some r) (hs : HCStackOk s) : HCStackOk r := by
  induction m generalizing s with
  | zero =>
    simp only [HC_Algo_Advance_times, Option.some.injEq] at h
    subst h
    exact hs
  | succ k ih =>
    rw [HC_Algo_Advance_times] at h
    cases ha : HC_Algo_Advance fuel s with
    | none => simp [ha] at h
    | some p =>
      obtain ⟨c1, b⟩ := p
      simp only [ha] at h
      exact ih h (advance_stack ha hs)

theorem times_mono {fuel : Nat} (m : Nat) {s r : HilbertAlgoContext_t}
    (h : HC_Algo_Advance_times fuel m s = some r) :
    ∀ fuel', fuel ≤ fuel' → HC_Algo_Advance_times fuel' m s = some r := by
  intro fuel' hle
  induction m generalizing s with
  | zero => exact h
  | succ k ih =>
    rw [HC_Algo_Advance_times] at h ⊢
    cases ha : HC_Algo_Advance fuel s with
    | none => simp [ha] at h
    | some p =>
      obtain ⟨c1, b⟩ := p
      simp only [ha] at h
      rw [advance_mono ha fuel' hle]
      exact ih h

theorem start_stack (n : Nat) (h1 : 1 ≤ n) : HCStackOk (HCStart n) := by
  unfold HCStackOk HCStart
  simp
  omega

theorem cells_write_spec {cells cells' : List HilbertCell_t} {idx : Int} {v : HilbertCell_t}
    (h : cells_write cells idx v = some cells') :
    0 ≤ idx ∧ idx.toNat < cells.length ∧ cells' = cells.set idx.toNat v := by
  unfold cells_write at h
  split at h
  · cases h
  · split at h
    · simp only [Option.some.injEq] at h
      exact ⟨by omega, by assumption, h.symm⟩
    · cases h

theorem cells_read_write_self {cells cells' : List HilbertCell_t} {idx : Int} {v : HilbertCell_t}
    (h : cells_write cells idx v = some cells') : cells_read cells' idx = some v := by
  obtain ⟨h0, hlt, rfl⟩ := cells_write_spec h
  unfold cells_read
  rw [if_neg (by omega)]
  simp [List.getElem?_set, hlt]

/-- No pass changes the order, the side or the number of cells of the grid. -/
theorem body_graph {c c' : HilbertAlgoContext_t} {b : Bool}
    (h : HC_Algo_Advance_body c = some (c', b)) :
    c'.graph.order = c.graph.order ∧ c'.graph.sidelen = c.graph.sidelen ∧
      c'.graph.cells.length = c.graph.cells.length := by
  cases b with
  | true =>
    obtain ⟨hg, -⟩ := body_cont_frame h
    rw [hg]
    exact ⟨rfl, rfl, rfl⟩
  | false =>
    obtain ⟨hw, hs, ho⟩ := body_stop_write h
    obtain ⟨-, -, hc⟩ := cells_write_spec hw
    rw [hc]
    exact ⟨ho, hs, by simp⟩

theorem advance_graph {fuel : Nat} {s r : HilbertAlgoContext_t} {b : Bool}
    (h : HC_Algo_Advance fuel s = some (r, b)) :
    r.graph.order = s.graph.order ∧ r.graph.sidelen = s.graph.sidelen ∧
      r.graph.cells.length = s.graph.cells.length := by
  rcases advance_cases h with ⟨-, rfl, -⟩ | ⟨-, hl, -⟩
  · exact ⟨rfl, rfl, rfl⟩
  · obtain ⟨c, hc, hg, -⟩ := loop_decompose hl
    have := body_graph hc
    rw [hg] at this
    exact this

theorem times_graph {fuel : Nat} (m : Nat) {s r : HilbertAlgoContext_t}
    (h : HC_Algo_Advance_times fuel m s = some r) :
    r.graph.order = s.graph.order ∧ r.graph.sidelen = s.graph.sidelen ∧
      r.graph.cells.length = s.graph.cells.length := by
  induction m generalizing s with
  | zero =>
    simp only [HC_Algo_Advance_times, Option.some.injEq] at h
    subst h
    exact ⟨rfl, rfl, rfl⟩
  | succ k ih =>
    rw [HC_Algo_Advance_times] at h
    cases ha : HC_Algo_Advance fuel s with
    | none => simp [ha] at h
    | some p =>
      obtain ⟨c1, b⟩ := p
      simp only [ha] at h
      obtain ⟨a1, a2, a3⟩ := advance_graph ha
      obtain ⟨b1, b2, b3⟩ := ih h
      exact ⟨b1.trans a1, b2.trans a2, b3.trans a3⟩

/-- On a finished engine every further call changes nothing. -/
theorem times_done {fuel : Nat} {s : HilbertAlgoContext_t} (h : HC_prod_is_null s = some true)
    (k : Nat) : HC_Algo_Advance_times fuel k s = some s := by
  have hstep : HC_Algo_Advance fuel s = some (s, true) := by
    unfold HC_Algo_Advance
    rw [h]
  induction k with
  | zero => rfl
  | succ k ih =>
    rw [HC_Algo_Advance_times, hstep]
    exact ih

theorem times_add {fuel : Nat} (a b : Nat) {s r : HilbertAlgoContext_t}
    (h : HC_Algo_Advance_times fuel a s = some r) :
    HC_Algo_Advance_times fuel (a + b) s = HC_Algo_Advance_times fuel b r := by
  induction a generalizing s with
  | zero =>
    simp only [HC_Algo_Advance_times, Option.some.injEq] at h
    subst h
    simp
  | succ k ih =>
    rw [HC_Algo_Advance_times] at h
    rw [show k + 1 + b = (k + b) + 1 by omega, HC_Algo_Advance_times]
    cases ha : HC_Algo_Advance fuel s with
    | none => simp [ha] at h
    | some p =>
      obtain ⟨c1, t⟩ := p
      simp only [ha] at h ⊢
      exact ih h

theorem final_null (n : Nat) (h1 : 1 ≤ n) (cells : List HilbertCell_t) (prev : HilbertDir_t)
    (sdl : List SDLCall) : HC_prod_is_null (HCFinal n cells prev sdl) = some true := by
  have : 0 < (List.replicate n (⟨none, 0⟩ : HilbertAlgoRecurse_t)).length := by simpa using h1
  unfold HC_prod_is_null HCFinal
  rw [frame_set_self this]
  rfl

theorem graph_create_eq (order : Int) (h1 : 1 ≤ order) (h15 : order ≤ 15) :
    HC_Graph_Create order true true = some ⟨order, 2 ^ order.toNat,
      List.replicate ((2 : Int) ^ order.toNat * 2 ^ order.toNat).toNat HC_CELL_NONE⟩ := by
  have h2 : ((1 <<< order.toNat : Nat) : Int) = 2 ^ order.toNat := by
    rw [Nat.one_shiftLeft]; push_cast; rfl
  unfold HC_Graph_Create
  rw [if_neg (by omega)]
  simp only [if_true, h2]

theorem move_cursor_eq (k : Int) {d : HilbertDir_t} (hd : d ≠ HC_NUM_DIRS) (x y : Int) :
    (HC_move_cursor k d x y).1 = x + HCdx d ∧ (HC_move_cursor k d x y).2.1 = y + HCdy d := by
  cases d with
  | HC_NUM_DIRS => exact absurd rfl hd
  | _ => simp [HC_move_cursor, HCdx, HCdy] <;> omega

theorem cache_prev_eq {d : HilbertDir_t} (hd : d ≠ HC_NUM_DIRS) (p : HilbertDir_t) :
    (HC_cache_prev d p).1 = HCopp d := by
  cases d with
  | HC_NUM_DIRS => exact absurd rfl hd
  | _ => rfl

theorem unit_step {d : HilbertDir_t} (hd : d ≠ HC_NUM_DIRS) : |HCdx d| + |HCdy d| = 1 := by
  cases d with
  | HC_NUM_DIRS => exact absurd rfl hd
  | _ => simp [HCdx, HCdy]

/-- A call that returns `false` ended with a `Forward`. -/
theorem advance_false_forward {fuel : Nat} {s r : HilbertAlgoContext_t}
    (h : HC_Algo_Advance fuel s = some (r, false)) :
    ∃ c prod i, HC_Algo_Advance_body c = some (r, false) ∧
      HC_frame c = some ⟨some prod, i⟩ ∧ cstr_at prod i = some HC_SYM_FORWARD ∧
      c.graph = s.graph ∧ c.x = s.x ∧ c.y = s.y ∧ c.prevDir = s.prevDir ∧
      (s.currDir ≠ HC_NUM_DIRS → c.currDir ≠ HC_NUM_DIRS) ∧
      r.currDir = c.currDir ∧
      r.x = (HC_move_cursor c.state_index c.currDir c.x c.y).1 ∧
      r.y = (HC_move_cursor c.state_index c.currDir c.x c.y).2.1 ∧
      r.prevDir = (HC_cache_prev c.currDir c.prevDir).1 ∧
      (HC_renders r.sdl).length = (HC_renders s.sdl).length + 1 := by
  rcases advance_cases h with ⟨-, -, hb⟩ | ⟨-, hl, hr⟩
  · cases hb
  · obtain ⟨c, hc, hg, hx, hy, hp, hrn, -, hd, -⟩ := loop_decompose hl
    obtain ⟨hcur, hcase⟩ := body_stop_cases hc
    rcases hcase with ⟨-, ⟨prod, i, hf, hs⟩, kx, ky, kp, kr, -⟩ | ⟨hn, -⟩
    · exact ⟨c, prod, i, hc, hf, hs, hg, hx, hy, hp, hd, hcur, kx, ky, kp, by rw [kr, hrn]⟩
    · rw [hr] at hn
      cases hn

/-- A call on an unfinished engine that returns `true` ended with the final
classification: it wrote the cell under the cursor, did not move, kept
`prevDir` and made no `SDL_RenderCopy`. -/
theorem advance_true_final {fuel : Nat} {s r : HilbertAlgoContext_t}
    (h : HC_Algo_Advance fuel s = some (r, true)) (hs : HC_prod_is_null s = some false) :
    r.x = s.x ∧ r.y = s.y ∧ r.prevDir = s.prevDir ∧
      cells_write s.graph.cells (s.y * s.graph.sidelen + s.x)
        (HC_Get_Cell_By_Dirs s.prevDir r.currDir).1 = some r.graph.cells ∧
      HC_renders r.sdl = HC_renders s.sdl := by
  rcases advance_cases h with ⟨hn, -, -⟩ | ⟨-, hl, hr⟩
  · rw [hs] at hn
    cases hn
  · obtain ⟨c, hc, hg, hx, hy, hp, hrn, -, hd, -⟩ := loop_decompose hl
    obtain ⟨hcur, hcase⟩ := body_stop_cases hc
    obtain ⟨hw, -, -⟩ := body_stop_write hc
    rcases hcase with ⟨hn, -⟩ | ⟨-, -, kx, ky, kp, kr, -⟩
    · rw [hr] at hn
      cases hn
    · rw [hg, hx, hy, hp, ← hcur] at hw
      exact ⟨kx.trans hx, ky.trans hy, kp.trans hp, hw, kr.trans hrn⟩

/-- Whatever a call does to the grid is one store into the cell under the
cursor it started with. -/
theorem advance_write {fuel : Nat} {s r : HilbertAlgoContext_t} {b : Bool}
    (h : HC_Algo_Advance fuel s = some (r, b)) (hs : HC_prod_is_null s = some false) :
    cells_write s.graph.cells (s.y * s.graph.sidelen + s.x)
      (HC_Get_Cell_By_Dirs s.prevDir r.currDir).1 = some r.graph.cells := by
  rcases advance_cases h with ⟨hn, -, -⟩ | ⟨-, hl, hr⟩
  · rw [hs] at hn
    cases hn
  · obtain ⟨c, hc, hg, hx, hy, hp, -⟩ := loop_decompose hl
    obtain ⟨hcur, -⟩ := body_stop_cases hc
    obtain ⟨hw, -, -⟩ := body_stop_write hc
    rw [hg, hx, hy, hp, ← hcur] at hw
    exact hw

theorem body_forward_flag {c c' : HilbertAlgoContext_t} {b : Bool} {prod : String} {i : Int}
    (hf : HC_frame c = some ⟨some prod, i⟩) (hs : cstr_at prod i = some HC_SYM_FORWARD)
    (h : HC_Algo_Advance_body c = some (c', b)) : b = false := by
  cases b with
  | false => rfl
  | true =>
    exfalso
    unfold HC_Algo_Advance_body at h
    simp only [hf, hs] at h
    rw [if_neg (by decide), if_neg (by decide), if_neg (by decide), if_neg (by decide),
      if_pos True.intro] at h
    repeat' split at h
    all_goals simp at h

theorem body_forward_some {c : HilbertAlgoContext_t} {prod : String} {i : Int}
    (hf : HC_frame c = some ⟨some prod, i⟩) (hs : cstr_at prod i = some HC_SYM_FORWARD)
    {cells : List HilbertCell_t} {entered : HilbertCell_t}
    (hw : cells_write c.graph.cells (c.y * c.graph.sidelen + c.x)
      (HC_Get_Cell_By_Dirs c.prevDir c.currDir).1 = some cells)
    (hr : cells_read cells
      ((HC_move_cursor c.state_index c.currDir c.x c.y).2.1 * c.graph.sidelen +
        (HC_move_cursor c.state_index c.currDir c.x c.y).1) = some entered) :
    ∃ c', HC_Algo_Advance_body c = some (c', false) := by
  unfold HC_Algo_Advance_body
  simp only [hf, hs]
  rw [if_neg (by decide), if_neg (by decide), if_neg (by decide), if_neg (by decide),
    if_pos True.intro]
  simp only [hw, hr]
  exact ⟨_, rfl⟩

theorem passes_trans {a b c : HilbertAlgoContext_t} (h1 : HCPasses a b) (h2 : HCPasses b c) :
    HCPasses a c := by
  induction h2 with
  | refl => exact h1
  | pass _ hb ih => exact HCPasses.pass ih hb

theorem passes_head {a b c : HilbertAlgoContext_t} {t : Bool}
    (hb : HC_Algo_Advance_body a = some (b, t)) (h : HCPasses b c) : HCPasses a c :=
  passes_trans (HCPasses.pass (HCPasses.refl a) hb) h

theorem loop_passes {fuel : Nat} {s r : HilbertAlgoContext_t}
    (h : HC_Algo_Advance_loop fuel s = some r) : HCPasses s r := by
  induction fuel generalizing s with
  | zero => simp [HC_Algo_Advance_loop] at h
  | succ f ih =>
    unfold HC_Algo_Advance_loop at h
    cases hb : HC_Algo_Advance_body s with
    | none => simp [hb] at h
    | some p =>
      obtain ⟨c1, b⟩ := p
      cases b with
      | false =>
        simp only [hb, Option.some.injEq] at h
        subst h
        exact HCPasses.pass (HCPasses.refl s) hb
      | true =>
        simp only [hb] at h
        exact passes_head hb (ih h)

theorem advance_passes {fuel : Nat} {s r : HilbertAlgoContext_t} {b : Bool}
    (h : HC_Algo_Advance fuel s = some (r, b)) : HCPasses s r := by
  rcases advance_cases h with ⟨-, rfl, -⟩ | ⟨-, hl, -⟩
  · exact HCPasses.refl _
  · exact loop_passes hl

theorem times_passes {fuel : Nat} (m : Nat) {s r : HilbertAlgoContext_t}
    (h : HC_Algo_Advance_times fuel m s = some r) : HCPasses s r := by
  induction m generalizing s with
  | zero =>
    simp only [HC_Algo_Advance_times, Option.some.injEq] at h
    subst h
    exact HCPasses.refl _
  | succ k ih =>
    rw [HC_Algo_Advance_times] at h
    cases ha : HC_Algo_Advance fuel s with
    | none => simp [ha] at h
    | some p =>
      obtain ⟨c1, b⟩ := p
      simp only [ha] at h
      exact passes_trans (advance_passes ha) (ih h)

theorem passes_stack {c s : HilbertAlgoContext_t} (h : HCPasses c s) (hc : HCStackOk c) :
    HCStackOk s ∧ s.graph.order = c.graph.order := by
  induction h with
  | refl => exact ⟨hc, rfl⟩
  | pass _ hb ih => exact ⟨body_stack hb ih.1, (body_graph hb).1.trans ih.2⟩

/-- A non-terminal read when the stack index is `order - 1` (or beyond) only
advances the position in the current frame. -/
theorem body_skip_any {c : HilbertAlgoContext_t} {prod : String} {i : Int} {sym : Char}
    (hf : HC_frame c = some ⟨some prod, i⟩) (hs : cstr_at prod i = some sym)
    (hnt : sym = HC_SYM_SUB_A ∨ sym = HC_SYM_SUB_B)
    (hbot : ¬ c.state_index < c.graph.order - 1) :
    HC_Algo_Advance_body c =
      some ({ c with
                state := c.state.set c.state_index.toNat ⟨some prod, i + 1⟩
                sdl := c.sdl ++ [SDLCall.debugSkip c.state_index sym] }, true) := by
  unfold HC_Algo_Advance_body
  simp only [hf, hs]
  rw [if_pos hnt, if_neg hbot]

/-- The whole run of a fresh engine of order `n`, whatever the fuel: after fewer
than `4 ^ n` calls the engine is between two moves, on a blank cell of the grid,
and its next call returns `true` exactly when it is call number `4 ^ n`, leaving
the final context; after `4 ^ n` calls or more the engine is in the final
context. -/
theorem fresh_run (n : Nat) (h1 : 1 ≤ n) :
    ∃ (cells : List HilbertCell_t) (prev : HilbertDir_t) (sdl : List SDLCall) (F : Nat),
      ((cells.length : Int) = 2 ^ n * 2 ^ n ∧
        (∀ x y : Int, 0 ≤ x → x < 2 ^ n → 0 ≤ y → y < 2 ^ n → ¬HCBlank cells (2 ^ n) x y) ∧
        (HC_renders sdl).length = HC_fcount n) ∧
      (∀ fuel, F ≤ fuel →
        HC_Algo_Complete fuel (HCStart n) = some (HCFinal n cells prev sdl) ∧
        ∃ s, HC_Algo_Advance_times fuel (HC_fcount n) (HCStart n) = some s ∧ HCGood s ∧
          HC_Algo_Advance fuel s = some (HCFinal n cells prev sdl, true)) ∧
      ∀ fuel m s, HC_Algo_Advance_times fuel m (HCStart n) = some s →
        (4 ^ n ≤ m → s = HCFinal n cells prev sdl) ∧
        (m < 4 ^ n → HCGood s ∧ ∀ r b, HC_Algo_Advance fuel s = some (r, b) →
          (b = true ↔ m + 1 = 4 ^ n) ∧ (b = true → r = HCFinal n cells prev sdl)) := by
  obtain ⟨cells, prev, sdl, F, ⟨hlen, hfill, -, -, -, -, hren⟩, hrun⟩ := run_fresh n h1
  refine ⟨cells, prev, sdl, F, ⟨hlen, hfill, hren⟩, fun fuel hfuel => ?_, fun fuel m s hs => ?_⟩
  · obtain ⟨hc, sF, hcalls, hgF, haF, -, -⟩ := hrun fuel hfuel
    exact ⟨hc, sF, calls_times hcalls, hgF, haF⟩
  have hfc := fcount_succ n
  obtain ⟨-, sF, hcalls, hgF, haF, hwF, hfF⟩ := hrun (max fuel F) (le_max_right _ _)
  have hs' := times_mono m hs (max fuel F) (le_max_left _ _)
  constructor
  · intro hm
    have ht : HC_Algo_Advance_times (max fuel F) (HC_fcount n + 1) (HCStart n) =
        some (HCFinal n cells prev sdl) := times_snoc _ (calls_times hcalls) haF
    have hadd := times_add (HC_fcount n + 1) (m - (HC_fcount n + 1)) ht
    rw [show HC_fcount n + 1 + (m - (HC_fcount n + 1)) = m by omega, hs',
      times_done (final_null n h1 cells prev sdl)] at hadd
    exact Option.some.inj hadd
  · intro hm
    obtain ⟨sm, sm', b, htm, ham, hb, hgm, -, -, hfin⟩ :=
      run_fresh_call h1 hcalls hgF haF hwF hfF m hm
    rw [hs'] at htm
    cases htm
    refine ⟨hgm, fun r b0 ha => ?_⟩
    have ha' := advance_mono ha (max fuel F) (le_max_left _ _)
    rw [ham] at ha'
    simp only [Option.some.injEq, Prod.mk.injEq] at ha'
    obtain ⟨rfl, rfl⟩ := ha'
    exact ⟨hb, fun hbt => (hfin hbt).1⟩

/-! ## The claims, continued -/

/-- The `SDL_RenderCopy` calls of a complete run of any order `n ≥ 1` are one
fewer than the `4 ^ n` cells the run classifies. -/
theorem renders_one_short (n : Nat) (h1 : 1 ≤ n) :
    ∃ fin F, (∀ fuel, F ≤ fuel → HC_Algo_Complete fuel (HCStart n) = some fin) ∧
      (HC_renders fin.sdl).length + 1 = 4 ^ n ∧
      (fin.graph.cells.length : Int) = 4 ^ n := by
  obtain ⟨cells, prev, sdl, F, ⟨hlen, -, hren⟩, hrun, -⟩ := fresh_run n h1
  refine ⟨HCFinal n cells prev sdl, F, fun fuel hf => (hrun fuel hf).1, ?_, ?_⟩
  · show (HC_renders sdl).length + 1 = 4 ^ n
    rw [hren]
    exact fcount_succ n
  · show (cells.length : Int) = 4 ^ n
    rw [hlen, ← mul_pow]
    norm_num

/-- **C11.** The run of a fresh engine of order `1` classifies its four cells but
makes only three `SDL_RenderCopy` calls, for the cells `(0, 1)`, `(0, 0)` and
`(1, 0)` (destination rectangles at `(0, 8)`, `(0, 0)` and `(8, 0)`).  The fourth
call, which returns `true`, stores `HC_CELL_U_R` in the cell `(1, 1)`, blank until
then, and makes no `SDL_RenderCopy`: the final cell is never handed to the
renderer. -/
theorem C11_final_cell_is_not_rendered :
    ((HC_fresh 1).bind (HC_Algo_Complete 8)).map (fun a => a.graph.cells)
      = some [HC_CELL_D_R, HC_CELL_D_L, HC_CELL_VERT, HC_CELL_U_R] ∧
    ((HC_fresh 1).bind (HC_Algo_Complete 8)).map (fun a => HC_renders a.sdl)
      = some [SDLCall.renderCopy ⟨0, 0, 4, 4⟩ ⟨0, 8, 8, 8⟩,
          SDLCall.renderCopy ⟨12, 0, 4, 4⟩ ⟨0, 0, 8, 8⟩,
          SDLCall.renderCopy ⟨16, 0, 4, 4⟩ ⟨8, 0, 8, 8⟩] ∧
    ((HC_fresh 1).bind (HC_Algo_Advance_times 8 3)).map
        (fun a => (a.x, a.y, cells_read a.graph.cells (1 * 2 + 1), HC_renders a.sdl))
      = some (1, 1, some HC_CELL_NONE,
        [SDLCall.renderCopy ⟨0, 0, 4, 4⟩ ⟨0, 8, 8, 8⟩,
          SDLCall.renderCopy ⟨12, 0, 4, 4⟩ ⟨0, 0, 8, 8⟩,
          SDLCall.renderCopy ⟨16, 0, 4, 4⟩ ⟨8, 0, 8, 8⟩]) ∧
    (((HC_fresh 1).bind (HC_Algo_Advance_times 8 3)).bind (HC_Algo_Advance 8)).map
        (fun p => (p.2, p.1.x, p.1.y, cells_read p.1.graph.cells (1 * 2 + 1),
          HC_renders p.1.sdl))
      = some (true, 1, 1, some HC_CELL_U_R,
        [SDLCall.renderCopy ⟨0, 0, 4, 4⟩ ⟨0, 8, 8, 8⟩,
          SDLCall.renderCopy ⟨12, 0, 4, 4⟩ ⟨0, 0, 8, 8⟩,
          SDLCall.renderCopy ⟨16, 0, 4, 4⟩ ⟨8, 0, 8, 8⟩]) := by
  refine ⟨?_, ?_, ?_, ?_⟩ <;> decide

/-- **C12.** Let a pass of the loop of `HC_Algo_Advance` read a `Forward` symbol in a
context `c` whose `currDir` is one of the four directions.  If the two cell
accesses are inside the grid the pass succeeds; whenever it does, it stores
`HC_Get_Cell_By_Dirs(prevDir, currDir)` in the cell under the cursor, moves the
cursor by one unit in `currDir` (Right `x + 1`, Down `y + 1`, Left `x - 1`, Up
`y - 1`), keeps `currDir`, sets `prevDir` to the opposite of `currDir`, ends the
loop, and the call returns `false`.  Hence every call that returns `false`,
started with `currDir` one of the four directions, leaves
`prevDir = opposite(currDir)`, has written the classification of the entry
`prevDir` and the final `currDir` in the cell under the entry cursor, and leaves
the cursor at Manhattan distance `1` from the entry cursor. -/
theorem C12_forward_step (c : HilbertAlgoContext_t) (prod : String) (i : Int)
    (hframe : HC_frame c = some ⟨some prod, i⟩)
    (hsym : cstr_at prod i = some HC_SYM_FORWARD) (hdir : c.currDir ≠ HC_NUM_DIRS) :
    ((∃ cells entered,
        cells_write c.graph.cells (c.y * c.graph.sidelen + c.x)
          (HC_Get_Cell_By_Dirs c.prevDir c.currDir).1 = some cells ∧
        cells_read cells
          ((c.y + HCdy c.currDir) * c.graph.sidelen + (c.x + HCdx c.currDir)) = some entered) →
      ∃ c', HC_Algo_Advance_body c = some (c', false)) ∧
    (∀ c' b, HC_Algo_Advance_body c = some (c', b) →
      b = false ∧
      cells_write c.graph.cells (c.y * c.graph.sidelen + c.x)
        (HC_Get_Cell_By_Dirs c.prevDir c.currDir).1 = some c'.graph.cells ∧
      c'.x = c.x + HCdx c.currDir ∧ c'.y = c.y + HCdy c.currDir ∧
      c'.currDir = c.currDir ∧ c'.prevDir = HCopp c.currDir ∧
      HC_prod_is_null c' = some false ∧
      ∀ fuel, HC_Algo_Advance (fuel + 1) c = some (c', false)) ∧
    (∀ fuel algo algo', algo.currDir ≠ HC_NUM_DIRS →
      HC_Algo_Advance fuel algo = some (algo', false) →
      algo'.currDir ≠ HC_NUM_DIRS ∧
      cells_write algo.graph.cells (algo.y * algo.graph.sidelen + algo.x)
        (HC_Get_Cell_By_Dirs algo.prevDir algo'.currDir).1 = some algo'.graph.cells ∧
      algo'.x = algo.x + HCdx algo'.currDir ∧ algo'.y = algo.y + HCdy algo'.currDir ∧
      algo'.prevDir = HCopp algo'.currDir ∧
      |algo'.x - algo.x| + |algo'.y - algo.y| = 1) := by
  obtain ⟨mx, my⟩ := move_cursor_eq c.state_index hdir c.x c.y
  refine ⟨?_, ?_, ?_⟩
  · rintro ⟨cells, entered, hw, hr⟩
    rw [← mx, ← my] at hr
    exact body_forward_some hframe hsym hw hr
  · intro c' b hb
    have hbf := body_forward_flag hframe hsym hb
    subst hbf
    obtain ⟨hcur, hcase⟩ := body_stop_cases hb
    obtain ⟨hw, -, -⟩ := body_stop_write hb
    rcases hcase with ⟨hn, -, kx, ky, kp, -, -⟩ | ⟨-, ⟨prod', i', hf', hs'⟩, -⟩
    · refine ⟨rfl, hw, kx.trans mx, ky.trans my, hcur, ?_, hn, fun fuel => ?_⟩
      · rw [kp, cache_prev_eq hdir]
      · exact advance_of_loop (loop_step_stop fuel hb) hn
    · rw [hframe] at hf'
      simp only [Option.some.injEq, HilbertAlgoRecurse_t.mk.injEq] at hf'
      obtain ⟨hp, hi⟩ := hf'
      subst hp hi
      rw [hsym] at hs'
      exact absurd hs' (by decide)
  · intro fuel algo algo' hd h
    obtain ⟨k, -, -, hk, -, -, hg, hx, hy, hp, hdk, hcur, kx, ky, kp, -⟩ := advance_false_forward h
    have hkd := hdk hd
    obtain ⟨ex, ey⟩ := move_cursor_eq k.state_index hkd k.x k.y
    obtain ⟨hw, -, -⟩ := body_stop_write hk
    rw [hg, hx, hy, hp, ← hcur] at hw
    have hx' : algo'.x = algo.x + HCdx algo'.currDir := by rw [kx, ex, hx, hcur]
    have hy' : algo'.y = algo.y + HCdy algo'.currDir := by rw [ky, ey, hy, hcur]
    have hne : algo'.currDir ≠ HC_NUM_DIRS := by rw [hcur]; exact hkd
    refine ⟨hne, hw, hx', hy', ?_, ?_⟩
    · rw [kp, cache_prev_eq hkd, hcur]
    · rw [hx', hy', add_sub_cancel_left, add_sub_cancel_left]
      exact unit_step hne

theorem C12_forward_step_witness :
    (HC_frame (⟨⟨1, 2, [HC_CELL_NONE, HC_CELL_NONE, HC_CELL_NONE, HC_CELL_NONE]⟩, HC_DIR_UP, HC_DIR_DOWN,
      [⟨some HC_ALGO_PROD_A, 2⟩], 0, 0, 1, []⟩ : HilbertAlgoContext_t)
        = some ⟨some HC_ALGO_PROD_A, 2⟩ ∧
      cstr_at HC_ALGO_PROD_A 2 = some HC_SYM_FORWARD) ∧
    (∃ c', HC_Algo_Advance_body (⟨⟨1, 2, [HC_CELL_NONE, HC_CELL_NONE, HC_CELL_NONE, HC_CELL_NONE]⟩, HC_DIR_UP, HC_DIR_DOWN,
      [⟨some HC_ALGO_PROD_A, 2⟩], 0, 0, 1, []⟩ : HilbertAlgoContext_t)
        = some (c', false)) ∧
    (∀ fuel, HC_Algo_Advance (fuel + 1) (⟨⟨1, 2, [HC_CELL_NONE, HC_CELL_NONE, HC_CELL_NONE, HC_CELL_NONE]⟩, HC_DIR_UP, HC_DIR_DOWN,
      [⟨some HC_ALGO_PROD_A, 2⟩], 0, 0, 1, []⟩ : HilbertAlgoContext_t)
        = some ((⟨⟨1, 2, [HC_CELL_NONE, HC_CELL_NONE, HC_CELL_VERT, HC_CELL_NONE]⟩, HC_DIR_UP, HC_DIR_DOWN,
      [⟨some HC_ALGO_PROD_A, 3⟩], 0, 0, 0,
      [SDLCall.debugForward 0 0 1 2 2, SDLCall.setRenderTarget,
        SDLCall.renderCopy ⟨0, 0, 4, 4⟩ ⟨0, 8, 8, 8⟩]⟩ : HilbertAlgoContext_t), false)) ∧
    HC_Algo_Advance 8 (HCStart 1) = some ((⟨⟨1, 2, [HC_CELL_NONE, HC_CELL_NONE, HC_CELL_VERT, HC_CELL_NONE]⟩, HC_DIR_UP, HC_DIR_DOWN,
      [⟨some HC_ALGO_PROD_A, 3⟩], 0, 0, 0,
      [SDLCall.debugLeft 0, SDLCall.debugSkip 0 'B', SDLCall.debugForward 0 0 1 2 2,
        SDLCall.setRenderTarget,
        SDLCall.renderCopy ⟨0, 0, 4, 4⟩ ⟨0, 8, 8, 8⟩]⟩ : HilbertAlgoContext_t), false) ∧
    (⟨⟨1, 2, [HC_CELL_NONE, HC_CELL_NONE, HC_CELL_VERT, HC_CELL_NONE]⟩, HC_DIR_UP, HC_DIR_DOWN,
      [⟨some HC_ALGO_PROD_A, 3⟩], 0, 0, 0,
      [SDLCall.debugLeft 0, SDLCall.debugSkip 0 'B', SDLCall.debugForward 0 0 1 2 2,
        SDLCall.setRenderTarget,
        SDLCall.renderCopy ⟨0, 0, 4, 4⟩ ⟨0, 8, 8, 8⟩]⟩ : HilbertAlgoContext_t).prevDir = HCopp (⟨⟨1, 2, [HC_CELL_NONE, HC_CELL_NONE, HC_CELL_VERT, HC_CELL_NONE]⟩, HC_DIR_UP, HC_DIR_DOWN,
      [⟨some HC_ALGO_PROD_A, 3⟩], 0, 0, 0,
      [SDLCall.debugLeft 0, SDLCall.debugSkip 0 'B', SDLCall.debugForward 0 0 1 2 2,
        SDLCall.setRenderTarget,
        SDLCall.renderCopy ⟨0, 0, 4, 4⟩ ⟨0, 8, 8, 8⟩]⟩ : HilbertAlgoContext_t).currDir :=
  ⟨⟨by decide, by decide⟩,
    (C12_forward_step (⟨⟨1, 2, [HC_CELL_NONE, HC_CELL_NONE, HC_CELL_NONE, HC_CELL_NONE]⟩, HC_DIR_UP, HC_DIR_DOWN,
      [⟨some HC_ALGO_PROD_A, 2⟩], 0, 0, 1, []⟩ : HilbertAlgoContext_t)
      HC_ALGO_PROD_A 2 (by decide) (by decide) (by decide)).1
      ⟨[HC_CELL_NONE, HC_CELL_NONE, HC_CELL_VERT, HC_CELL_NONE], HC_CELL_NONE,
        by decide, by decide⟩,
    ((C12_forward_step (⟨⟨1, 2, [HC_CELL_NONE, HC_CELL_NONE, HC_CELL_NONE, HC_CELL_NONE]⟩, HC_DIR_UP, HC_DIR_DOWN,
      [⟨some HC_ALGO_PROD_A, 2⟩], 0, 0, 1, []⟩ : HilbertAlgoContext_t)
      HC_ALGO_PROD_A 2 (by decide) (by decide) (by decide)).2.1
      (⟨⟨1, 2, [HC_CELL_NONE, HC_CELL_NONE, HC_CELL_VERT, HC_CELL_NONE]⟩, HC_DIR_UP, HC_DIR_DOWN,
      [⟨some HC_ALGO_PROD_A, 3⟩], 0, 0, 0,
      [SDLCall.debugForward 0 0 1 2 2, SDLCall.setRenderTarget,
        SDLCall.renderCopy ⟨0, 0, 4, 4⟩ ⟨0, 8, 8, 8⟩]⟩ : HilbertAlgoContext_t) false (by decide)).2.2.2.2.2.2.2,
    by decide,
    ((C12_forward_step (⟨⟨1, 2, [HC_CELL_NONE, HC_CELL_NONE, HC_CELL_NONE, HC_CELL_NONE]⟩, HC_DIR_UP, HC_DIR_DOWN,
      [⟨some HC_ALGO_PROD_A, 2⟩], 0, 0, 1, []⟩ : HilbertAlgoContext_t)
      HC_ALGO_PROD_A 2 (by decide) (by decide) (by decide)).2.2 8 (HCStart 1)
      (⟨⟨1, 2, [HC_CELL_NONE, HC_CELL_NONE, HC_CELL_VERT, HC_CELL_NONE]⟩, HC_DIR_UP, HC_DIR_DOWN,
      [⟨some HC_ALGO_PROD_A, 3⟩], 0, 0, 0,
      [SDLCall.debugLeft 0, SDLCall.debugSkip 0 'B', SDLCall.debugForward 0 0 1 2 2,
        SDLCall.setRenderTarget,
        SDLCall.renderCopy ⟨0, 0, 4, 4⟩ ⟨0, 8, 8, 8⟩]⟩ : HilbertAlgoContext_t) (by decide) (by decide)).2.2.2.2.1⟩

/-- **C13.** Every call of `HC_Algo_Advance` that returns changes at most one cell of
the grid.  On a finished engine (the production of the current frame is `NULL`)
it returns `true` and leaves the whole context, hence every cell, as it was.  On
an engine that is not finished its whole effect on the grid is one store, into
the cell under the cursor held on entry: the cells afterwards are the cells
before with that one entry replaced, every other cell is unchanged, and the
number of cells is the same. -/
theorem C13_at_most_one_cell_per_call (fuel : Nat) (algo algo' : HilbertAlgoContext_t)
    (b : Bool) (h : HC_Algo_Advance fuel algo = some (algo', b)) :
    (HC_prod_is_null algo = some true ∨ HC_prod_is_null algo = some false) ∧
    (HC_prod_is_null algo = some true → b = true ∧ algo' = algo) ∧
    (HC_prod_is_null algo = some false →
      ∃ v, cells_write algo.graph.cells (algo.y * algo.graph.sidelen + algo.x) v =
          some algo'.graph.cells ∧
        0 ≤ algo.y * algo.graph.sidelen + algo.x ∧
        (algo.y * algo.graph.sidelen + algo.x).toNat < algo.graph.cells.length ∧
        algo'.graph.cells =
          algo.graph.cells.set (algo.y * algo.graph.sidelen + algo.x).toNat v) ∧
    algo'.graph.cells.length = algo.graph.cells.length ∧
    (∀ i : Nat, (i : Int) ≠ algo.y * algo.graph.sidelen + algo.x →
      algo'.graph.cells[i]? = algo.graph.cells[i]?) ∧
    (∀ i j : Nat, algo'.graph.cells[i]? ≠ algo.graph.cells[i]? →
      algo'.graph.cells[j]? ≠ algo.graph.cells[j]? → i = j) := by
  rcases advance_cases h with ⟨hn, rfl, rfl⟩ | ⟨hn, hl, hr⟩
  · refine ⟨Or.inl hn, fun _ => ⟨rfl, rfl⟩, fun hf => ?_, rfl, fun _ _ => rfl,
      fun i _ hi => absurd rfl hi⟩
    rw [hn] at hf
    cases hf
  · have hw := advance_write h hn
    obtain ⟨h0, hlt, hset⟩ := cells_write_spec hw
    have hother : ∀ i : Nat, (i : Int) ≠ algo.y * algo.graph.sidelen + algo.x →
        algo'.graph.cells[i]? = algo.graph.cells[i]? := by
      intro i hi
      rw [hset, List.getElem?_set_ne]
      intro hc
      apply hi
      rw [← hc]
      exact Int.toNat_of_nonneg h0
    refine ⟨Or.inr hn, fun hf => ?_, fun _ => ⟨_, hw, h0, hlt, hset⟩, ?_, hother,
      fun i j hi hj => ?_⟩
    · rw [hn] at hf
      cases hf
    · rw [hset, List.length_set]
    · have hi' : (i : Int) = algo.y * algo.graph.sidelen + algo.x := by
        by_contra hc
        exact hi (hother i hc)
      have hj' : (j : Int) = algo.y * algo.graph.sidelen + algo.x := by
        by_contra hc
        exact hj (hother j hc)
      omega

theorem C13_at_most_one_cell_per_call_witness :
    HC_Algo_Advance 8 (HCStart 1) = some ((⟨⟨1, 2, [HC_CELL_NONE, HC_CELL_NONE, HC_CELL_VERT, HC_CELL_NONE]⟩, HC_DIR_UP, HC_DIR_DOWN,
      [⟨some HC_ALGO_PROD_A, 3⟩], 0, 0, 0,
      [SDLCall.debugLeft 0, SDLCall.debugSkip 0 'B', SDLCall.debugForward 0 0 1 2 2,
        SDLCall.setRenderTarget,
        SDLCall.renderCopy ⟨0, 0, 4, 4⟩ ⟨0, 8, 8, 8⟩]⟩ : HilbertAlgoContext_t), false) ∧
    (∃ v, cells_write (HCStart 1).graph.cells
        ((HCStart 1).y * (HCStart 1).graph.sidelen + (HCStart 1).x) v =
          some [HC_CELL_NONE, HC_CELL_NONE, HC_CELL_VERT, HC_CELL_NONE] ∧
        0 ≤ (HCStart 1).y * (HCStart 1).graph.sidelen + (HCStart 1).x ∧
        ((HCStart 1).y * (HCStart 1).graph.sidelen + (HCStart 1).x).toNat <
          (HCStart 1).graph.cells.length ∧
        [HC_CELL_NONE, HC_CELL_NONE, HC_CELL_VERT, HC_CELL_NONE] =
          (HCStart 1).graph.cells.set
            ((HCStart 1).y * (HCStart 1).graph.sidelen + (HCStart 1).x).toNat v) :=
  ⟨by decide,
    (C13_at_most_one_cell_per_call 8 (HCStart 1)
      (⟨⟨1, 2, [HC_CELL_NONE, HC_CELL_NONE, HC_CELL_VERT, HC_CELL_NONE]⟩, HC_DIR_UP, HC_DIR_DOWN,
      [⟨some HC_ALGO_PROD_A, 3⟩], 0, 0, 0,
      [SDLCall.debugLeft 0, SDLCall.debugSkip 0 'B', SDLCall.debugForward 0 0 1 2 2,
        SDLCall.setRenderTarget,
        SDLCall.renderCopy ⟨0, 0, 4, 4⟩ ⟨0, 8, 8, 8⟩]⟩ : HilbertAlgoContext_t) false (by decide)).2.2.1 (by decide)⟩

/-- **C14.** For every order `n` with `1 ≤ n ≤ 15`, in every context the engine
goes through from a fresh engine (after any number of loop passes, so in
particular after any number of calls of `HC_Algo_Advance`) the frame array has
`n` entries, `0 ≤ state_index ≤ n - 1`, and the current frame is an entry of the
array; a non-terminal read when `state_index = n - 1` only advances the position
in the current frame: the stack index and every other frame stay. -/
theorem C14_stack_index_in_bounds (n : Nat) (h1 : 1 ≤ n) (h15 : n ≤ 15) :
    ∃ algo, HC_fresh (n : Int) = some algo ∧
      (∀ fuel m s, HC_Algo_Advance_times fuel m algo = some s → HCPasses algo s) ∧
      ∀ s, HCPasses algo s →
        s.graph.order = (n : Int) ∧ (s.state.length : Int) = (n : Int) ∧
        0 ≤ s.state_index ∧ s.state_index ≤ (n : Int) - 1 ∧
        s.state_index.toNat < s.state.length ∧ (∃ st, HC_frame s = some st) ∧
        ∀ prod i sym, HC_frame s = some ⟨some prod, i⟩ → cstr_at prod i = some sym →
          (sym = HC_SYM_SUB_A ∨ sym = HC_SYM_SUB_B) → s.state_index = (n : Int) - 1 →
          HC_Algo_Advance_body s =
            some (⟨s.graph, s.currDir, s.prevDir,
              s.state.set s.state_index.toNat ⟨some prod, i + 1⟩, s.state_index, s.x, s.y,
              s.sdl ++ [SDLCall.debugSkip s.state_index sym]⟩, true) := by
  refine ⟨HCStart n, fresh_eq n h1 h15, fun fuel m s hs => times_passes m hs, fun s hs => ?_⟩
  obtain ⟨⟨h0, hle, hlen⟩, hord⟩ := passes_stack hs (start_stack n h1)
  have hord' : s.graph.order = (n : Int) := hord
  rw [hord'] at hle hlen
  have hlt : s.state_index.toNat < s.state.length := by omega
  refine ⟨hord', hlen, h0, hle, hlt, ?_, fun prod i sym hf hsym hnt hbot => ?_⟩
  · unfold HC_frame
    rw [if_neg (by omega), List.getElem?_eq_getElem hlt]
    exact ⟨_, rfl⟩
  · exact body_skip_any hf hsym hnt (by rw [hord']; omega)

theorem C14_stack_index_in_bounds_witness :
    ((1 : Nat) ≤ 1 ∧ (1 : Nat) ≤ 15) ∧
    (∃ algo, HC_fresh ((1 : Nat) : Int) = some algo ∧
      (∀ fuel m s, HC_Algo_Advance_times fuel m algo = some s → HCPasses algo s) ∧
      ∀ s, HCPasses algo s →
        s.graph.order = ((1 : Nat) : Int) ∧ (s.state.length : Int) = ((1 : Nat) : Int) ∧
        0 ≤ s.state_index ∧ s.state_index ≤ ((1 : Nat) : Int) - 1 ∧
        s.state_index.toNat < s.state.length ∧ (∃ st, HC_frame s = some st) ∧
        ∀ prod i sym, HC_frame s = some ⟨some prod, i⟩ → cstr_at prod i = some sym →
          (sym = HC_SYM_SUB_A ∨ sym = HC_SYM_SUB_B) → s.state_index = ((1 : Nat) : Int) - 1 →
          HC_Algo_Advance_body s =
            some (⟨s.graph, s.currDir, s.prevDir,
              s.state.set s.state_index.toNat ⟨some prod, i + 1⟩, s.state_index, s.x, s.y,
              s.sdl ++ [SDLCall.debugSkip s.state_index sym]⟩, true)) :=
  ⟨⟨by decide, by decide⟩, C14_stack_index_in_bounds 1 (by decide) (by decide)⟩

/-- **C15.** For every order in `[1, 15]` the expressions `1 << order` and
`sidelen * sidelen` of `HC_Graph_Create`, evaluated in 32-bit `int` arithmetic
(where an overflow has no defined result), are defined and equal `2 ^ order` and
`4 ^ order`, the side and the number of cells of the grid created; `4 ^ order` is
at most `2 ^ 30 < 2 ^ 31 = INT_MAX + 1`.  For order `16` the side `2 ^ 16` is still
defined but the product `2 ^ 32` exceeds `INT_MAX` and is not, and the same holds
for every order from `16` on, so `15` is the largest order that fits. -/
theorem C15_sidelen_and_cell_count_fit (order : Int) (h1 : 1 ≤ order) (h15 : order ≤ 15) :
    HC_sidelen_int32 order = some (2 ^ order.toNat) ∧
    HC_cellcount_int32 order = some (4 ^ order.toNat) ∧
    (4 : Int) ^ order.toNat ≤ 2 ^ 30 ∧ (2 : Int) ^ 30 < 2 ^ 31 ∧ (2 : Int) ^ 31 = INT_MAX + 1 ∧
    (∃ g, HC_Graph_Create order true true = some g ∧
      HC_sidelen_int32 order = some g.sidelen ∧
      HC_cellcount_int32 order = some (g.cells.length : Int)) ∧
    HC_sidelen_int32 16 = some (2 ^ 16) ∧ (2 : Int) ^ 16 * 2 ^ 16 = 2 ^ 32 ∧
    INT_MAX < 2 ^ 32 ∧ HC_cellcount_int32 16 = none ∧
    ∀ o : Int, 16 ≤ o → HC_cellcount_int32 o = none := by
  refine ⟨?_, ?_, ?_, by norm_num, by norm_num [INT_MAX], ?_, by decide, by norm_num,
    by norm_num [INT_MAX], by decide, ?_⟩
  · interval_cases order <;> decide
  · interval_cases order <;> decide
  · interval_cases order <;> decide
  · have hs : HC_sidelen_int32 order = some (2 ^ order.toNat) := by
      interval_cases order <;> decide
    have hc : HC_cellcount_int32 order = some (4 ^ order.toNat) := by
      interval_cases order <;> decide
    refine ⟨_, graph_create_eq order h1 h15, hs, ?_⟩
    rw [hc]
    have hpos : (0 : Int) ≤ 2 ^ order.toNat * 2 ^ order.toNat := by positivity
    simp only [List.length_replicate, Int.toNat_of_nonneg hpos]
    rw [← mul_pow]
    norm_num
  · intro o ho
    by_cases h32 : o < 32
    · interval_cases o <;> decide
    · unfold HC_cellcount_int32 HC_sidelen_int32
      rw [if_neg (by omega)]
      rfl

theorem C15_sidelen_and_cell_count_fit_witness :
    ((1 : Int) ≤ 15 ∧ (15 : Int) ≤ 15) ∧
    HC_sidelen_int32 15 = some (2 ^ (15 : Int).toNat) ∧
    HC_cellcount_int32 15 = some (4 ^ (15 : Int).toNat) :=
  ⟨⟨by decide, by decide⟩, (C15_sidelen_and_cell_count_fit 15 (by decide) (by decide)).1,
    (C15_sidelen_and_cell_count_fit 15 (by decide) (by decide)).2.1⟩

/-- **C16, as stated, fails.** On the ordered pairs of non-equal directions the
shapes other than `HC_CELL_NONE` that `HC_Get_Cell_By_Dirs` returns are not five and
the pairs they come from are not eight (they are six and twelve), although
Vertical and Horizontal do cover two ordered pairs each. -/
theorem C16_five_shapes_eight_pairs_fails :
    ¬ (HC_pair_shapes.length = 5 ∧ HC_shaped_pairs.length = 8 ∧
        (HC_pairs_of_shape HC_CELL_VERT).length = 2 ∧
        (HC_pairs_of_shape HC_CELL_HORZ).length = 2) := by
  decide

/-- **C16, amended.** There are twelve ordered pairs of non-equal directions;
`HC_Get_Cell_By_Dirs` returns a shape other than `HC_CELL_NONE` on every one of them;
these shapes are six in number, namely every shape other than `HC_CELL_NONE`; and
each of them, Vertical and Horizontal in particular, covers exactly two ordered
pairs. -/
theorem C16_six_shapes_twelve_pairs :
    HC_ordered_pairs.length = 12 ∧ HC_shaped_pairs = HC_ordered_pairs ∧
    HC_pair_shapes.length = 6 ∧
    (∀ s : HilbertCell_t, s ≠ HC_CELL_NONE ↔ s ∈ HC_pair_shapes) ∧
    (∀ s : HilbertCell_t, s = HC_CELL_NONE ∨ (HC_pairs_of_shape s).length = 2) ∧
    HC_pairs_of_shape HC_CELL_VERT = [(HC_DIR_DOWN, HC_DIR_UP), (HC_DIR_UP, HC_DIR_DOWN)] ∧
    HC_pairs_of_shape HC_CELL_HORZ = [(HC_DIR_RIGHT, HC_DIR_LEFT), (HC_DIR_LEFT, HC_DIR_RIGHT)] := by
  refine ⟨?_, ?_, ?_, ?_, ?_, ?_, ?_⟩ <;> decide

/-- **C17.** For every order `n` with `1 ≤ n ≤ 15`, after any number of calls of
`HC_Algo_Advance` on a fresh engine (whatever the fuel) the grid still has side
`2 ^ n` and `sidelen * sidelen` cells, the cursor satisfies `0 ≤ x < sidelen` and
`0 ≤ y < sidelen`, and the index `y * sidelen + x` lies in `[0, sidelen * sidelen)`,
so the cell under the cursor can be read.  A call on an unfinished engine makes
its store in a pass whose cursor is the cursor on entry, and leaves the cursor,
at which a `Forward` reads the entered cell, on the grid as well. -/
theorem C17_cursor_stays_on_grid (n : Nat) (h1 : 1 ≤ n) (h15 : n ≤ 15) :
    ∃ algo, HC_fresh (n : Int) = some algo ∧
      ∀ fuel m s, HC_Algo_Advance_times fuel m algo = some s →
        s.graph.sidelen = 2 ^ n ∧
        (s.graph.cells.length : Int) = s.graph.sidelen * s.graph.sidelen ∧
        0 ≤ s.x ∧ s.x < s.graph.sidelen ∧ 0 ≤ s.y ∧ s.y < s.graph.sidelen ∧
        0 ≤ s.y * s.graph.sidelen + s.x ∧
        s.y * s.graph.sidelen + s.x < s.graph.sidelen * s.graph.sidelen ∧
        (∃ v, cells_read s.graph.cells (s.y * s.graph.sidelen + s.x) = some v) ∧
        ∀ s' b, HC_Algo_Advance fuel s = some (s', b) → HC_prod_is_null s = some false →
          (∃ c, HC_Algo_Advance_body c = some (s', false) ∧
            c.graph = s.graph ∧ c.x = s.x ∧ c.y = s.y) ∧
          s'.graph.sidelen = s.graph.sidelen ∧
          s'.graph.cells.length = s.graph.cells.length ∧
          0 ≤ s'.x ∧ s'.x < s'.graph.sidelen ∧ 0 ≤ s'.y ∧ s'.y < s'.graph.sidelen := by
  obtain ⟨cells, prev, sdl, F, -, -, hreach⟩ := fresh_run n h1
  have hN : (1 : Int) ≤ 2 ^ n := one_le_pow₀ (by norm_num)
  have key : ∀ fuel m s, HC_Algo_Advance_times fuel m (HCStart n) = some s →
      s.graph.sidelen = 2 ^ n ∧
      (s.graph.cells.length : Int) = s.graph.sidelen * s.graph.sidelen ∧
      0 ≤ s.x ∧ s.x < s.graph.sidelen ∧ 0 ≤ s.y ∧ s.y < s.graph.sidelen := by
    intro fuel m s hs
    obtain ⟨-, hsl, hcl⟩ := times_graph m hs
    have hsl' : s.graph.sidelen = 2 ^ n := hsl
    have hcl' : (s.graph.cells.length : Int) = s.graph.sidelen * s.graph.sidelen := by
      rw [hcl, hsl']
      simp [HCStart]
    refine ⟨hsl', hcl', ?_⟩
    by_cases hm : m < 4 ^ n
    · obtain ⟨⟨-, g1, g2, g3, g4, -⟩, -⟩ := (hreach fuel m s hs).2 hm
      exact ⟨g1, g2, g3, g4⟩
    · have hfin := (hreach fuel m s hs).1 (by omega)
      rw [hsl']
      subst hfin
      simp only [HCFinal]
      omega
  refine ⟨HCStart n, fresh_eq n h1 h15, fun fuel m s hs => ?_⟩
  obtain ⟨hsl, hcl, hx0, hx, hy0, hy⟩ := key fuel m s hs
  obtain ⟨hi0, hi⟩ := idx_bounds hx0 hx hy0 hy
  refine ⟨hsl, hcl, hx0, hx, hy0, hy, hi0, hi, ?_, fun s' b ha hn => ?_⟩
  · unfold cells_read
    rw [if_neg (by omega)]
    have hlt : (s.y * s.graph.sidelen + s.x).toNat < s.graph.cells.length := by omega
    rw [List.getElem?_eq_getElem hlt]
    exact ⟨_, rfl⟩
  · obtain ⟨-, a2, a3⟩ := advance_graph ha
    obtain ⟨-, -, k1, k2, k3, k4⟩ := key fuel (m + 1) s' (times_snoc m hs ha)
    refine ⟨?_, a2, a3, k1, k2, k3, k4⟩
    rcases advance_cases ha with ⟨hd, -, -⟩ | ⟨-, hl, -⟩
    · rw [hn] at hd
      cases hd
    · obtain ⟨c, hc, hg, hcx, hcy, -⟩ := loop_decompose hl
      exact ⟨c, hc, hg, hcx, hcy⟩

theorem C17_cursor_stays_on_grid_witness :
    ((1 : Nat) ≤ 1 ∧ (1 : Nat) ≤ 15) ∧
    (∃ algo, HC_fresh ((1 : Nat) : Int) = some algo ∧
      ∀ fuel m s, HC_Algo_Advance_times fuel m algo = some s →
        s.graph.sidelen = 2 ^ 1 ∧
        (s.graph.cells.length : Int) = s.graph.sidelen * s.graph.sidelen ∧
        0 ≤ s.x ∧ s.x < s.graph.sidelen ∧ 0 ≤ s.y ∧ s.y < s.graph.sidelen ∧
        0 ≤ s.y * s.graph.sidelen + s.x ∧
        s.y * s.graph.sidelen + s.x < s.graph.sidelen * s.graph.sidelen ∧
        (∃ v, cells_read s.graph.cells (s.y * s.graph.sidelen + s.x) = some v) ∧
        ∀ s' b, HC_Algo_Advance fuel s = some (s', b) → HC_prod_is_null s = some false →
          (∃ c, HC_Algo_Advance_body c = some (s', false) ∧
            c.graph = s.graph ∧ c.x = s.x ∧ c.y = s.y) ∧
          s'.graph.sidelen = s.graph.sidelen ∧
          s'.graph.cells.length = s.graph.cells.length ∧
          0 ≤ s'.x ∧ s'.x < s'.graph.sidelen ∧ 0 ≤ s'.y ∧ s'.y < s'.graph.sidelen) :=
  ⟨⟨by decide, by decide⟩, C17_cursor_stays_on_grid 1 (by decide) (by decide)⟩

/-- **C18.** For every order `n` with `1 ≤ n ≤ 15`, the run of a fresh engine ends
(`HC_Algo_Complete` returns, with any large enough fuel) in a context whose cursor
is the bottom-right cell `(sidelen - 1, sidelen - 1)` and whose `currDir` is
`HC_DIR_RIGHT`; the last call, number `4 ^ n`, starts on that cell and stores in it
`HC_Get_Cell_By_Dirs(prevDir, HC_DIR_RIGHT)`, which is what the cell holds at the
end; and whenever a call made in the course of the run returns `true`, the
context it leaves is this one. -/
theorem C18_run_ends_bottom_right_heading_right (n : Nat) (h1 : 1 ≤ n) (h15 : n ≤ 15) :
    ∃ algo fin F,
      HC_fresh (n : Int) = some algo ∧
      fin.graph.sidelen = 2 ^ n ∧
      fin.x = fin.graph.sidelen - 1 ∧ fin.y = fin.graph.sidelen - 1 ∧
      fin.currDir = HC_DIR_RIGHT ∧
      cells_read fin.graph.cells (fin.y * fin.graph.sidelen + fin.x) =
        some (HC_Get_Cell_By_Dirs fin.prevDir HC_DIR_RIGHT).1 ∧
      (∀ fuel, F ≤ fuel →
        HC_Algo_Complete fuel algo = some fin ∧
        ∃ s, HC_Algo_Advance_times fuel (4 ^ n - 1) algo = some s ∧
          HC_Algo_Advance fuel s = some (fin, true) ∧
          s.x = fin.x ∧ s.y = fin.y ∧
          cells_write s.graph.cells (s.y * s.graph.sidelen + s.x)
            (HC_Get_Cell_By_Dirs s.prevDir HC_DIR_RIGHT).1 = some fin.graph.cells) ∧
      ∀ fuel m s r, HC_Algo_Advance_times fuel m algo = some s →
        HC_Algo_Advance fuel s = some (r, true) → r = fin := by
  obtain ⟨cells, prev, sdl, F, -, hrun, hreach⟩ := fresh_run n h1
  have hfc := fcount_succ n
  have last : ∀ fuel, F ≤ fuel →
      ∃ s, HC_Algo_Advance_times fuel (4 ^ n - 1) (HCStart n) = some s ∧
        HC_Algo_Advance fuel s = some (HCFinal n cells prev sdl, true) ∧
        s.x = 2 ^ n - 1 ∧ s.y = 2 ^ n - 1 ∧ s.graph.sidelen = 2 ^ n ∧ s.prevDir = prev ∧
        cells_write s.graph.cells (s.y * s.graph.sidelen + s.x)
          (HC_Get_Cell_By_Dirs s.prevDir HC_DIR_RIGHT).1 = some cells := by
    intro fuel hfuel
    obtain ⟨-, s, hts, hg, ha⟩ := hrun fuel hfuel
    obtain ⟨kx, ky, kp, kw, -⟩ := advance_true_final ha hg.1
    obtain ⟨-, hsl, -⟩ := times_graph _ hts
    rw [show HC_fcount n = 4 ^ n - 1 by omega] at hts
    exact ⟨s, hts, ha, kx.symm, ky.symm, hsl, kp.symm, kw⟩
  refine ⟨HCStart n, HCFinal n cells prev sdl, F, fresh_eq n h1 h15, rfl, rfl, rfl, rfl, ?_,
    fun fuel hfuel => ?_, fun fuel m s r hs ha => ?_⟩
  · obtain ⟨s, -, -, sx, sy, ssl, sp, sw⟩ := last F (le_refl F)
    have := cells_read_write_self sw
    rw [sx, sy, ssl, sp] at this
    exact this
  · obtain ⟨s, hts, ha, sx, sy, -, -, sw⟩ := last fuel hfuel
    exact ⟨(hrun fuel hfuel).1, s, hts, ha, sx, sy, sw⟩
  · by_cases hm : m < 4 ^ n
    · exact ((hreach fuel m s hs).2 hm).2 r true ha |>.2 rfl
    · have hfin := (hreach fuel m s hs).1 (by omega)
      subst hfin
      rcases advance_cases ha with ⟨-, hr, -⟩ | ⟨hn, -, -⟩
      · exact hr
      · rw [final_null n h1] at hn
        cases hn

theorem C18_run_ends_bottom_right_heading_right_witness :
    ((1 : Nat) ≤ 1 ∧ (1 : Nat) ≤ 15) ∧
    (∃ algo fin F,
      HC_fresh ((1 : Nat) : Int) = some algo ∧
      fin.graph.sidelen = 2 ^ 1 ∧
      fin.x = fin.graph.sidelen - 1 ∧ fin.y = fin.graph.sidelen - 1 ∧
      fin.currDir = HC_DIR_RIGHT ∧
      cells_read fin.graph.cells (fin.y * fin.graph.sidelen + fin.x) =
        some (HC_Get_Cell_By_Dirs fin.prevDir HC_DIR_RIGHT).1 ∧
      (∀ fuel, F ≤ fuel →
        HC_Algo_Complete fuel algo = some fin ∧
        ∃ s, HC_Algo_Advance_times fuel (4 ^ 1 - 1) algo = some s ∧
          HC_Algo_Advance fuel s = some (fin, true) ∧
          s.x = fin.x ∧ s.y = fin.y ∧
          cells_write s.graph.cells (s.y * s.graph.sidelen + s.x)
            (HC_Get_Cell_By_Dirs s.prevDir HC_DIR_RIGHT).1 = some fin.graph.cells) ∧
      ∀ fuel m s r, HC_Algo_Advance_times fuel m algo = some s →
        HC_Algo_Advance fuel s = some (r, true) → r = fin) :=
  ⟨⟨by decide, by decide⟩, C18_run_ends_bottom_right_heading_right 1 (by decide) (by decide)⟩

/-- **C19.** The shape returned by `HC_Get_Cell_By_Dirs` is symmetric in its two
arguments, for all values of `HilbertDir_t`; for directions `a ≠ b` and `c ≠ d`
among Right, Down, Left, Up, `HC_Get_Cell_By_Dirs(a, b)` and
`HC_Get_Cell_By_Dirs(c, d)` are the same shape exactly when `{a, b} = {c, d}`; and
each of the six shapes other than `HC_CELL_NONE` is the image of exactly two
ordered pairs of directions, `(a, b)` and `(b, a)` for some `a ≠ b`. -/
theorem C19_classify_symmetric_injective :
    (∀ a b : HilbertDir_t, (HC_Get_Cell_By_Dirs a b).1 = (HC_Get_Cell_By_Dirs b a).1) ∧
    (∀ a b c d : HilbertDir_t, a ∈ HC_directions → b ∈ HC_directions → c ∈ HC_directions →
      d ∈ HC_directions → a ≠ b → c ≠ d →
      ((HC_Get_Cell_By_Dirs a b).1 = (HC_Get_Cell_By_Dirs c d).1 ↔
        (a = c ∧ b = d) ∨ (a = d ∧ b = c))) ∧
    (∀ s : HilbertCell_t, s ≠ HC_CELL_NONE →
      ∃ a b, a ∈ HC_directions ∧ b ∈ HC_directions ∧ a ≠ b ∧
        ∀ c d, c ∈ HC_directions → d ∈ HC_directions →
          ((HC_Get_Cell_By_Dirs c d).1 = s ↔ (c = a ∧ d = b) ∨ (c = b ∧ d = a))) := by
  refine ⟨by decide, ?_, ?_⟩
  · intro a b c d
    cases a <;> cases b <;> cases c <;> cases d <;> decide
  · intro s hs
    cases s with
    | HC_CELL_NONE => exact absurd rfl hs
    | HC_CELL_VERT => exact ⟨HC_DIR_UP, HC_DIR_DOWN, by decide, by decide, by decide, by decide⟩
    | HC_CELL_HORZ => exact ⟨HC_DIR_LEFT, HC_DIR_RIGHT, by decide, by decide, by decide, by decide⟩
    | HC_CELL_U_R => exact ⟨HC_DIR_UP, HC_DIR_RIGHT, by decide, by decide, by decide, by decide⟩
    | HC_CELL_D_R => exact ⟨HC_DIR_DOWN, HC_DIR_RIGHT, by decide, by decide, by decide, by decide⟩
    | HC_CELL_D_L => exact ⟨HC_DIR_DOWN, HC_DIR_LEFT, by decide, by decide, by decide, by decide⟩
    | HC_CELL_U_L => exact ⟨HC_DIR_UP, HC_DIR_LEFT, by decide, by decide, by decide, by decide⟩

theorem C19_classify_symmetric_injective_witness :
    ((HC_Get_Cell_By_Dirs HC_DIR_UP HC_DIR_DOWN).1 = (HC_Get_Cell_By_Dirs HC_DIR_DOWN HC_DIR_UP).1 ↔
      (HC_DIR_UP = HC_DIR_DOWN ∧ HC_DIR_DOWN = HC_DIR_UP) ∨
        (HC_DIR_UP = HC_DIR_UP ∧ HC_DIR_DOWN = HC_DIR_DOWN)) ∧
    (∃ a b, a ∈ HC_directions ∧ b ∈ HC_directions ∧ a ≠ b ∧
      ∀ c d, c ∈ HC_directions → d ∈ HC_directions →
        ((HC_Get_Cell_By_Dirs c d).1 = HC_CELL_VERT ↔ (c = a ∧ d = b) ∨ (c = b ∧ d = a))) :=
  ⟨C19_classify_symmetric_injective.2.1 HC_DIR_UP HC_DIR_DOWN HC_DIR_DOWN HC_DIR_UP
      (by decide) (by decide) (by decide) (by decide) (by decide) (by decide),
    C19_classify_symmetric_injective.2.2 HC_CELL_VERT (by decide)⟩

end HC
